import Mathlib

/-!
# go-hbci: message plane

A shallow embedding of the HBCI message layer of go-hbci (packages `message`,
`segment`, `element`, `dialog`) and proofs about segment numbering, message
size, the signature and encryption envelopes, balances and the message header
codec.

Conventions of the embedding

* A Go `[]byte` and a Go `string` are both `Bytes` (a Go string is a byte
  sequence; `string(b)` and `[]byte(s)` are the identity).
* A Go `int` is an `Int`; where the 64-bit range matters (`strconv.Atoi`, the
  message counter of a dialog) the bound or the wrap-around is explicit.
* A pointer that may be nil is an `Option`. Segments are held by value: two
  entries of a message are two distinct segment objects.
* A Go function that returns `(T, error)` or may abort with a run-time panic
  returns an `Outcome T`.
* Mutation through a pointer receiver is explicit state passing: the function
  returns the updated receiver.
-/

set_option linter.dupNamespace false

namespace Hbci

/-! ## Definitions -/

/-- Byte slices and Go strings. -/
abbrev Bytes := List UInt8

/-- The bytes of a text whose characters all lie in ISO-8859-1, one byte per character. -/
def latin1 (s : String) : Bytes := s.toList.map (fun c => c.toNat.toUInt8)

/-- Result of a Go call: a value, a returned `error`, or a run-time panic. -/
inductive Outcome (α : Type) where
  | ok : α → Outcome α
  | error : String → Outcome α
  | aborted : String → Outcome α
deriving DecidableEq, Repr

/-- The separator `+` between data elements. -/
def plusSign : UInt8 := 43
/-- The separator `:` between group data elements. -/
def colon : UInt8 := 58
/-- The segment terminator, the single quote. -/
def quote : UInt8 := 39
/-- The escape character `?`. -/
def questionMark : UInt8 := 63
/-- The digit `0`. -/
def zeroDigit : UInt8 := 48
/-- The minus sign. -/
def minusSign : UInt8 := 45

/-- Decimal digits of a natural number, most significant first (`strconv.Itoa` on a
non-negative value). -/
def natDigits (n : Nat) : Bytes := (Nat.toDigits 10 n).map (fun c => c.toNat.toUInt8)

/-- Decimal rendering of an integer (`strconv.Itoa`, `%d`). -/
def itoa (i : Int) : Bytes :=
  if i < 0 then minusSign :: natDigits i.natAbs else natDigits i.natAbs

/-- Zero padding on the left up to a width; longer inputs are kept whole (`%0Nd`). -/
def zeroPad (width : Nat) (ds : Bytes) : Bytes :=
  List.replicate (width - ds.length) zeroDigit ++ ds

/-! ### package element -/

/-- The struct `element.SegmentHeader`: `ID:NUMBER:VERSION[:REFERENCE]`. -/
structure SegmentHeader where
  ID : Bytes
  Number : Int
  Version : Int
  Ref : Option Int
deriving DecidableEq, Repr

/-- Modelled from the spec: `SegmentHeader.SetNumber` (source not available), "rewrite each
segment header's number". -/
def SegmentHeader.SetNumber (h : SegmentHeader) (number : Int) : SegmentHeader :=
  { h with Number := number }

/-- Modelled from the spec: the wire form of a segment header,
`ID:NUMBER:VERSION[:REFERENCE]`. -/
def SegmentHeader.String (h : SegmentHeader) : Bytes :=
  h.ID ++ [colon] ++ itoa h.Number ++ [colon] ++ itoa h.Version ++
    (match h.Ref with
     | none => []
     | some r => colon :: itoa r)

/-- A value of the interface `element.DataElement` as the segment layer sees it: the
answer of `String()` and the answer of `MarshalHBCI()`. -/
structure DataElement where
  str : Bytes
  wire : Outcome Bytes
deriving DecidableEq, Repr

/-- The struct `element.DigitDataElement`, built by `NewDigit(val, maxLength)`. -/
structure DigitDataElement where
  val : Int
  maxLength : Nat
deriving DecidableEq, Repr

/-- The struct `element.NumberDataElement`, built by `NewNumber(val, maxLength)`. -/
structure NumberDataElement where
  val : Int
  maxLength : Nat
deriving DecidableEq, Repr

/-- The struct `element.AlphaNumericDataElement`, built by `NewAlphaNumeric(val, maxLength)`. -/
structure AlphaNumericDataElement where
  val : Bytes
  maxLength : Nat
deriving DecidableEq, Repr

/-- Modelled from the spec: `element.NewDigit` (source not available), construct-from-value. -/
def NewDigit (val : Int) (maxLength : Nat) : DigitDataElement := ⟨val, maxLength⟩

/-- Modelled from the spec: `element.NewNumber` (source not available), construct-from-value. -/
def NewNumber (val : Int) (maxLength : Nat) : NumberDataElement := ⟨val, maxLength⟩

/-- Modelled from the spec: `element.NewAlphaNumeric` (source not available), construct-from-value. -/
def NewAlphaNumeric (val : Bytes) (maxLength : Nat) : AlphaNumericDataElement := ⟨val, maxLength⟩

/-- Modelled from the spec: `element.NewIdentification` (source not available); an identification
is an alphanumeric element of at most 30 characters. -/
def NewIdentification (val : Bytes) : AlphaNumericDataElement := NewAlphaNumeric val 30

/-- Modelled from the spec: the wire form of a digit element, "fixed width with
leading-zero padding". -/
def DigitDataElement.String (d : DigitDataElement) : Bytes :=
  if d.val < 0 then minusSign :: zeroPad (d.maxLength - 1) (natDigits d.val.natAbs)
  else zeroPad d.maxLength (natDigits d.val.natAbs)

/-- Modelled from the spec: the wire form of a numeric element, decimal without leading
zeros. -/
def NumberDataElement.String (n : NumberDataElement) : Bytes := itoa n.val

/-- Modelled from the spec: escaping, "every occurrence of `+ : ' ?` is preceded by `?`". -/
def escape : Bytes → Bytes
  | [] => []
  | c :: cs =>
    if c = plusSign ∨ c = colon ∨ c = quote ∨ c = questionMark then
      questionMark :: c :: escape cs
    else c :: escape cs

/-- Modelled from the spec: the wire form of an alphanumeric element, its value escaped. -/
def AlphaNumericDataElement.String (a : AlphaNumericDataElement) : Bytes := escape a.val

/-- A digit element seen as a `DataElement`. -/
def DigitDataElement.toDataElement (d : DigitDataElement) : DataElement :=
  ⟨d.String, Outcome.ok d.String⟩

/-- A numeric element seen as a `DataElement`. -/
def NumberDataElement.toDataElement (n : NumberDataElement) : DataElement :=
  ⟨n.String, Outcome.ok n.String⟩

/-- An alphanumeric element seen as a `DataElement`. -/
def AlphaNumericDataElement.toDataElement (a : AlphaNumericDataElement) : DataElement :=
  ⟨a.String, Outcome.ok a.String⟩

/-! ### package segment -/

/-- A segment as the message layer sees it (the interfaces `segment.Segment` and
`segment.ClientSegment`): its header and the list returned by `elements()`, in which a
nil element is `none`. -/
structure Segment where
  Header : SegmentHeader
  elements : List (Option DataElement)
deriving DecidableEq, Repr

/-- Modelled from the spec: `Segment.SetNumber(numberFn)` (source not available): the number
function is called once and its answer becomes the header number. The function of
`SetNumbers` is the counter closure, so it is passed as the counter value `n`; the result is
the renumbered segment and the new counter. -/
def Segment.SetNumber (s : Segment) (n : Int) : Segment × Int :=
  ({ s with Header := s.Header.SetNumber (n + 1) }, n + 1)

/-- The text `strings.Join(parts, "+")`. -/
def joinPlus : List Bytes → Bytes
  | [] => []
  | [x] => x
  | x :: y :: rest => x ++ plusSign :: joinPlus (y :: rest)

/-- The `String()` answers of an element list; a nil element contributes the empty text. -/
def elementStrings : List (Option DataElement) → List Bytes
  | [] => []
  | none :: rest => [] :: elementStrings rest
  | some e :: rest => e.str :: elementStrings rest

/-- The `MarshalHBCI()` answers of an element list, stopping at the first failure; a nil
element contributes the empty byte string. -/
def elementWires : List (Option DataElement) → Outcome (List Bytes)
  | [] => Outcome.ok []
  | none :: rest =>
    match elementWires rest with
    | Outcome.ok ws => Outcome.ok ([] :: ws)
    | Outcome.error e => Outcome.error e
    | Outcome.aborted e => Outcome.aborted e
  | some e :: rest =>
    match e.wire with
    | Outcome.ok w =>
      match elementWires rest with
      | Outcome.ok ws => Outcome.ok (w :: ws)
      | Outcome.error err => Outcome.error err
      | Outcome.aborted err => Outcome.aborted err
    | Outcome.error err => Outcome.error err
    | Outcome.aborted err => Outcome.aborted err

/-- Modelled from the spec: `Segment.String()` (source not available): the segment header
"followed by `+` and data elements, terminated by `'`". -/
def Segment.String (s : Segment) : Bytes :=
  joinPlus (s.Header.String :: elementStrings s.elements) ++ [quote]

/-- Modelled from the spec: `Segment.MarshalHBCI()` (source not available): the same framing over
the marshalled elements; a failing element fails the segment. -/
def Segment.MarshalHBCI (s : Segment) : Outcome Bytes :=
  match elementWires s.elements with
  | Outcome.ok ws => Outcome.ok (joinPlus (s.Header.String :: ws) ++ [quote])
  | Outcome.error e => Outcome.error e
  | Outcome.aborted e => Outcome.aborted e

/-- Modelled from the spec: `NewBasicSegment(number, seg)` (source not available) builds the
header from the segment's `id()`, the given number and the segment's `version()`. -/
def NewBasicSegment (id : Bytes) (number version : Int) : SegmentHeader :=
  ⟨id, number, version, none⟩

/-- The struct `segment.MessageHeaderSegment` (HNHBK). -/
structure MessageHeaderSegment where
  Segment : SegmentHeader
  Size : DigitDataElement
  HBCIVersion : NumberDataElement
  DialogID : AlphaNumericDataElement
  Number : NumberDataElement
  Ref : Option DataElement
deriving DecidableEq, Repr

/-- The method `MessageHeaderSegment.version`. -/
def MessageHeaderSegment.version : Int := 3

/-- The method `MessageHeaderSegment.id`. -/
def MessageHeaderSegment.id : Bytes := latin1 "HNHBK"

/-- The function `segment.NewMessageHeaderSegment`. -/
def NewMessageHeaderSegment (size hbciVersion : Int) (dialogId : Bytes) (number : Int) :
    MessageHeaderSegment :=
  { Size := NewDigit size 12
    HBCIVersion := NewNumber hbciVersion 3
    DialogID := NewIdentification dialogId
    Number := NewNumber number 4
    Ref := none
    Segment := NewBasicSegment MessageHeaderSegment.id 1 MessageHeaderSegment.version }

/-- The method `MessageHeaderSegment.elements`. -/
def MessageHeaderSegment.elements (m : MessageHeaderSegment) : List (Option DataElement) :=
  [ some m.Size.toDataElement,
    some m.HBCIVersion.toDataElement,
    some m.DialogID.toDataElement,
    some m.Number.toDataElement,
    m.Ref ]

/-- The header segment seen through the `Segment` interface. -/
def MessageHeaderSegment.toSegment (m : MessageHeaderSegment) : Hbci.Segment :=
  ⟨m.Segment, m.elements⟩

/-- The method `MessageHeaderSegment.SetSize`. -/
def MessageHeaderSegment.SetSize (m : MessageHeaderSegment) (size : Int) : MessageHeaderSegment :=
  { m with Size := NewDigit size 12 }

/-- The promoted method `SetNumber` of the header segment. -/
def MessageHeaderSegment.SetNumber (m : MessageHeaderSegment) (n : Int) :
    MessageHeaderSegment × Int :=
  ({ m with Segment := m.Segment.SetNumber (n + 1) }, n + 1)

/-- The struct `segment.MessageEndSegment` (HNHBS). -/
structure MessageEndSegment where
  Segment : SegmentHeader
  Number : NumberDataElement
deriving DecidableEq, Repr

/-- The method `MessageEndSegment.version`. -/
def MessageEndSegment.version : Int := 1

/-- The method `MessageEndSegment.id`. -/
def MessageEndSegment.id : Bytes := latin1 "HNHBS"

/-- The function `segment.NewMessageEndSegment`. -/
def NewMessageEndSegment (segmentNumber messageNumber : Int) : MessageEndSegment :=
  { Number := NewNumber messageNumber 4
    Segment := NewBasicSegment MessageEndSegment.id segmentNumber MessageEndSegment.version }

/-- The method `MessageEndSegment.elements`. -/
def MessageEndSegment.elements (m : MessageEndSegment) : List (Option DataElement) :=
  [ some m.Number.toDataElement ]

/-- The end segment seen through the `Segment` interface. -/
def MessageEndSegment.toSegment (m : MessageEndSegment) : Hbci.Segment :=
  ⟨m.Segment, m.elements⟩

/-- The promoted method `SetNumber` of the end segment. -/
def MessageEndSegment.SetNumber (m : MessageEndSegment) (n : Int) : MessageEndSegment × Int :=
  ({ m with Segment := m.Segment.SetNumber (n + 1) }, n + 1)

/-! ### package domain -/

/-- The struct `domain.KeyName`. -/
structure KeyName where
  CountryCode : Int
  BankID : Bytes
  UserID : Bytes
  KeyType : Bytes
  KeyNumber : Int
  KeyVersion : Int
deriving DecidableEq, Repr

/-- The zero value `domain.KeyName{}`. -/
def KeyName.zero : KeyName := ⟨0, [], [], [], 0, 0⟩

/-! ### package message -/

/-- The struct `segment.HBCIVersion` as the message layer uses it: the constructors of the
signature header, the signature end and the encryption header (their source is not
available, so they are fields). -/
structure HBCIVersion where
  version : Int
  PinTanSignatureHeader : Bytes → Bytes → KeyName → Segment
  SignatureEnd : Int → Bytes → Segment
  PinTanEncryptionHeader : Bytes → KeyName → Segment

/-- The interface `message.SignatureProvider`. A provider fills data elements of the
segment it is handed; the segment header is written by `SetNumber` only. -/
structure SignatureProvider where
  Sign : Bytes → Outcome Bytes
  WriteSignatureHeader : List (Option DataElement) → List (Option DataElement)
  WriteSignature : List (Option DataElement) → Bytes → List (Option DataElement)

/-- The interface `message.CryptoProvider`. -/
structure CryptoProvider where
  Encrypt : Bytes → Outcome Bytes
  WriteEncryptionHeader : List (Option DataElement) → List (Option DataElement)

/-- The struct `message.BasicMessage`. `HBCIMessage` is the embedded interface value, nil or
the list answered by `HBCISegments()`, in which `none` is a nil segment pointer (the entry
that `reflect.ValueOf(segment).IsNil()` skips). -/
structure BasicMessage where
  Header : Option MessageHeaderSegment
  End : Option MessageEndSegment
  SignatureBegin : Option Segment
  SignatureEnd : Option Segment
  HBCIMessage : Option (List (Option Segment))
  hbciVersion : HBCIVersion
  marshaledContent : Bytes

/-- `SetNumber` on an optional signature segment, guarded by `!= nil` as in `SetNumbers`. -/
def setOptionalNumber (s : Option Segment) (n : Int) : Option Segment × Int :=
  match s with
  | none => (none, n)
  | some seg => (some (seg.SetNumber n).1, (seg.SetNumber n).2)

/-- The loop of `SetNumbers` over `HBCISegments()`: every non-nil segment takes the next
number. -/
def setBodyNumbers : List (Option Segment) → Int → List (Option Segment) × Int
  | [], n => ([], n)
  | none :: rest, n => (none :: (setBodyNumbers rest n).1, (setBodyNumbers rest n).2)
  | some s :: rest, n =>
    (some (s.SetNumber n).1 :: (setBodyNumbers rest (s.SetNumber n).2).1,
      (setBodyNumbers rest (s.SetNumber n).2).2)

/-- The method `BasicMessage.SetNumbers`. A nil `HBCIMessage` panics, and so does a nil
header or end (nil pointer dereference). -/
def BasicMessage.SetNumbers (b : BasicMessage) : Outcome BasicMessage :=
  match b.HBCIMessage with
  | none => Outcome.aborted "HBCIMessage must be set"
  | some segments =>
    match b.Header with
    | none => Outcome.aborted "nil pointer dereference"
    | some header =>
      let n0 : Int := 0
      let h := header.SetNumber n0
      let sb := setOptionalNumber b.SignatureBegin h.2
      let body := setBodyNumbers segments sb.2
      let se := setOptionalNumber b.SignatureEnd body.2
      match b.End with
      | none => Outcome.aborted "nil pointer dereference"
      | some e =>
        Outcome.ok
          { b with
            Header := some h.1
            SignatureBegin := sb.1
            HBCIMessage := some body.1
            SignatureEnd := se.1
            End := some (e.SetNumber se.2).1 }

/-- The segments of a message in emission order: message header, signature header if
present, the non-nil body segments, signature end if present, message end. -/
def BasicMessage.emitted (b : BasicMessage) : List Segment :=
  (b.Header.map MessageHeaderSegment.toSegment).toList ++ b.SignatureBegin.toList ++
    (match b.HBCIMessage with
     | none => []
     | some segments => segments.reduceOption) ++
    b.SignatureEnd.toList ++ (b.End.map MessageEndSegment.toSegment).toList

/-- The header numbers of the segments of a message in emission order. -/
def BasicMessage.numbers (b : BasicMessage) : List Int :=
  b.emitted.map (fun s => s.Header.Number)

/-- A segment with its header number blanked: everything `SetNumber` leaves alone. -/
def Segment.unnumbered (s : Segment) : Segment :=
  { s with Header := { s.Header with Number := 0 } }


/-- Sequencing of Go calls: the next step runs on a value, an error or a panic ends the
function with it (`if err != nil { return ..., err }`). -/
def Outcome.bind {α β : Type} (x : Outcome α) (f : α → Outcome β) : Outcome β :=
  match x with
  | Outcome.ok a => f a
  | Outcome.error e => Outcome.error e
  | Outcome.aborted e => Outcome.aborted e

/-- The guarded write of a signature segment: `if seg != nil { bytes, err := seg.MarshalHBCI();
...; buffer.Write(bytes) }`. -/
def writeOptional (s : Option Segment) (buffer : Bytes) : Outcome Bytes :=
  match s with
  | none => Outcome.ok buffer
  | some seg => seg.MarshalHBCI.bind fun sigBytes => Outcome.ok (buffer ++ sigBytes)

/-- The loop over `HBCISegments()` that marshals every non-nil segment into the buffer and
returns at the first error. -/
def writeBody : List (Option Segment) → Bytes → Outcome Bytes
  | [], buffer => Outcome.ok buffer
  | none :: rest, buffer => writeBody rest buffer
  | some s :: rest, buffer =>
    s.MarshalHBCI.bind fun segBytes => writeBody rest (buffer ++ segBytes)

/-- The buffer that `SetSize` (lines 131-164) and `MarshalHBCI` (lines 182-215) fill, by the
same statements: header, signature header if set, non-nil body segments, signature end if
set, end. -/
def BasicMessage.writeSegments (b : BasicMessage) (segments : List (Option Segment)) :
    Outcome Bytes :=
  match b.Header with
  | none => Outcome.aborted "nil pointer dereference"
  | some header =>
    header.toSegment.MarshalHBCI.bind fun headerBytes =>
    (writeOptional b.SignatureBegin ([] ++ headerBytes)).bind fun buffer1 =>
    (writeBody segments buffer1).bind fun buffer2 =>
    (writeOptional b.SignatureEnd buffer2).bind fun buffer3 =>
      match b.End with
      | none => Outcome.aborted "nil pointer dereference"
      | some e => e.toSegment.MarshalHBCI.bind fun endBytes => Outcome.ok (buffer3 ++ endBytes)

/-- The method `BasicMessage.SetSize`. -/
def BasicMessage.SetSize (b : BasicMessage) : Outcome BasicMessage :=
  match b.HBCIMessage with
  | none => Outcome.error "HBCIMessage must be set"
  | some segments =>
    (b.writeSegments segments).bind fun buffer =>
      match b.Header with
      | none => Outcome.aborted "nil pointer dereference"
      | some header =>
        Outcome.ok { b with Header := some (header.SetSize (buffer.length : Nat)) }

/-- The method `BasicMessage.MarshalHBCI`: the returned bytes and the receiver after the
call. -/
def BasicMessage.MarshalHBCI (b : BasicMessage) : Outcome (Bytes × BasicMessage) :=
  match b.HBCIMessage with
  | none => Outcome.error "HBCIMessage must be set"
  | some _ =>
    b.SetSize.bind fun b1 =>
      if b1.marshaledContent.length = 0 then
        match b1.HBCIMessage with
        | none => Outcome.aborted "nil pointer dereference"
        | some segments =>
          (b1.writeSegments segments).bind fun buffer =>
            Outcome.ok (buffer, { b1 with marshaledContent := buffer })
      else Outcome.ok (b1.marshaledContent, b1)

/-- The struct `message.BasicSignedMessage`. -/
structure BasicSignedMessage where
  message : BasicMessage

/-- The function `message.NewBasicSignedMessage`. -/
def NewBasicSignedMessage (message : BasicMessage) : BasicSignedMessage := ⟨message⟩

/-- The loop of `Sign` that writes `String()` of every non-nil body segment. -/
def writeBodyStrings : List (Option Segment) → Bytes → Bytes
  | [], buffer => buffer
  | none :: rest, buffer => writeBodyStrings rest buffer
  | some s :: rest, buffer => writeBodyStrings rest (buffer ++ s.String)

/-- What a call of `Sign` leaves behind: the receiver after the call, the bytes handed to
`provider.Sign`, and the returned pair (signed message or error). -/
structure SignResult where
  message : BasicMessage
  handed : Bytes
  returned : Outcome BasicSignedMessage

/-- The method `BasicMessage.Sign`. The outer `Outcome` is `aborted` when the call panics. -/
def BasicMessage.Sign (b : BasicMessage) (provider : SignatureProvider) : Outcome SignResult :=
  match b.HBCIMessage with
  | none => Outcome.aborted "HBCIMessage must be set"
  | some _ =>
    let sigBegin0 := b.hbciVersion.PinTanSignatureHeader [] [] KeyName.zero
    let sigBegin1 : Segment :=
      { sigBegin0 with elements := provider.WriteSignatureHeader sigBegin0.elements }
    let sigEnd0 := b.hbciVersion.SignatureEnd (-1) []
    let b1 : BasicMessage := { b with SignatureBegin := some sigBegin1, SignatureEnd := some sigEnd0 }
    b1.SetNumbers.bind fun b2 =>
      match b2.SignatureBegin, b2.SignatureEnd, b2.HBCIMessage with
      | some sigBegin, some sigEnd, some segments =>
        let buffer := writeBodyStrings segments ([] ++ sigBegin.String)
        match provider.Sign buffer with
        | Outcome.ok sig =>
          let sigEnd1 : Segment :=
            { sigEnd with elements := provider.WriteSignature sigEnd.elements sig }
          let b3 : BasicMessage := { b2 with SignatureEnd := some sigEnd1 }
          Outcome.ok ⟨b3, buffer, Outcome.ok (NewBasicSignedMessage b3)⟩
        | Outcome.error err => Outcome.ok ⟨b2, buffer, Outcome.error err⟩
        | Outcome.aborted err => Outcome.aborted err
      | _, _, _ => Outcome.aborted "nil pointer dereference"

/-- Modelled from the spec: `segment.EncryptedDataSegment` (source not available), the "opaque
payload" of an encrypted message. -/
structure EncryptedDataSegment where
  Data : Bytes
deriving DecidableEq, Repr

/-- Modelled from the spec: `segment.NewEncryptedDataSegment` (source not available) wraps the
ciphertext. -/
def NewEncryptedDataSegment (encryptedData : Bytes) : EncryptedDataSegment := ⟨encryptedData⟩

/-- Modelled from the spec: `message.EncryptedMessage` (source not available): "messageHeader,
encryptionHeader, encryptedDataSegment (opaque payload), messageEnd". -/
structure EncryptedMessage where
  Header : Option MessageHeaderSegment
  End : Option MessageEndSegment
  EncryptionHeader : Option Segment
  EncryptedData : Option EncryptedDataSegment
  hbciVersion : HBCIVersion

/-- Modelled from the spec: `message.NewEncryptedMessage` (source not available) keeps the header
and the end it is given. -/
def NewEncryptedMessage (header : Option MessageHeaderSegment) (e : Option MessageEndSegment)
    (hbciVersion : HBCIVersion) : EncryptedMessage :=
  ⟨header, e, none, none, hbciVersion⟩

/-- The guarded append of `Encrypt`: `if seg != nil { bytes, err := seg.MarshalHBCI(); ...;
messageBytes = append(messageBytes, bytes...) }`. -/
def appendOptional (s : Option Segment) (messageBytes : Bytes) : Outcome Bytes :=
  match s with
  | none => Outcome.ok messageBytes
  | some seg => seg.MarshalHBCI.bind fun sigBytes => Outcome.ok (messageBytes ++ sigBytes)

/-- The loop of `Encrypt` over `HBCISegments()`. -/
def appendBody : List (Option Segment) → Bytes → Outcome Bytes
  | [], messageBytes => Outcome.ok messageBytes
  | none :: rest, messageBytes => appendBody rest messageBytes
  | some s :: rest, messageBytes =>
    s.MarshalHBCI.bind fun segBytes => appendBody rest (messageBytes ++ segBytes)

/-- What a call of `Encrypt` does: the bytes handed to `provider.Encrypt` (`none` when the
provider is not called) and the returned pair. -/
structure EncryptResult where
  handed : Option Bytes
  returned : Outcome EncryptedMessage

/-- The method `BasicMessage.Encrypt`. -/
def BasicMessage.Encrypt (b : BasicMessage) (provider : CryptoProvider) : EncryptResult :=
  match b.HBCIMessage with
  | none => ⟨none, Outcome.error "HBCIMessage must be set"⟩
  | some segments =>
    let collected :=
      (appendOptional b.SignatureBegin []).bind fun m1 =>
      (appendBody segments m1).bind fun m2 =>
      appendOptional b.SignatureEnd m2
    match collected with
    | Outcome.error err => ⟨none, Outcome.error err⟩
    | Outcome.aborted err => ⟨none, Outcome.aborted err⟩
    | Outcome.ok messageBytes =>
      match provider.Encrypt messageBytes with
      | Outcome.error err => ⟨some messageBytes, Outcome.error err⟩
      | Outcome.aborted err => ⟨some messageBytes, Outcome.aborted err⟩
      | Outcome.ok encryptedMessage =>
        let encryptionMessage := NewEncryptedMessage b.Header b.End b.hbciVersion
        let header0 := b.hbciVersion.PinTanEncryptionHeader [] KeyName.zero
        let header1 : Segment :=
          { header0 with elements := provider.WriteEncryptionHeader header0.elements }
        ⟨some messageBytes,
          Outcome.ok
            { encryptionMessage with
              EncryptionHeader := some header1
              EncryptedData := some (NewEncryptedDataSegment encryptedMessage) }⟩


/-- The loop of `FindSegments` over `HBCISegments()`. There is no `IsNil` test here:
`segment.Header()` on a nil segment pointer panics. -/
def findSegmentsLoop (segmentID : Bytes) : List (Option Segment) → List Bytes → Outcome (List Bytes)
  | [], segments => Outcome.ok segments
  | none :: _, _ => Outcome.aborted "nil pointer dereference"
  | some s :: rest, segments =>
    if s.Header.ID = segmentID then findSegmentsLoop segmentID rest (segments ++ [s.String])
    else findSegmentsLoop segmentID rest segments

/-- The method `BasicMessage.FindSegments`; a nil `HBCIMessage` panics. -/
def BasicMessage.FindSegments (b : BasicMessage) (segmentID : Bytes) : Outcome (List Bytes) :=
  match b.HBCIMessage with
  | none => Outcome.aborted "nil pointer dereference"
  | some segments => findSegmentsLoop segmentID segments []

/-- The loop of `FindSegment`: the first segment with the id ends the search; `none` is the
answer `nil`. -/
def findSegmentLoop (segmentID : Bytes) : List (Option Segment) → Outcome (Option Bytes)
  | [] => Outcome.ok none
  | none :: _ => Outcome.aborted "nil pointer dereference"
  | some s :: rest =>
    if s.Header.ID = segmentID then Outcome.ok (some s.String)
    else findSegmentLoop segmentID rest

/-- The method `BasicMessage.FindSegment`; a nil `HBCIMessage` panics. -/
def BasicMessage.FindSegment (b : BasicMessage) (segmentID : Bytes) : Outcome (Option Bytes) :=
  match b.HBCIMessage with
  | none => Outcome.aborted "nil pointer dereference"
  | some segments => findSegmentLoop segmentID segments

/-- The interface `message.HBCIMessage` as a value: what its two methods answer. A method
that is promoted through an embedded pointer panics when that pointer is nil, so the answer
of `HBCIVersion()` is an `Outcome`. -/
structure HBCIMessage where
  HBCIVersion : Outcome HBCIVersion
  HBCISegments : List (Option Segment)

/-- The function `message.NewHBCIMessage`. -/
def NewHBCIMessage (hbciVersion : HBCIVersion) (segments : List (Option Segment)) :
    HBCIMessage :=
  { HBCIVersion := Outcome.ok hbciVersion, HBCISegments := segments }

/-- The function `message.NewBasicMessageWithHeaderAndEnd`; `none` is a nil interface value,
on which `message.HBCIVersion()` panics. -/
def NewBasicMessageWithHeaderAndEnd (header : Option MessageHeaderSegment)
    (e : Option MessageEndSegment) (message : Option HBCIMessage) : Outcome BasicMessage :=
  match message with
  | none => Outcome.aborted "invalid memory address or nil pointer dereference"
  | some m =>
    match m.HBCIVersion with
    | Outcome.ok version =>
      Outcome.ok
        { Header := header
          End := e
          SignatureBegin := none
          SignatureEnd := none
          HBCIMessage := some m.HBCISegments
          hbciVersion := version
          marshaledContent := [] }
    | Outcome.error err => Outcome.aborted err
    | Outcome.aborted err => Outcome.aborted err

/-- The function `message.NewBasicMessage`: it calls `message.HBCIVersion()` while it builds
the struct, so a panic of that call is a panic of the constructor. -/
def NewBasicMessage (message : Option HBCIMessage) : Outcome BasicMessage :=
  match message with
  | none => Outcome.aborted "invalid memory address or nil pointer dereference"
  | some m =>
    match m.HBCIVersion with
    | Outcome.ok version =>
      Outcome.ok
        { Header := none
          End := none
          SignatureBegin := none
          SignatureEnd := none
          HBCIMessage := some m.HBCISegments
          hbciVersion := version
          marshaledContent := [] }
    | Outcome.error err => Outcome.aborted err
    | Outcome.aborted err => Outcome.aborted err

/-- The struct `message.BasicClientMessage`: the embedded `*BasicMessage`, nil until it is
assigned, and the embedded `clientMessage`, held by the segments its `jobs()` answers. -/
structure BasicClientMessage where
  BasicMessage : Option BasicMessage
  clientMessage : List (Option Segment)

/-- The method `BasicClientMessage.HBCISegments`. -/
def BasicClientMessage.HBCISegments (b : BasicClientMessage) : List (Option Segment) :=
  b.clientMessage

/-- The method `HBCIVersion()` of a `*BasicClientMessage`. The type defines `HBCISegments()`
only; `HBCIVersion()` is promoted through the embedded `*BasicMessage` from the interface
value embedded there, so the call reads through the embedded pointer and panics when it is
nil, and panics when the interface value is nil. For a message that holds one, the answer is
the version the constructors took from that same value and stored in `hbciVersion`. -/
def BasicClientMessage.HBCIVersion (b : BasicClientMessage) : Outcome HBCIVersion :=
  match b.BasicMessage with
  | none => Outcome.aborted "invalid memory address or nil pointer dereference"
  | some m =>
    match m.HBCIMessage with
    | none => Outcome.aborted "invalid memory address or nil pointer dereference"
    | some _ => Outcome.ok m.hbciVersion

/-- A `*BasicClientMessage` seen through the interface `HBCIMessage`. -/
def BasicClientMessage.toHBCIMessage (b : BasicClientMessage) : HBCIMessage :=
  { HBCIVersion := b.HBCIVersion, HBCISegments := b.HBCISegments }

/-- The function `message.NewBasicClientMessage`: it builds `b` from the client message
alone, the embedded `*BasicMessage` still nil, hands `b` to `NewBasicMessage`, and assigns
the result to the embedded pointer. -/
def NewBasicClientMessage (clientMessage : List (Option Segment)) :
    Outcome BasicClientMessage :=
  let b : BasicClientMessage := { BasicMessage := none, clientMessage := clientMessage }
  match NewBasicMessage (some b.toHBCIMessage) with
  | Outcome.ok basicMessage => Outcome.ok { b with BasicMessage := some basicMessage }
  | Outcome.error err => Outcome.error err
  | Outcome.aborted err => Outcome.aborted err

/-! ### package dialog -/

/-- Modelled from the spec: `segment.NewDialogEndSegment` (source not available): the HKEND
segment "carrying that dialogId". The constructor's own segment number is not given by
the spec; it is a parameter here. -/
def NewDialogEndSegment (number : Int) (dialogId : Bytes) : Segment :=
  { Header := NewBasicSegment (latin1 "HKEND") number 1
    elements := [some (NewIdentification dialogId).toDataElement] }

/-- The struct `domain.BankId`. -/
structure BankId where
  CountryCode : Int
  ID : Bytes
deriving DecidableEq, Repr

/-- The struct `domain.AccountConnection`. -/
structure AccountConnection where
  AccountID : Bytes
  SubAccountCharacteristics : Bytes
  CountryCode : Int
  BankID : Bytes
deriving DecidableEq, Repr

/-- Modelled from the spec: `domain.AccountInformation` (source not available), an entry of
the dialog's account list; only its account connection is kept. -/
structure AccountInformation where
  AccountConnection : AccountConnection
deriving DecidableEq, Repr

/-- Modelled from the spec: `domain.Language` (source not available); `German` is the
constant `newDialog` uses, other languages are kept by their code. -/
inductive Language where
  | German : Language
  | other : Int → Language
deriving DecidableEq, Repr

/-- The struct `domain.UserParameterData`, by the field the dialog reads; the zero value has
version 0. -/
structure UserParameterData where
  Version : Int
deriving DecidableEq, Repr

/-- The struct `domain.BankParameterData`. -/
structure BankParameterData where
  Version : Int
  BankID : BankId
  BankName : Bytes
  MaxTransactionsPerMessage : Int
deriving DecidableEq, Repr

/-- The constant `initialDialogID`. -/
def initialDialogID : Bytes := latin1 "0"

/-- The constant `initialClientSystemID`. -/
def initialClientSystemID : Bytes := latin1 "0"

/-- The constant `anonymousClientID`. -/
def anonymousClientID : Bytes := latin1 "9999999999"

/-- The variable `validHBCIVersions` of package segment. -/
def validHBCIVersions : List Int := [201, 210, 220]

/-- The struct `dialog.dialog`. The HTTP client is outside the model. -/
structure dialog where
  hbciUrl : Bytes
  BankID : BankId
  ClientID : Bytes
  ClientSystemID : Bytes
  Language : Language
  UserParameterData : UserParameterData
  Accounts : List AccountInformation
  messageCount : Int
  dialogID : Bytes
  signatureProvider : SignatureProvider
  cryptoProvider : CryptoProvider
  BankParameterData : BankParameterData

/-- The function `newDialog`. Fields it does not name (`messageCount`,
`BankParameterData`) hold their zero value. -/
def newDialog (bankId : BankId) (hbciUrl : Bytes) (clientId : Bytes)
    (signatureProvider : SignatureProvider) (cryptoProvider : CryptoProvider) : dialog :=
  { hbciUrl := hbciUrl
    BankID := bankId
    ClientID := clientId
    ClientSystemID := initialClientSystemID
    Language := Language.German
    UserParameterData := ⟨0⟩
    Accounts := []
    signatureProvider := signatureProvider
    cryptoProvider := cryptoProvider
    dialogID := initialDialogID
    messageCount := 0
    BankParameterData := ⟨0, ⟨0, []⟩, [], 0⟩ }

/-- The method `dialog.UserParameterDataVersion`. -/
def dialog.UserParameterDataVersion (d : dialog) : Int := d.UserParameterData.Version

/-- The method `dialog.BankParameterDataVersion`. -/
def dialog.BankParameterDataVersion (d : dialog) : Int := d.BankParameterData.Version

/-- The sum of two Go `int` values on a 64-bit platform: an `int` holds the values from
-2^63 to 2^63 - 1, and a sum beyond them wraps around. The argument is the exact sum. -/
def wrapInt (i : Int) : Int :=
  (i + 9223372036854775808) % 18446744073709551616 - 9223372036854775808

/-- The method `dialog.nextMessageNumber`: the returned number and the dialog after the
call. `messageCount` is a Go `int`, so `messageCount += 1` wraps at the largest value. -/
def dialog.nextMessageNumber (d : dialog) : Int × dialog :=
  (wrapInt (d.messageCount + 1), { d with messageCount := wrapInt (d.messageCount + 1) })

/-- Modelled from the spec: `message.DialogFinishingMessage` (source not available): a client
message "whose body is exactly one HKEND segment". It embeds a `*BasicClientMessage`, which
`dialogEnd` assigns, and holds the segment in `DialogEnd`. -/
structure DialogFinishingMessage where
  BasicClientMessage : Option BasicClientMessage
  DialogEnd : Option Segment

/-- Modelled from the spec: `DialogFinishingMessage.jobs` (source not available) answers the
one segment `DialogEnd`. -/
def DialogFinishingMessage.jobs (m : DialogFinishingMessage) : List (Option Segment) :=
  [m.DialogEnd]

/-- The method `dialog.dialogEnd`: what the call returns and the dialog after the call. The
number is taken first; then `NewBasicClientMessage` runs on the new, still empty message,
and a panic there ends the call with the count already raised. After it the header, the end
and the HKEND segment are assigned; the message is held by pointer, so its `jobs()` then
answer the assigned segment. The number the HKEND constructor starts with comes from code
whose source is not available and is a parameter. -/
def dialog.dialogEnd (d : dialog) (hkendNumber : Int) :
    Outcome DialogFinishingMessage × dialog :=
  let dialogEnd : DialogFinishingMessage := { BasicClientMessage := none, DialogEnd := none }
  let next := d.nextMessageNumber
  let messageNum := next.1
  match NewBasicClientMessage dialogEnd.jobs with
  | Outcome.error err => (Outcome.error err, next.2)
  | Outcome.aborted err => (Outcome.aborted err, next.2)
  | Outcome.ok client =>
    match client.BasicMessage with
    | none => (Outcome.aborted "invalid memory address or nil pointer dereference", next.2)
    | some basicMessage =>
      let header := NewMessageHeaderSegment 0 220 d.dialogID messageNum
      let e := NewMessageEndSegment 8 messageNum
      let dialogEndSegment := NewDialogEndSegment hkendNumber d.dialogID
      (Outcome.ok
        { BasicClientMessage :=
            some
              { BasicMessage :=
                  some
                    { basicMessage with
                      Header := some header
                      End := some e
                      HBCIMessage := some [some dialogEndSegment] }
                clientMessage := [some dialogEndSegment] }
          DialogEnd := some dialogEndSegment },
       next.2)

/-- A call of one of the methods of `dialog`. -/
inductive dialogCall where
  | UserParameterDataVersion : dialogCall
  | BankParameterDataVersion : dialogCall
  | nextMessageNumber : dialogCall
  | dialogEnd : Int → dialogCall
  | post : Bytes → dialogCall
  | dial : Bytes → dialogCall

/-- The message numbers taken from the counter during a call, and the dialog after the call.
The two version readers only read; `post` and `dial` talk to the network and assign no field
of the dialog. `dialogEnd` takes its number through `nextMessageNumber`; when it panics
afterwards, the dialog is the one the call leaves behind. -/
def dialog.call (d : dialog) : dialogCall → List Int × dialog
  | dialogCall.UserParameterDataVersion => ([], d)
  | dialogCall.BankParameterDataVersion => ([], d)
  | dialogCall.nextMessageNumber => ([d.nextMessageNumber.1], d.nextMessageNumber.2)
  | dialogCall.dialogEnd hkendNumber => ([d.nextMessageNumber.1], (d.dialogEnd hkendNumber).2)
  | dialogCall.post _ => ([], d)
  | dialogCall.dial _ => ([], d)

/-- A sequence of calls on one dialog, by a caller that recovers from a panic of a call and
goes on with the dialog: all message numbers taken, in order, and the dialog at the end. -/
def dialog.run (d : dialog) : List dialogCall → List Int × dialog
  | [] => ([], d)
  | c :: rest => ((d.call c).1 ++ ((d.call c).2.run rest).1, ((d.call c).2.run rest).2)

/-! ### balances (package element, package domain) -/

/-- The bits of a Go `float64` (IEEE 754 binary64): sign, biased exponent, fraction. -/
structure Float64 where
  sign : Bool
  exponent : Fin 2048
  mantissa : Fin 4503599627370496
deriving DecidableEq, Repr

/-- Not-a-number: all exponent bits set and a non-zero fraction. -/
def Float64.isNaN (x : Float64) : Bool := x.exponent.val = 2047 && x.mantissa.val != 0

/-- Positive or negative zero. -/
def Float64.isZero (x : Float64) : Bool := x.exponent.val = 0 && x.mantissa.val = 0

/-- The comparison `x < 0`: x is a number, not a zero, and its sign bit is set. -/
def Float64.ltZero (x : Float64) : Bool := x.sign && !x.isNaN && !x.isZero

/-- The comparison `x > 0`. -/
def Float64.gtZero (x : Float64) : Bool := !x.sign && !x.isNaN && !x.isZero

/-- The comparison `x == y`: neither is NaN, and they are both zeros or have the same bits. -/
def Float64.eq (x y : Float64) : Bool :=
  !x.isNaN && !y.isNaN && ((x.isZero && y.isZero) || x = y)

/-- The function `math.Abs`: the sign bit is cleared. -/
def Float64.abs (x : Float64) : Float64 := { x with sign := false }

/-- The unary minus `-x`: the sign bit is flipped. -/
def Float64.neg (x : Float64) : Float64 := { x with sign := !x.sign }

/-- A value of `time.Time`, by its calendar fields and location name. -/
structure Time where
  year : Int
  month : Nat
  day : Nat
  hour : Nat
  minute : Nat
  second : Nat
  nanosecond : Nat
  location : Bytes
deriving DecidableEq, Repr

/-- The struct `domain.Amount`. -/
structure Amount where
  Amount : Float64
  Currency : Bytes
deriving DecidableEq, Repr

/-- The struct `domain.Balance`. -/
structure Balance where
  Amount : Amount
  TransmissionDate : Time
  TransmissionTime : Option Time
deriving DecidableEq, Repr

/-- The struct `element.ValueDataElement`. -/
structure ValueDataElement where
  val : Float64
deriving DecidableEq, Repr

/-- The struct `element.CurrencyDataElement`. -/
structure CurrencyDataElement where
  val : Bytes
deriving DecidableEq, Repr

/-- The struct `element.DateDataElement`. -/
structure DateDataElement where
  val : Time
deriving DecidableEq, Repr

/-- The struct `element.TimeDataElement`. -/
structure TimeDataElement where
  val : Time
deriving DecidableEq, Repr

/-- Modelled from the spec: `element.NewValue` (source not available), construct-from-value. -/
def NewValue (value : Float64) : ValueDataElement := ⟨value⟩

/-- Modelled from the spec: `element.NewCurrency` (source not available), construct-from-value. -/
def NewCurrency (currency : Bytes) : CurrencyDataElement := ⟨currency⟩

/-- Modelled from the spec: `element.NewDate` (source not available), construct-from-value. -/
def NewDate (date : Time) : DateDataElement := ⟨date⟩

/-- Modelled from the spec: `element.NewTime` (source not available), construct-from-value. -/
def NewTime (date : Time) : TimeDataElement := ⟨date⟩

/-- The struct `element.BalanceDataElement`; every field is a pointer. -/
structure BalanceDataElement where
  DebitCreditIndicator : Option AlphaNumericDataElement
  Amount : Option ValueDataElement
  Currency : Option CurrencyDataElement
  TransmissionDate : Option DateDataElement
  TransmissionTime : Option TimeDataElement
deriving DecidableEq, Repr

/-- The function `element.NewBalance`. -/
def NewBalance (amount : Amount) (date : Time) (withTime : Bool) : BalanceDataElement :=
  let debitCredit : Bytes := if amount.Amount.ltZero then latin1 "D" else latin1 "C"
  let b : BalanceDataElement :=
    { DebitCreditIndicator := some (NewAlphaNumeric debitCredit 1)
      Amount := some (NewValue amount.Amount.abs)
      Currency := some (NewCurrency amount.Currency)
      TransmissionDate := some (NewDate date)
      TransmissionTime := none }
  if withTime then { b with TransmissionTime := some (NewTime date) } else b

/-- The method `BalanceDataElement.Balance`; reading through a nil field panics. -/
def BalanceDataElement.Balance (b : BalanceDataElement) : Outcome Hbci.Balance :=
  match b.DebitCreditIndicator, b.Amount, b.Currency, b.TransmissionDate with
  | some indicator, some value, some cur, some date =>
    let sign := indicator.val
    let val := if sign = latin1 "D" then value.val.neg else value.val
    let currency := cur.val
    let amount : Hbci.Amount := { Amount := val, Currency := currency }
    let balance : Hbci.Balance :=
      { Amount := amount, TransmissionDate := date.val, TransmissionTime := none }
    match b.TransmissionTime with
    | some transmissionTime => Outcome.ok { balance with TransmissionTime := some transmissionTime.val }
    | none => Outcome.ok balance
  | _, _, _, _ => Outcome.aborted "nil pointer dereference"

/-! ### the message header codec (package segment) -/

/-- The function `bytes.TrimSuffix(value, "'")`. -/
def trimQuoteSuffix (value : Bytes) : Bytes :=
  if value.getLast? = some quote then value.dropLast else value

/-- The function `bytes.Split(s, sep)` for a separator of one byte: the pieces between the
separators, `count + 1` of them. -/
def splitBytes (sep : UInt8) : Bytes → List Bytes
  | [] => [[]]
  | c :: cs =>
    if c = sep then [] :: splitBytes sep cs
    else
      match splitBytes sep cs with
      | [] => [[c]]
      | piece :: pieces => (c :: piece) :: pieces

/-- An ASCII decimal digit. -/
def isDigit (c : UInt8) : Bool := 48 ≤ c.toNat && c.toNat ≤ 57

/-- The value of a string of decimal digits. -/
def digitsValue (ds : Bytes) : Nat := ds.foldl (fun acc c => acc * 10 + (c.toNat - 48)) 0

/-- The function `strconv.Atoi` on a 64-bit platform: an optional sign, then at least one
digit and nothing but digits (else a syntax error); a value outside the range of `int` is a
range error. -/
def Atoi (s : Bytes) : Outcome Int :=
  let negative := s.head? = some minusSign
  let ds := if s.head? = some minusSign ∨ s.head? = some plusSign then s.tail else s
  if ds = [] ∨ ¬ ds.all isDigit = true then Outcome.error "strconv.Atoi: invalid syntax"
  else if negative then
    (if 9223372036854775808 < digitsValue ds then Outcome.error "strconv.Atoi: value out of range"
     else Outcome.ok (-(digitsValue ds : Int)))
  else
    (if 9223372036854775807 < digitsValue ds then Outcome.error "strconv.Atoi: value out of range"
     else Outcome.ok (digitsValue ds : Int))

/-- What a call of `UnmarshalHBCI` leaves behind: the returned error (or `ok`) and the
receiver after the call. -/
structure UnmarshalResult where
  returned : Outcome Unit
  segment : MessageHeaderSegment
deriving DecidableEq, Repr

/-- The method `MessageHeaderSegment.UnmarshalHBCI`. -/
def MessageHeaderSegment.UnmarshalHBCI (m : MessageHeaderSegment) (value : Bytes) :
    UnmarshalResult :=
  let value1 := trimQuoteSuffix value
  let elems := splitBytes plusSign value1
  let elementsLen := elems.length
  if elementsLen = 0 ∨ elementsLen < 5 then ⟨Outcome.error "Malformed marshaled value", m⟩
  else
    let header := elems.getD 0 []
    match (splitBytes colon header).get? 1 with
    | none => ⟨Outcome.aborted "index out of range [1]", m⟩
    | some numStr =>
      match Atoi numStr with
      | Outcome.aborted e => ⟨Outcome.aborted e, m⟩
      | Outcome.error _ => ⟨Outcome.error "Malformed segment header", m⟩
      | Outcome.ok num =>
        let m1 : MessageHeaderSegment :=
          { m with Segment := NewBasicSegment MessageHeaderSegment.id num MessageHeaderSegment.version }
        match Atoi (elems.getD 1 []) with
        | Outcome.aborted e => ⟨Outcome.aborted e, m1⟩
        | Outcome.error _ => ⟨Outcome.error "Error while unmarshaling size", m1⟩
        | Outcome.ok size =>
          match Atoi (elems.getD 2 []) with
          | Outcome.aborted e => ⟨Outcome.aborted e, m1⟩
          | Outcome.error _ => ⟨Outcome.error "Error while unmarshaling hbci version", m1⟩
          | Outcome.ok hbciVersion =>
            let dialogId := elems.getD 3 []
            match Atoi (elems.getD 4 []) with
            | Outcome.aborted e => ⟨Outcome.aborted e, m1⟩
            | Outcome.error _ => ⟨Outcome.error "Error while unmarshaling message number", m1⟩
            | Outcome.ok messageNum =>
              ⟨Outcome.ok (),
                { m1 with
                  Size := NewDigit size 12
                  HBCIVersion := NewNumber hbciVersion 3
                  DialogID := NewIdentification dialogId
                  Number := NewNumber messageNum 4 }⟩


/-- The `MarshalHBCI()` answers of a list of segments, in order, stopping at the first
failure. -/
def marshalAll : List Segment → Outcome (List Bytes)
  | [] => Outcome.ok []
  | s :: rest =>
    s.MarshalHBCI.bind fun w => (marshalAll rest).bind fun ws => Outcome.ok (w :: ws)

/-- A decimal integer on the wire: an optional minus sign, then one or more digits. -/
def isDecimalInteger (s : Bytes) : Bool :=
  if s.head? = some minusSign then (!s.tail.isEmpty && s.tail.all isDigit)
  else (!s.isEmpty && s.all isDigit)

/-- The integer a decimal integer denotes. -/
def decimalValue (s : Bytes) : Int :=
  if s.head? = some minusSign then -(digitsValue s.tail : Int) else (digitsValue s : Int)

/-- The range of a Go `int` on a 64-bit platform. -/
def fitsInt (i : Int) : Prop := -9223372036854775808 ≤ i ∧ i ≤ 9223372036854775807

/-- A separator of the wire format: `+`, `:` or the single quote. -/
def isSeparator (c : UInt8) : Bool := c = plusSign || c = colon || c = quote

/-- The wire form `HNHBK:<n>:3+<size>+<version>+<dialogId>+<msgNo>'` of a message header. -/
def headerWire (n size version dialogId msgNo : Bytes) : Bytes :=
  latin1 "HNHBK:" ++ n ++ latin1 ":3+" ++ size ++ [plusSign] ++ version ++ [plusSign] ++
    dialogId ++ [plusSign] ++ msgNo ++ [quote]

/-! ### key management (package hbci) -/

/-- The function `bytes.HasPrefix` (and `strings.HasPrefix`): `s` begins with `pre`. -/
def startsWith : Bytes → Bytes → Bool
  | _, [] => true
  | [], _ :: _ => false
  | c :: cs, p :: ps => c = p && startsWith cs ps

/-- The order `a <= b` of Go strings: byte-wise lexicographic. -/
def bytesLe : Bytes → Bytes → Bool
  | [], _ => true
  | _ :: _, [] => false
  | x :: xs, y :: ys => if x < y then true else if x = y then bytesLe xs ys else false

/-- The loop of `sort.Search`: binary search on `[i, j)`, one iteration per unit of fuel. -/
def searchLoop (f : Nat → Bool) : Nat → Nat → Nat → Nat
  | 0, i, _ => i
  | fuel + 1, i, j =>
    if i < j then
      if !f ((i + j) / 2) then searchLoop f fuel ((i + j) / 2 + 1) j
      else searchLoop f fuel i ((i + j) / 2)
    else i

/-- The function `sort.Search(n, f)`; `n` iterations are more than the loop ever makes. -/
def sortSearch (n : Nat) (f : Nat → Bool) : Nat := searchLoop f n 0 n

/-- The function `sort.SearchStrings(a, x)`: `sort.Search(len(a), a[i] >= x)`. -/
def SearchStrings (a : List Bytes) (x : Bytes) : Nat :=
  sortSearch a.length (fun i => bytesLe x (a.getD i []))

/-- The constants `KeyCompromitted`, `KeyMaybeCompromitted`, `KeyRevocationMisc` collected in
the variable `validRevocationReasons`. -/
def validRevocationReasons : List Bytes := [latin1 "1", latin1 "501", latin1 "999"]

/-- Modelled from the spec: the type `PublicKey` (source not available), opaque key
material. -/
structure PublicKey where
  Modulus : Bytes
  Exponent : Bytes
deriving DecidableEq, Repr

/-- Modelled from the spec: `KeyNameDataElement` (source not available), the element that
carries a key name. -/
structure KeyNameDataElement where
  val : KeyName
deriving DecidableEq, Repr

/-- Modelled from the spec: `PublicKeyDataElement` (source not available), the element that
carries the key it was given (a pointer). -/
structure PublicKeyDataElement where
  val : Option PublicKey
deriving DecidableEq, Repr

/-- Modelled from the spec: `SecurityDateDataElement` (source not available), built by
`NewSecurityDateDataElement(SecurityTimestamp, t)`: a security timestamp. -/
structure SecurityDateDataElement where
  isTimestamp : Bool
  date : Time
deriving DecidableEq, Repr

/-- Modelled from the spec: `NewSegmentHeader(id, number, version)` (source not
available). -/
def NewSegmentHeader (id : Bytes) (number version : Int) : SegmentHeader :=
  ⟨id, number, version, none⟩

/-- Modelled from the spec: `NewReferencingSegmentHeader(id, number, version, reference)`
(source not available). -/
def NewReferencingSegmentHeader (id : Bytes) (number version reference : Int) : SegmentHeader :=
  ⟨id, number, version, some reference⟩

/-- The struct `PublicKeyRenewalSegment` (HKSAK). -/
structure PublicKeyRenewalSegment where
  Header : SegmentHeader
  MessageID : NumberDataElement
  FunctionID : NumberDataElement
  KeyName : KeyNameDataElement
  PublicKey : PublicKeyDataElement
  Certificate : Option Bytes
deriving DecidableEq, Repr

/-- The function `NewPublicKeyRenewalSegment`. -/
def NewPublicKeyRenewalSegment (number : Int) (keyName : KeyName) (pubKey : Option PublicKey) :
    Outcome PublicKeyRenewalSegment :=
  if keyName.KeyType = latin1 "B" then Outcome.aborted "KeyType may not be 'B'"
  else
    Outcome.ok
      { MessageID := NewNumber 2 1
        FunctionID := NewNumber 112 3
        KeyName := ⟨keyName⟩
        PublicKey := ⟨pubKey⟩
        Certificate := none
        Header := NewSegmentHeader (latin1 "HKSAK") number 2 }

/-- The struct `PublicKeyRevocationSegment` (HKSSP). -/
structure PublicKeyRevocationSegment where
  Header : SegmentHeader
  MessageID : NumberDataElement
  FunctionID : NumberDataElement
  KeyName : KeyNameDataElement
  RevocationReason : AlphaNumericDataElement
  Date : SecurityDateDataElement
  Certificate : Option Bytes
deriving DecidableEq, Repr

/-- The function `NewPublicKeyRevocationSegment`; `now` is the answer of `time.Now()`. -/
def NewPublicKeyRevocationSegment (number : Int) (keyName : KeyName) (reason : Bytes)
    (now : Time) : Outcome PublicKeyRevocationSegment :=
  if SearchStrings validRevocationReasons reason > validRevocationReasons.length then
    Outcome.aborted "Reason must be one of [1 501 999]"
  else
    Outcome.ok
      { MessageID := NewNumber 2 1
        FunctionID := NewNumber 130 3
        KeyName := ⟨keyName⟩
        RevocationReason := NewAlphaNumeric reason 3
        Date := ⟨true, now⟩
        Certificate := none
        Header := NewSegmentHeader (latin1 "HKSSP") number 2 }

/-- The struct `PublicKeyRevocationConfirmationSegment` (HISSP). -/
structure PublicKeyRevocationConfirmationSegment where
  Header : SegmentHeader
  MessageID : NumberDataElement
  DialogID : AlphaNumericDataElement
  MessageRef : NumberDataElement
  FunctionID : NumberDataElement
  KeyName : KeyNameDataElement
  RevocationReason : AlphaNumericDataElement
  Date : SecurityDateDataElement
  Certificate : Option Bytes
deriving DecidableEq, Repr

/-- The function `NewPublicKeyRevocationConfirmationSegment`; `now` is the answer of
`time.Now()`, a nil `refSegment` is `none`. -/
def NewPublicKeyRevocationConfirmationSegment (dialogId : Bytes) (number messageReference : Int)
    (keyName : KeyName) (reason : Bytes) (refSegment : Option PublicKeyRevocationSegment)
    (now : Time) : Outcome PublicKeyRevocationConfirmationSegment :=
  if messageReference ≤ 0 then Outcome.aborted "Message Reference number must be greater 0"
  else if SearchStrings validRevocationReasons reason > validRevocationReasons.length then
    Outcome.aborted "Reason must be one of [1 501 999]"
  else
    match refSegment with
    | none => Outcome.aborted "nil pointer dereference"
    | some ref =>
      Outcome.ok
        { MessageID := NewNumber 1 1
          DialogID := NewIdentification dialogId
          MessageRef := NewNumber messageReference 4
          FunctionID := NewNumber 231 3
          KeyName := ⟨keyName⟩
          RevocationReason := NewAlphaNumeric reason 3
          Date := ⟨true, now⟩
          Certificate := none
          Header := NewReferencingSegmentHeader (latin1 "HISSP") number 2 ref.Header.Number }

/-! ### package swift -/

/-- The struct `swift.CustomFieldTag`. -/
structure CustomFieldTag where
  Tag : Bytes
  TransactionID : Int
  BookingText : Bytes
  PrimanotenNumber : Bytes
  Purpose : Bytes
  BankID : Int
  AccountID : Int
  Name : Bytes
  MessageKeyAddition : Int
  Purpose2 : Bytes
deriving DecidableEq, Repr

/-- A fresh `CustomFieldTag`: the zero value. -/
def CustomFieldTag.fresh : CustomFieldTag := ⟨[], 0, [], [], [], 0, 0, [], 0, []⟩

/-- The variable `customFieldTagFieldKeys`. -/
def customFieldTagFieldKeys : List Bytes :=
  [ latin1 "?00", latin1 "?10", latin1 "?20", latin1 "?21", latin1 "?22", latin1 "?23",
    latin1 "?24", latin1 "?25", latin1 "?26", latin1 "?27", latin1 "?28", latin1 "?29",
    latin1 "?30", latin1 "?31", latin1 "?32", latin1 "?33", latin1 "?34", latin1 "?60",
    latin1 "?61", latin1 "?62", latin1 "?63" ]

/-- The search of `bytes.Index` from offset `i` on. -/
def indexFrom : Bytes → Bytes → Nat → Option Nat
  | [], sep, i => if sep = [] then some i else none
  | c :: cs, sep, i => if startsWith (c :: cs) sep then some i else indexFrom cs sep (i + 1)

/-- The function `bytes.Index(s, sep)`: the index of the first instance of `sep` in `s`;
the answer -1 is `none`. -/
def bytesIndex (s sep : Bytes) : Option Nat := indexFrom s sep 0

/-- The slice expression `s[low:high]`; out of range it panics. -/
def sliceBytes (s : Bytes) (low high : Nat) : Outcome Bytes :=
  if low ≤ high ∧ high ≤ s.length then Outcome.ok ((s.take high).drop low)
  else Outcome.aborted "slice bounds out of range"

/-- The call `strings.Replace(s, "\r\n", "", -1)`: every CRLF is removed, left to right. -/
def removeCRLF : Bytes → Bytes
  | [] => []
  | [c] => [c]
  | c :: d :: rest => if c = 13 ∧ d = 10 then removeCRLF rest else c :: removeCRLF (d :: rest)

/-- The struct `swift.fieldKeyIndex`. -/
structure fieldKeyIndex where
  fieldKey : Bytes
  index : Nat
deriving DecidableEq, Repr

/-- The first loop of `CustomFieldTag.Unmarshal`: every catalogue key found in the
marshalled fields, in catalogue order, with the index of its first instance. -/
def findFieldKeys (marshaledFields : Bytes) : List fieldKeyIndex :=
  customFieldTagFieldKeys.filterMap fun fieldKey =>
    (bytesIndex marshaledFields fieldKey).map fun idx => ⟨fieldKey, idx⟩

/-- The `switch` of `CustomFieldTag.Unmarshal` for one field: the receiver after the
assignment, or the error of `strconv.Atoi`. -/
def CustomFieldTag.setField (c : CustomFieldTag) (fieldKey fieldValue : Bytes) :
    Outcome CustomFieldTag :=
  if startsWith fieldKey (latin1 "?00") then Outcome.ok { c with BookingText := fieldValue }
  else if startsWith fieldKey (latin1 "?10") then
    Outcome.ok { c with PrimanotenNumber := fieldValue }
  else if startsWith fieldKey (latin1 "?2") then
    Outcome.ok { c with Purpose := c.Purpose ++ removeCRLF fieldValue }
  else if startsWith fieldKey (latin1 "?30") then
    (Atoi fieldValue).bind fun bankId => Outcome.ok { c with BankID := bankId }
  else if startsWith fieldKey (latin1 "?31") then
    (Atoi fieldValue).bind fun accountId => Outcome.ok { c with AccountID := accountId }
  else if startsWith fieldKey (latin1 "?32") then Outcome.ok { c with Name := fieldValue }
  else if startsWith fieldKey (latin1 "?33") then
    Outcome.ok { c with Name := c.Name ++ latin1 " " ++ fieldValue }
  else if startsWith fieldKey (latin1 "?34") then
    (Atoi fieldValue).bind fun messageKeyAddition =>
      Outcome.ok { c with MessageKeyAddition := messageKeyAddition }
  else if startsWith fieldKey (latin1 "?6") then
    Outcome.ok { c with Purpose2 := c.Purpose2 ++ removeCRLF fieldValue }
  else Outcome.ok c

/-- What a call of `CustomFieldTag.Unmarshal` leaves behind: the returned error (or `ok`)
and the receiver after the call. -/
structure TagUnmarshalResult where
  returned : Outcome Unit
  tag : CustomFieldTag
deriving DecidableEq, Repr

/-- The second loop of `CustomFieldTag.Unmarshal` over the found fields: the value of a
field runs from behind its key to the index of the next entry of the list, or to the end
for the last entry. -/
def processFields (marshaledFields : Bytes) :
    List fieldKeyIndex → CustomFieldTag → TagUnmarshalResult
  | [], c => ⟨Outcome.ok (), c⟩
  | entry :: rest, c =>
    let nextFieldKeyIndex :=
      match rest with
      | [] => marshaledFields.length
      | next :: _ => next.index
    match sliceBytes marshaledFields (entry.index + 3) nextFieldKeyIndex with
    | Outcome.ok fieldValue =>
      match c.setField entry.fieldKey fieldValue with
      | Outcome.ok c1 => processFields marshaledFields rest c1
      | Outcome.error err => ⟨Outcome.error err, c⟩
      | Outcome.aborted err => ⟨Outcome.aborted err, c⟩
    | Outcome.error err => ⟨Outcome.error err, c⟩
    | Outcome.aborted err => ⟨Outcome.aborted err, c⟩

/-- The method `CustomFieldTag.Unmarshal`. The function `ExtractTagElements` (source not
available) is a parameter: it answers the tag id and the field value, or an error. -/
def CustomFieldTag.Unmarshal (ExtractTagElements : Bytes → Outcome (List Bytes))
    (c : CustomFieldTag) (value : Bytes) : TagUnmarshalResult :=
  match ExtractTagElements value with
  | Outcome.error err => ⟨Outcome.error err, c⟩
  | Outcome.aborted err => ⟨Outcome.aborted err, c⟩
  | Outcome.ok elems =>
    if elems.length ≠ 2 then
      ⟨Outcome.error "*swift.CustomFieldTag: Malformed marshaled value", c⟩
    else
      let c1 := { c with Tag := elems.getD 0 [] }
      match sliceBytes (elems.getD 1 []) 0 3 with
      | Outcome.error err => ⟨Outcome.error err, c1⟩
      | Outcome.aborted err => ⟨Outcome.aborted err, c1⟩
      | Outcome.ok code =>
        match Atoi code with
        | Outcome.error err => ⟨Outcome.error err, c1⟩
        | Outcome.aborted err => ⟨Outcome.aborted err, c1⟩
        | Outcome.ok tId =>
          let c2 := { c1 with TransactionID := tId }
          match sliceBytes (elems.getD 1 []) 3 (elems.getD 1 []).length with
          | Outcome.error err => ⟨Outcome.error err, c2⟩
          | Outcome.aborted err => ⟨Outcome.aborted err, c2⟩
          | Outcome.ok marshaledFields =>
            processFields marshaledFields (findFieldKeys marshaledFields) c2

/-- The catalogue key that stands at offset `q` of the field value, if one does. -/
def keyAt (s : Bytes) (q : Nat) : Option Bytes :=
  customFieldTagFieldKeys.find? fun k => startsWith (s.drop q) k

/-- The subfield keys of a field value as a reader of the format sees them: every offset at
which a catalogue key stands, from left to right. -/
def scanKeys (s : Bytes) : List fieldKeyIndex :=
  (List.range s.length).filterMap fun q => (keyAt s q).map fun k => ⟨k, q⟩

/-- The values of the subfields found by a scan: "the bytes after its three-byte key up to
the next subfield key (or the end of the value)". -/
def subfieldValues (s : Bytes) : List fieldKeyIndex → List (Bytes × Bytes)
  | [] => []
  | entry :: rest =>
    (entry.fieldKey,
      ((s.take (match rest with
                | [] => s.length
                | next :: _ => next.index)).drop (entry.index + 3))) ::
      subfieldValues s rest

/-- The purpose of a field value in the words of the spec: the values of the subfields `?20`
to `?29`, in order, each with its CRLFs removed, concatenated. -/
def purposeOf (s : Bytes) : Bytes :=
  (((subfieldValues s (scanKeys s)).filter fun kv => startsWith kv.1 (latin1 "?2")).map
    fun kv => removeCRLF kv.2).flatten

/-- The content `c` of a receiver that held `c0` before a call, set against the content `f`
that the same call leaves in a fresh tag: `Purpose` and `Purpose2` are the previous content
followed by the fresh one, `Name` is the fresh one or the previous one followed by it, and
every other field is the fresh one or the previous one. -/
def CustomFieldTag.continues (c c0 f : CustomFieldTag) : Prop :=
  c.Purpose = c0.Purpose ++ f.Purpose ∧ c.Purpose2 = c0.Purpose2 ++ f.Purpose2 ∧
    (c.Name = f.Name ∨ c.Name = c0.Name ++ f.Name) ∧
    (c.Tag = f.Tag ∨ c.Tag = c0.Tag) ∧
    (c.TransactionID = f.TransactionID ∨ c.TransactionID = c0.TransactionID) ∧
    (c.BookingText = f.BookingText ∨ c.BookingText = c0.BookingText) ∧
    (c.PrimanotenNumber = f.PrimanotenNumber ∨ c.PrimanotenNumber = c0.PrimanotenNumber) ∧
    (c.BankID = f.BankID ∨ c.BankID = c0.BankID) ∧
    (c.AccountID = f.AccountID ∨ c.AccountID = c0.AccountID) ∧
    (c.MessageKeyAddition = f.MessageKeyAddition ∨
      c.MessageKeyAddition = c0.MessageKeyAddition)

/-! ### bank parameter data (package segment, package element) -/

/-- Modelled from the spec: `charset.ToUtf8` (source not available): "ISO-8859-1 on the
wire; internal UTF-8". A byte below 0x80 stays, a byte from 0x80 on becomes the two bytes
of its code point. -/
def ToUtf8 : Bytes → Bytes
  | [] => []
  | b :: rest =>
    if b.toNat < 128 then b :: ToUtf8 rest
    else (192 + b.toNat / 64).toUInt8 :: (128 + b.toNat % 64).toUInt8 :: ToUtf8 rest

/-- The struct `element.BankIdentificationDataElement`; both fields are pointers. The
country code element is kept by its value. -/
structure BankIdentificationDataElement where
  CountryCode : Option Int
  BankID : Option AlphaNumericDataElement
deriving DecidableEq, Repr

/-- The functions the unmarshallers call whose source is not available: the element
extractor of package segment, the group element extractor of package element, the segment
header reader and the unmarshallers of country code, supported languages and supported
HBCI versions. -/
structure Extractors where
  ExtractElements : Bytes → Outcome (List Bytes)
  ExtractGroupElements : Bytes → Outcome (List Bytes)
  SegmentFromHeaderBytes : Bytes → Outcome SegmentHeader
  UnmarshalCountryCode : Bytes → Outcome Int
  UnmarshalSupportedLanguages : Bytes → Outcome (List Int)
  UnmarshalSupportedHBCIVersions : Bytes → Outcome (List Int)

/-- What an `UnmarshalHBCI` of a bank identification leaves behind. -/
structure BankIdentificationResult where
  returned : Outcome Unit
  element : BankIdentificationDataElement
deriving DecidableEq, Repr

/-- The method `BankIdentificationDataElement.UnmarshalHBCI`. -/
def BankIdentificationDataElement.UnmarshalHBCI (x : Extractors)
    (b : BankIdentificationDataElement) (value : Bytes) : BankIdentificationResult :=
  match x.ExtractGroupElements value with
  | Outcome.error err => ⟨Outcome.error err, b⟩
  | Outcome.aborted err => ⟨Outcome.aborted err, b⟩
  | Outcome.ok elems =>
    if elems.length < 2 then ⟨Outcome.error "Malformed marshaled value", b⟩
    else
      match x.UnmarshalCountryCode (elems.getD 0 []) with
      | Outcome.error err => ⟨Outcome.error err, b⟩
      | Outcome.aborted err => ⟨Outcome.aborted err, b⟩
      | Outcome.ok countryCode =>
        ⟨Outcome.ok (),
          { b with
            CountryCode := some countryCode
            BankID := some (NewAlphaNumeric (ToUtf8 (elems.getD 1 [])) 30) }⟩

/-- The struct `segment.CommonBankParameterSegment` (HIBPA); every field is a pointer or an
interface. The languages and versions elements are kept by their values. -/
structure CommonBankParameterSegment where
  Segment : Option SegmentHeader
  BPDVersion : Option NumberDataElement
  BankID : Option BankIdentificationDataElement
  BankName : Option AlphaNumericDataElement
  BusinessTransactionCount : Option NumberDataElement
  SupportedLanguages : Option (List Int)
  SupportedHBCIVersions : Option (List Int)
  MaxMessageSize : Option NumberDataElement
deriving DecidableEq, Repr

/-- A fresh `CommonBankParameterSegment`: the zero value. -/
def CommonBankParameterSegment.fresh : CommonBankParameterSegment :=
  ⟨none, none, none, none, none, none, none, none⟩

/-- What an `UnmarshalHBCI` of the bank parameter segment leaves behind. -/
structure BankParameterResult where
  returned : Outcome Unit
  segment : CommonBankParameterSegment
deriving DecidableEq, Repr

/-- The method `CommonBankParameterSegment.UnmarshalHBCI`. -/
def CommonBankParameterSegment.UnmarshalHBCI (x : Extractors) (c : CommonBankParameterSegment)
    (value : Bytes) : BankParameterResult :=
  match x.ExtractElements value with
  | Outcome.error err => ⟨Outcome.error err, c⟩
  | Outcome.aborted err => ⟨Outcome.aborted err, c⟩
  | Outcome.ok elems =>
    if elems.length = 0 ∨ elems.length < 7 then ⟨Outcome.error "Malformed marshaled value", c⟩
    else
      match x.SegmentFromHeaderBytes (elems.getD 0 []) with
      | Outcome.error err => ⟨Outcome.error err, c⟩
      | Outcome.aborted err => ⟨Outcome.aborted err, c⟩
      | Outcome.ok segment =>
        let c1 := { c with Segment := some segment }
        match Atoi (elems.getD 1 []) with
        | Outcome.error err => ⟨Outcome.error err, c1⟩
        | Outcome.aborted err => ⟨Outcome.aborted err, c1⟩
        | Outcome.ok version =>
          let c2 := { c1 with BPDVersion := some (NewNumber version 3) }
          match (BankIdentificationDataElement.UnmarshalHBCI x ⟨none, none⟩
              (elems.getD 2 [])) with
          | ⟨Outcome.error err, _⟩ => ⟨Outcome.error err, c2⟩
          | ⟨Outcome.aborted err, _⟩ => ⟨Outcome.aborted err, c2⟩
          | ⟨Outcome.ok _, bankId⟩ =>
            let c3 :=
              { c2 with
                BankID := some bankId
                BankName := some (NewAlphaNumeric (elems.getD 3 []) 60) }
            match Atoi (elems.getD 4 []) with
            | Outcome.error err => ⟨Outcome.error err, c3⟩
            | Outcome.aborted err => ⟨Outcome.aborted err, c3⟩
            | Outcome.ok transactionCount =>
              let c4 := { c3 with BusinessTransactionCount := some (NewNumber transactionCount 3) }
              match x.UnmarshalSupportedLanguages (elems.getD 5 []) with
              | Outcome.error err => ⟨Outcome.error err, c4⟩
              | Outcome.aborted err => ⟨Outcome.aborted err, c4⟩
              | Outcome.ok languages =>
                let c5 := { c4 with SupportedLanguages := some languages }
                match x.UnmarshalSupportedHBCIVersions (elems.getD 6 []) with
                | Outcome.error err => ⟨Outcome.error err, c5⟩
                | Outcome.aborted err => ⟨Outcome.aborted err, c5⟩
                | Outcome.ok versions =>
                  let c6 := { c5 with SupportedHBCIVersions := some versions }
                  if elems.length = 8 then
                    match Atoi (elems.getD 7 []) with
                    | Outcome.error err => ⟨Outcome.error err, c6⟩
                    | Outcome.aborted err => ⟨Outcome.aborted err, c6⟩
                    | Outcome.ok maxSize =>
                      ⟨Outcome.ok (), { c6 with MaxMessageSize := some (NewNumber maxSize 4) }⟩
                  else ⟨Outcome.ok (), c6⟩

/-! ### dates (package domain, package time) -/

/-- The location `time.UTC`, by its name. -/
def UTC : Bytes := latin1 "UTC"

/-- The zero value `time.Time{}`: January 1 of the year 1, 00:00:00 UTC. -/
def Time.zero : Time := ⟨1, 1, 1, 0, 0, 0, 0, UTC⟩

/-- The function `isLeap` of package time. -/
def isLeap (year : Int) : Bool := year % 4 = 0 && (year % 100 != 0 || year % 400 = 0)

/-- The function `daysIn` of package time: the number of days of a month of a year. -/
def daysIn (month : Nat) (year : Int) : Nat :=
  if month = 2 then (if isLeap year then 29 else 28)
  else if month = 4 ∨ month = 6 ∨ month = 9 ∨ month = 11 then 30
  else 31

/-- A time whose calendar fields are in their ranges, as every `time.Time` shows them: month
1 to 12, day 1 to the length of the month, hour below 24, minute and second below 60,
nanosecond below 10^9. -/
def Time.valid (t : Time) : Bool :=
  decide (1 ≤ t.month) && decide (t.month ≤ 12) && decide (1 ≤ t.day) &&
    decide (t.day ≤ daysIn t.month t.year) && decide (t.hour < 24) && decide (t.minute < 60) &&
    decide (t.second < 60) && decide (t.nanosecond < 1000000000)

/-- The day normalisation of `time.Date` ("October 32 converts to November 1"): a day below
1 or beyond the end of the month moves into the neighbouring months. Every step brings the
day at least 28 closer to its range, so `fuel` steps are enough when `fuel` is above the
absolute value of the day. -/
def normalizeDay : Nat → Int → Nat → Int → Int × Nat × Nat
  | 0, year, month, day => (year, month, day.toNat)
  | fuel + 1, year, month, day =>
    if day < 1 then
      let previousYear := if month ≤ 1 then year - 1 else year
      let previousMonth := if month ≤ 1 then 12 else month - 1
      normalizeDay fuel previousYear previousMonth (day + daysIn previousMonth previousYear)
    else if (daysIn month year : Int) < day then
      let nextYear := if 12 ≤ month then year + 1 else year
      let nextMonth := if 12 ≤ month then 1 else month + 1
      normalizeDay fuel nextYear nextMonth (day - daysIn month year)
    else (year, month, day.toNat)

/-- The function `time.Date`: values outside their usual ranges are normalised, the month
into the year, nanoseconds into seconds, seconds into minutes, minutes into hours, hours
into the day, and the day into the calendar. -/
def timeDate (year month day hour min sec nsec : Int) (loc : Bytes) : Time :=
  let m := month - 1
  let year1 := year + m / 12
  let month1 := (m % 12 + 1).toNat
  let sec1 := sec + nsec / 1000000000
  let nsec1 := nsec % 1000000000
  let min1 := min + sec1 / 60
  let sec2 := sec1 % 60
  let hour1 := hour + min1 / 60
  let min2 := min1 % 60
  let day1 := day + hour1 / 24
  let hour2 := hour1 % 24
  let date := normalizeDay (day1.natAbs + 1) year1 month1 day1
  ⟨date.1, date.2.1, date.2.2, hour2.toNat, min2.toNat, sec2.toNat, nsec1.toNat, loc⟩

/-- The last `width` decimal digits of a number, most significant first. -/
def fixedDigits : Nat → Nat → Bytes
  | 0, _ => []
  | width + 1, u => fixedDigits width (u / 10) ++ [(48 + u % 10).toUInt8]

/-- The function `appendInt` of package time: the decimal form of `x`, padded with zeros on
the left to `width` digits, behind a minus sign when `x` is negative. -/
def appendInt (x : Int) (width : Nat) : Bytes :=
  (if x < 0 then [minusSign] else []) ++
    (if x.natAbs < 10 ^ width then fixedDigits width x.natAbs else natDigits x.natAbs)

/-- The pieces of a layout of package time that the date layouts are made of: the year as
`2006`, the month as `01`, the day as `02`, and text that stands for itself. -/
inductive layoutChunk where
  | stdLongYear : layoutChunk
  | stdZeroMonth : layoutChunk
  | stdZeroDay : layoutChunk
  | text : Bytes → layoutChunk
deriving DecidableEq, Repr

/-- The layout `"2006-01-02"`, by its pieces. -/
def layoutDashed : List layoutChunk :=
  [layoutChunk.stdLongYear, layoutChunk.text (latin1 "-"), layoutChunk.stdZeroMonth,
    layoutChunk.text (latin1 "-"), layoutChunk.stdZeroDay]

/-- The layout `"20060102"`, by its pieces. -/
def layoutCompact : List layoutChunk :=
  [layoutChunk.stdLongYear, layoutChunk.stdZeroMonth, layoutChunk.stdZeroDay]

/-- The method `Time.Format` for a layout of these pieces; the fields are read in the
location of the time. -/
def Time.Format (t : Time) : List layoutChunk → Bytes
  | [] => []
  | layoutChunk.stdLongYear :: rest => appendInt t.year 4 ++ t.Format rest
  | layoutChunk.stdZeroMonth :: rest => appendInt t.month 2 ++ t.Format rest
  | layoutChunk.stdZeroDay :: rest => appendInt t.day 2 ++ t.Format rest
  | layoutChunk.text b :: rest => b ++ t.Format rest

/-- What `time.Parse` has read so far: the rest of the value and the fields; a month or day
of -1 is one not read yet. -/
structure parseState where
  value : Bytes
  year : Int
  month : Int
  day : Int
deriving DecidableEq, Repr

/-- The function `getnum` of package time with `fixed = true`: exactly two digits. -/
def getnum (value : Bytes) : Outcome (Int × Bytes) :=
  match value with
  | a :: b :: rest =>
    if isDigit a && isDigit b then
      Outcome.ok (((a.toNat - 48) * 10 + (b.toNat - 48) : Nat), rest)
    else Outcome.error "cannot parse"
  | _ => Outcome.error "cannot parse"

/-- One step of the loop of `time.Parse`: text must stand in the value as it is, the year is
four digits, month and day are two digits each, and a month outside 1 to 12 is a range
error. -/
def parseChunk (st : parseState) : layoutChunk → Outcome parseState
  | layoutChunk.text b =>
    if startsWith st.value b then Outcome.ok { st with value := st.value.drop b.length }
    else Outcome.error "cannot parse"
  | layoutChunk.stdLongYear =>
    if st.value.length < 4 ∨ ¬ (st.value.take 4).all isDigit then Outcome.error "cannot parse"
    else Outcome.ok { st with value := st.value.drop 4, year := digitsValue (st.value.take 4) }
  | layoutChunk.stdZeroMonth =>
    (getnum st.value).bind fun r =>
      if r.1 ≤ 0 ∨ 12 < r.1 then Outcome.error "month out of range"
      else Outcome.ok { st with value := r.2, month := r.1 }
  | layoutChunk.stdZeroDay =>
    (getnum st.value).bind fun r => Outcome.ok { st with value := r.2, day := r.1 }

/-- The loop of `time.Parse` over the pieces of the layout. -/
def parseChunks : List layoutChunk → parseState → Outcome parseState
  | [], st => Outcome.ok st
  | c :: rest, st => (parseChunk st c).bind fun st1 => parseChunks rest st1

/-- The function `time.Parse` for a layout of these pieces: text left over is an error, the
day must exist in its month, and the result is `Date(year, month, day, 0, 0, 0, 0, UTC)`. -/
def timeParse (layout : List layoutChunk) (value : Bytes) : Outcome Time :=
  (parseChunks layout ⟨value, 0, -1, -1⟩).bind fun st =>
    if st.value ≠ [] then Outcome.error "extra text"
    else
      let month := if st.month < 0 then 1 else st.month
      let day := if st.day < 0 then 1 else st.day
      if day < 1 ∨ (daysIn month.toNat st.year : Int) < day then Outcome.error "day out of range"
      else Outcome.ok (timeDate st.year month day 0 0 0 0 UTC)

/-- The pair `time, err := time.Parse(layout, value)` as the callers use it: on an error the
time is the zero time. -/
def parsedTime (r : Outcome Time) : Time :=
  match r with
  | Outcome.ok t => t
  | _ => Time.zero

/-- The method `Time.IsZero`: the time is the zero instant, January 1 of the year 1,
00:00:00 UTC. A location is held by its name only, so the instant of a time outside UTC is
not determined by its fields: the answer is given for times in UTC, `none` otherwise. -/
def Time.IsZero (t : Time) : Option Bool :=
  if t.location = UTC then some (decide (t = Time.zero)) else none

/-- The struct `domain.ShortDate`. -/
structure ShortDate where
  Time : Hbci.Time
deriving DecidableEq, Repr

set_option linter.unusedVariables false in
/-- The function `domain.Date`. -/
def Date (year month day : Int) (location : Bytes) : ShortDate :=
  ⟨timeDate year month day 0 0 0 0 UTC⟩

/-- The function `domain.NewShortDate`. -/
def NewShortDate (date : Time) : ShortDate :=
  Date date.year date.month date.day date.location

/-- The double quote. -/
def doubleQuote : UInt8 := 34

/-- The backslash. -/
def backslash : UInt8 := 92

/-- A byte that `json.Marshal` and `strconv.Unquote` take as it is: printable ASCII other
than the double quote, the backslash and the characters `<`, `>`, `&` that `json.Marshal`
escapes. -/
def isPlainByte (c : UInt8) : Bool :=
  decide (32 ≤ c.toNat) && decide (c.toNat ≤ 126) && c != doubleQuote && c != backslash &&
    c != 60 && c != 62 && c != 38

/-- The call `json.Marshal(s)` for a string of plain bytes: the string between double
quotes, no error. Strings that need escapes are outside the model (`none`). -/
def jsonMarshalString (s : Bytes) : Option Bytes :=
  if s.all isPlainByte then some ([doubleQuote] ++ s ++ [doubleQuote]) else none

/-- The function `strconv.Unquote`: a text of fewer than two bytes or one that does not
start with a quote character is a syntax error; a double-quoted text of plain bytes gives
the bytes between the quotes. Escapes, single quotes, back quotes and bytes outside ASCII
are outside the model (`none`). -/
def Unquote (s : Bytes) : Option (Outcome Bytes) :=
  if s.length < 2 then some (Outcome.error "invalid syntax")
  else if s.head? ≠ some doubleQuote ∧ s.head? ≠ some quote ∧ s.head? ≠ some 96 then
    some (Outcome.error "invalid syntax")
  else if s.head? = some doubleQuote ∧ s.getLast? = some doubleQuote ∧
      (s.tail.dropLast).all isPlainByte then
    some (Outcome.ok s.tail.dropLast)
  else none

/-- What a call on a `*ShortDate` leaves behind: the returned error (or `ok`) and the
receiver after the call. -/
structure ShortDateResult where
  returned : Outcome Unit
  date : ShortDate
deriving DecidableEq, Repr

/-- The method `ShortDate.MarshalJSON`: the returned bytes; `json.Marshal` of a string
returns no error. -/
def ShortDate.MarshalJSON (s : ShortDate) : Option Bytes :=
  match s.Time.IsZero with
  | none => none
  | some true => jsonMarshalString []
  | some false => jsonMarshalString (s.Time.Format layoutDashed)

/-- The method `ShortDate.UnmarshalJSON`: the error of `strconv.Unquote` is dropped, the
time of `time.Parse` is stored whatever the error, and the error is returned. -/
def ShortDate.UnmarshalJSON (s : ShortDate) (data : Bytes) : Option ShortDateResult :=
  (Unquote data).map fun unquoted =>
    let unquotedData : Bytes :=
      match unquoted with
      | Outcome.ok v => v
      | _ => []
    match timeParse layoutDashed unquotedData with
    | Outcome.ok t => ⟨Outcome.ok (), { s with Time := t }⟩
    | Outcome.error err => ⟨Outcome.error err, { s with Time := Time.zero }⟩
    | Outcome.aborted err => ⟨Outcome.aborted err, s⟩

/-- The method `ShortDate.MarshalText`. -/
def ShortDate.MarshalText (s : ShortDate) : Bytes := s.Time.Format layoutDashed

/-- The struct `domain.Timeframe`. -/
structure Timeframe where
  StartDate : ShortDate
  EndDate : ShortDate
deriving DecidableEq, Repr

/-- The zero value `Timeframe{}`. -/
def Timeframe.zero : Timeframe := ⟨⟨Time.zero⟩, ⟨Time.zero⟩⟩

/-- The type `url.Values`, a map from a key to its list of values, as an association list
in which the first entry of a key counts. -/
abbrev Values := List (Bytes × List Bytes)

/-- The method `url.Values.Get`: the first value of the key, the empty string when there is
none. -/
def Values.Get (v : Values) (key : Bytes) : Bytes :=
  match v.find? (fun kv => kv.1 = key) with
  | some kv => kv.2.headD []
  | none => []

/-- The method `url.Values.Set`: the key is set to the single value. -/
def Values.Set (v : Values) (key value : Bytes) : Values :=
  (key, [value]) :: v.filter (fun kv => kv.1 ≠ key)

/-- What `TimeframeFromQuery` returns: the timeframe and the error (or `ok`). -/
structure TimeframeResult where
  timeframe : Timeframe
  returned : Outcome Unit
deriving DecidableEq, Repr

/-- The function `domain.TimeframeFromQuery`. -/
def TimeframeFromQuery (params : Values) : TimeframeResult :=
  let fromValue := params.Get (latin1 "from")
  let toValue := params.Get (latin1 "to")
  if fromValue = [] ∨ toValue = [] then ⟨Timeframe.zero, Outcome.error "'from' and/or 'to' must be set"⟩
  else
    let parsedStart := timeParse layoutCompact fromValue
    let startDate : ShortDate := ⟨parsedTime parsedStart⟩
    let parsedEnd := timeParse layoutCompact toValue
    let endDate : ShortDate := ⟨parsedTime parsedEnd⟩
    match parsedStart, parsedEnd with
    | Outcome.ok _, Outcome.ok _ => ⟨⟨startDate, endDate⟩, Outcome.ok ()⟩
    | _, _ => ⟨Timeframe.zero, Outcome.error "Malformed query params"⟩

/-- The method `Timeframe.ToQuery`. -/
def Timeframe.ToQuery (tf : Timeframe) : Values :=
  let params : Values := []
  let params1 := params.Set (latin1 "from") (tf.StartDate.Time.Format layoutCompact)
  params1.Set (latin1 "to") (tf.EndDate.Time.Format layoutCompact)

/-- A text in the form YYYYMMDD that names a date: eight digits, the month from 01 to 12,
the day from 01 to the length of the month in that year. -/
def isYYYYMMDD (s : Bytes) : Bool :=
  decide (s.length = 8) && s.all isDigit &&
    decide (1 ≤ digitsValue ((s.drop 4).take 2)) && decide (digitsValue ((s.drop 4).take 2) ≤ 12) &&
    decide (1 ≤ digitsValue (s.drop 6)) &&
    decide (digitsValue (s.drop 6) ≤
      daysIn (digitsValue ((s.drop 4).take 2)) (digitsValue (s.take 4)))

/-- The date a text YYYYMMDD names, at midnight UTC. -/
def dateOfYYYYMMDD (s : Bytes) : ShortDate :=
  ⟨⟨digitsValue (s.take 4), digitsValue ((s.drop 4).take 2), digitsValue (s.drop 6), 0, 0, 0, 0,
    UTC⟩⟩

/-- The time of day of a time is zero: hour, minute, second and nanosecond. -/
def Time.atMidnight (t : Time) : Bool :=
  decide (t.hour = 0) && decide (t.minute = 0) && decide (t.second = 0) &&
    decide (t.nanosecond = 0)

/-- A date at midnight UTC: the fields in their ranges, the time of day zero, the location
UTC. -/
def ShortDate.midnightUTC (s : ShortDate) : Bool :=
  s.Time.valid && s.Time.atMidnight && decide (s.Time.location = UTC)

/-! ### the element extractor (package segment) -/

/-- The binary marker `@`. -/
def atSign : UInt8 := 64

/-- Where the extractor stands in a segment: in an element, behind an escape character, in
the length of a binary marker (the digits read so far), in a binary run (the raw bytes still
to come), or behind the segment terminator. -/
inductive extractMode where
  | element : extractMode
  | escaped : extractMode
  | marker : Bytes → extractMode
  | binary : Nat → extractMode
  | ended : extractMode
deriving DecidableEq, Repr

/-- The state of the extractor: the mode, the bytes of the current data element and the data
elements finished so far. -/
structure extractState where
  mode : extractMode
  current : Bytes
  elements : List Bytes
deriving DecidableEq, Repr

/-- Modelled from the spec: one byte read inside a data element (source not available).
"`?` escapes the next byte", "`+` separates data elements", "`'` ends a segment", and `@`
opens a binary marker "only in positions where the grammar permits a data element", at the
start of one; every other byte, `:` included, belongs to the element. The terminator drops
an empty element before it. -/
def extractElementByte (st : extractState) (c : UInt8) : extractState :=
  if c = questionMark then { st with mode := extractMode.escaped, current := st.current ++ [c] }
  else if c = plusSign then
    { mode := extractMode.element, current := [], elements := st.elements ++ [st.current] }
  else if c = quote then
    { mode := extractMode.ended, current := [],
      elements := if st.current = [] then st.elements else st.elements ++ [st.current] }
  else if c = atSign ∧ st.current = [] then
    { st with mode := extractMode.marker [], current := [c] }
  else { st with mode := extractMode.element, current := st.current ++ [c] }

/-- Modelled from the spec: one step of the extractor (source not available). An escaped
byte is a literal; `@<n>@` "introduces a binary run of exactly `<n>` raw bytes that are NOT
subject to escaping"; a marker that is not completed is text; a byte behind the terminator
is malformed framing. -/
def extractStep (st : extractState) (c : UInt8) : Outcome extractState :=
  match st.mode with
  | extractMode.element => Outcome.ok (extractElementByte st c)
  | extractMode.escaped =>
    Outcome.ok { st with mode := extractMode.element, current := st.current ++ [c] }
  | extractMode.marker digits =>
    if isDigit c then
      Outcome.ok { st with mode := extractMode.marker (digits ++ [c]), current := st.current ++ [c] }
    else if c = atSign ∧ digits ≠ [] then
      Outcome.ok
        { st with
          mode := if digitsValue digits = 0 then extractMode.element
                  else extractMode.binary (digitsValue digits)
          current := st.current ++ [c] }
    else Outcome.ok (extractElementByte { st with mode := extractMode.element } c)
  | extractMode.binary remaining =>
    Outcome.ok
      { st with
        mode := if remaining ≤ 1 then extractMode.element else extractMode.binary (remaining - 1)
        current := st.current ++ [c] }
  | extractMode.ended => Outcome.error "MalformedFraming: bytes behind the segment terminator"

/-- The extractor run over the bytes of a segment. -/
def extractRun : extractState → Bytes → Outcome extractState
  | st, [] => Outcome.ok st
  | st, c :: rest => (extractStep st c).bind fun st1 => extractRun st1 rest

/-- Modelled from the spec: `segment.ExtractElements` (source not available; its test is):
the data elements of a segment, cut at every unescaped `+`, without the segment terminator;
"unterminated segments" and "unterminated binary runs" are malformed framing. -/
def ExtractElements (segment : Bytes) : Outcome (List Bytes) :=
  (extractRun ⟨extractMode.element, [], []⟩ segment).bind fun st =>
    match st.mode with
    | extractMode.ended => Outcome.ok st.elements
    | extractMode.binary _ => Outcome.error "MalformedFraming: unterminated binary run"
    | _ => Outcome.error "MalformedFraming: unterminated segment"

/-- A text in which every `?` is followed by the byte it escapes and no `+` or `'` stands
unescaped. -/
def isEscapedText : Bytes → Bool
  | [] => true
  | [c] => c != questionMark && c != plusSign && c != quote
  | c :: d :: rest =>
    if c = questionMark then isEscapedText rest
    else c != plusSign && c != quote && isEscapedText (d :: rest)

/-- The text of one data element on the wire, without binary data: it does not start with
the binary marker, every `?` is followed by the byte it escapes, and no `+` or `'` stands
unescaped. -/
def isElementText (e : Bytes) : Bool := e.head? != some atSign && isEscapedText e

/-! ### the balance element on the wire (package element) -/

/-- What an `UnmarshalHBCI` of a data element leaves behind: the returned error (or `ok`)
and the element after the call. -/
structure ElementResult (α : Type) where
  returned : Outcome Unit
  element : α

/-- The functions `BalanceDataElement.UnmarshalHBCI` calls whose source is not available:
`ExtractElements` of package element, which cuts a group into its elements, and
`UnmarshalHBCI` of the five element types, each as its run on a new element. -/
structure ElementUnmarshallers where
  ExtractElements : Bytes → Outcome (List Bytes)
  AlphaNumeric : Bytes → ElementResult AlphaNumericDataElement
  Value : Bytes → ElementResult ValueDataElement
  Currency : Bytes → ElementResult CurrencyDataElement
  Date : Bytes → ElementResult DateDataElement
  Time : Bytes → ElementResult TimeDataElement

/-- What `BalanceDataElement.UnmarshalHBCI` leaves behind. -/
structure BalanceResult where
  returned : Outcome Unit
  element : BalanceDataElement
deriving DecidableEq, Repr

/-- The optional fifth element of `BalanceDataElement.UnmarshalHBCI`: read exactly when the
group has five elements. -/
def unmarshalTransmissionTime (x : ElementUnmarshallers) (b : BalanceDataElement)
    (elems : List Bytes) : BalanceResult :=
  if elems.length = 5 then
    let time := x.Time (elems.getD 4 [])
    ⟨time.returned, { b with TransmissionTime := some time.element }⟩
  else ⟨Outcome.ok (), b⟩

/-- The method `BalanceDataElement.UnmarshalHBCI`: every field is assigned a new element
before that element reads its bytes, and the first error ends the call. -/
def BalanceDataElement.UnmarshalHBCI (x : ElementUnmarshallers) (b : BalanceDataElement)
    (value : Bytes) : BalanceResult :=
  match x.ExtractElements value with
  | Outcome.error err => ⟨Outcome.error err, b⟩
  | Outcome.aborted err => ⟨Outcome.aborted err, b⟩
  | Outcome.ok elems =>
    if elems.length < 4 then
      ⟨Outcome.error "*element.BalanceDataElement: Malformed marshaled value", b⟩
    else
      let indicator := x.AlphaNumeric (elems.getD 0 [])
      let b1 := { b with DebitCreditIndicator := some indicator.element }
      match indicator.returned with
      | Outcome.error err => ⟨Outcome.error err, b1⟩
      | Outcome.aborted err => ⟨Outcome.aborted err, b1⟩
      | Outcome.ok _ =>
        let amount := x.Value (elems.getD 1 [])
        let b2 := { b1 with Amount := some amount.element }
        match amount.returned with
        | Outcome.error err => ⟨Outcome.error err, b2⟩
        | Outcome.aborted err => ⟨Outcome.aborted err, b2⟩
        | Outcome.ok _ =>
          let currency := x.Currency (elems.getD 2 [])
          let b3 := { b2 with Currency := some currency.element }
          match currency.returned with
          | Outcome.error err => ⟨Outcome.error err, b3⟩
          | Outcome.aborted err => ⟨Outcome.aborted err, b3⟩
          | Outcome.ok _ =>
            let date := x.Date (elems.getD 3 [])
            let b4 := { b3 with TransmissionDate := some date.element }
            match date.returned with
            | Outcome.error err => ⟨Outcome.error err, b4⟩
            | Outcome.aborted err => ⟨Outcome.aborted err, b4⟩
            | Outcome.ok _ => unmarshalTransmissionTime x b4 elems

/-! ### sample values -/

/-- A sample HBCI version: PIN/TAN signature header (HNSHK), signature end (HNSHA) and
encryption header (HNVSK) with a few representative elements. -/
def sampleVersion : HBCIVersion :=
  { version := 220
    PinTanSignatureHeader := fun controlReference clientSystemId _ =>
      { Header := NewBasicSegment (latin1 "HNSHK") 2 3
        elements :=
          [ some (NewAlphaNumeric (latin1 "999") 3).toDataElement,
            some (NewAlphaNumeric controlReference 14).toDataElement,
            some (NewAlphaNumeric clientSystemId 30).toDataElement ] }
    SignatureEnd := fun number controlReference =>
      { Header := NewBasicSegment (latin1 "HNSHA") number 1
        elements := [ some (NewAlphaNumeric controlReference 14).toDataElement, none ] }
    PinTanEncryptionHeader := fun clientSystemId _ =>
      { Header := NewBasicSegment (latin1 "HNVSK") 998 2
        elements :=
          [ some (NewAlphaNumeric (latin1 "998") 3).toDataElement,
            some (NewAlphaNumeric clientSystemId 30).toDataElement ] } }

/-- A sample signature provider: the signature is the text `PIN`, written into the second
element of the signature end. -/
def sampleSigner : SignatureProvider :=
  { Sign := fun _ => Outcome.ok (latin1 "PIN")
    WriteSignatureHeader := fun elems => elems
    WriteSignature := fun elems sig => elems.set 1 (some ⟨sig, Outcome.ok sig⟩) }

/-- A sample crypto provider: the ciphertext is the payload reversed. -/
def sampleCrypto : CryptoProvider :=
  { Encrypt := fun payload => Outcome.ok payload.reverse
    WriteEncryptionHeader := fun elems => elems }

/-- A sample crypto provider whose `Encrypt` fails. -/
def failingCrypto : CryptoProvider :=
  { Encrypt := fun _ => Outcome.error "no key"
    WriteEncryptionHeader := fun elems => elems }

/-- A sample body segment B1 (an identification segment with two elements). -/
def sampleB1 : Segment :=
  { Header := NewBasicSegment (latin1 "HKIDN") 3 2
    elements :=
      [ some (NewAlphaNumeric (latin1 "280:10020030") 40).toDataElement,
        some (NewIdentification (latin1 "9999999999")).toDataElement ] }

/-- A sample body segment B2 (a balance request with one element). -/
def sampleB2 : Segment :=
  { Header := NewBasicSegment (latin1 "HKSAL") 4 3
    elements := [ some (NewAlphaNumeric (latin1 "N") 1).toDataElement ] }

/-- A sample unsigned message with the body `[B1, B2]`, never marshalled. -/
def sampleMessage : BasicMessage :=
  { Header := some (NewMessageHeaderSegment 0 220 (latin1 "0") 1)
    End := some (NewMessageEndSegment 9 1)
    SignatureBegin := none
    SignatureEnd := none
    HBCIMessage := some [some sampleB1, none, some sampleB2]
    hbciVersion := sampleVersion
    marshaledContent := [] }

/-- The sample message after `SetNumbers`: header 1, B1 2, B2 3, end 4. -/
def sampleNumbered : BasicMessage :=
  { sampleMessage with
    HBCIMessage := some [some (sampleB1.SetNumber 1).1, none, some (sampleB2.SetNumber 2).1]
    End := some ((NewMessageEndSegment 9 1).SetNumber 3).1 }

/-- The sample message after `Sign` with the sample provider. -/
def sampleSigned : BasicMessage :=
  match sampleMessage.Sign sampleSigner with
  | Outcome.ok r => r.message
  | _ => sampleMessage

/-- A sample dialog in its initial state. -/
def sampleDialog : dialog :=
  newDialog ⟨280, latin1 "10020030"⟩ (latin1 "https://bank.example/hbci") anonymousClientID
    sampleSigner sampleCrypto

/-- A sample key name of key type `S`. -/
def sampleKeyName : KeyName := ⟨280, latin1 "10020030", latin1 "user", latin1 "S", 1, 1⟩

/-- A sample key name of key type `B`. -/
def sampleKeyNameB : KeyName := ⟨280, latin1 "10020030", latin1 "user", latin1 "B", 1, 1⟩

/-- A sample instant for `time.Now()`. -/
def sampleNow : Time := ⟨2015, 6, 1, 12, 0, 0, 0, latin1 "UTC"⟩

/-- A sample `ExtractTagElements` for tags of the form `:NN:value`: the tag id between the
first two colons, then the value. -/
def sampleExtractTagElements (value : Bytes) : Outcome (List Bytes) :=
  if value.head? = some colon then
    match bytesIndex value.tail [colon] with
    | some i => Outcome.ok [value.tail.take i, value.tail.drop (i + 1)]
    | none => Outcome.error "Malformed swift tag"
  else Outcome.error "Malformed swift tag"

/-- Every text of a list read with `strconv.Atoi`. -/
def atoiAll : List Bytes → Outcome (List Int)
  | [] => Outcome.ok []
  | x :: rest => (Atoi x).bind fun n => (atoiAll rest).bind fun ns => Outcome.ok (n :: ns)

/-- Sample extractors for segments without escapes and binary data: data elements are cut at
`+`, group elements at `:`, numbers are read with `strconv.Atoi`. -/
def sampleExtractors : Extractors :=
  { ExtractElements := fun value => Outcome.ok (splitBytes plusSign (trimQuoteSuffix value))
    ExtractGroupElements := fun value => Outcome.ok (splitBytes colon value)
    SegmentFromHeaderBytes := fun header =>
      match splitBytes colon header with
      | [id, number, version] =>
        (Atoi number).bind fun n => (Atoi version).bind fun v => Outcome.ok ⟨id, n, v, none⟩
      | [id, number, version, reference] =>
        (Atoi number).bind fun n => (Atoi version).bind fun v =>
          (Atoi reference).bind fun r => Outcome.ok ⟨id, n, v, some r⟩
      | _ => Outcome.error "Malformed segment header"
    UnmarshalCountryCode := Atoi
    UnmarshalSupportedLanguages := fun value => atoiAll (splitBytes colon value)
    UnmarshalSupportedHBCIVersions := fun value => atoiAll (splitBytes colon value) }

/-- The wire bytes of a bank parameter segment whose bank name is `M?nchen Bank` with the
ISO-8859-1 byte 0xFC for the u-umlaut. -/
def sampleBankParameterWire : Bytes :=
  latin1 "HIBPA:5:2:3+12+280:10020030+M" ++ [252] ++ latin1 "nchen Bank+3+1+201:210:220+0'"

/-- A sample revocation segment, as `NewPublicKeyRevocationSegment` builds it. -/
def sampleRevocation : PublicKeyRevocationSegment :=
  { MessageID := NewNumber 2 1
    FunctionID := NewNumber 130 3
    KeyName := ⟨sampleKeyName⟩
    RevocationReason := NewAlphaNumeric (latin1 "1") 3
    Date := ⟨true, sampleNow⟩
    Certificate := none
    Header := NewSegmentHeader (latin1 "HKSSP") 3 2 }

/-- A sample time in another location than UTC: March 1, 2016, 23:30 in Berlin. -/
def sampleBerlinTime : Time := ⟨2016, 3, 1, 23, 30, 0, 0, latin1 "Europe/Berlin"⟩

/-- A sample timeframe: March 1 to April 30, 2016. -/
def sampleTimeframe : Timeframe := ⟨Date 2016 3 1 UTC, Date 2016 4 30 UTC⟩

/-- A new `BalanceDataElement`: the zero value, every field nil. -/
def BalanceDataElement.fresh : BalanceDataElement := ⟨none, none, none, none, none⟩

/-- Sample element unmarshallers for a balance group without escapes: the group is cut at
`:`, an indicator is one byte, a value is the digit `0` followed by a comma (the amount
zero), a currency is three bytes, a date is a text YYYYMMDD and a time is six digits. -/
def sampleElementUnmarshallers : ElementUnmarshallers :=
  { ExtractElements := fun value => Outcome.ok (splitBytes colon value)
    AlphaNumeric := fun v =>
      if v.length = 1 then ⟨Outcome.ok (), NewAlphaNumeric v 1⟩
      else ⟨Outcome.error "Malformed alphanumeric", NewAlphaNumeric [] 1⟩
    Value := fun v =>
      if v = latin1 "0," then ⟨Outcome.ok (), NewValue ⟨false, 0, 0⟩⟩
      else ⟨Outcome.error "Malformed value", NewValue ⟨false, 0, 0⟩⟩
    Currency := fun v =>
      if v.length = 3 then ⟨Outcome.ok (), NewCurrency v⟩
      else ⟨Outcome.error "Malformed currency", NewCurrency []⟩
    Date := fun v =>
      match timeParse layoutCompact v with
      | Outcome.ok t => ⟨Outcome.ok (), NewDate t⟩
      | Outcome.error err => ⟨Outcome.error err, NewDate Time.zero⟩
      | Outcome.aborted err => ⟨Outcome.aborted err, NewDate Time.zero⟩
    Time := fun v =>
      if v.length = 6 ∧ v.all isDigit then
        ⟨Outcome.ok (),
          NewTime ⟨1, 1, 1, digitsValue (v.take 2), digitsValue ((v.drop 2).take 2),
            digitsValue (v.drop 4), 0, UTC⟩⟩
      else ⟨Outcome.error "Malformed time", NewTime Time.zero⟩ }

/-- A sample signature provider whose `Sign` fails. -/
def failingSigner : SignatureProvider :=
  { Sign := fun _ => Outcome.error "no key"
    WriteSignatureHeader := fun elems => elems
    WriteSignature := fun elems sig => elems.set 1 (some ⟨sig, Outcome.ok sig⟩) }

/-- A tag that was unmarshalled into before: the content that
`:86:166?00TEXT?20A?21B?32MAX?33M?60X` leaves in a fresh tag. -/
def sampleUsedTag : CustomFieldTag :=
  { CustomFieldTag.fresh with
    Tag := latin1 "86"
    TransactionID := 166
    BookingText := latin1 "TEXT"
    Purpose := latin1 "AB"
    Name := latin1 "MAX M"
    Purpose2 := latin1 "X" }

/-! ## Theorems -/

/-! ### Renumbering (`SetNumbers`) -/

theorem range_map_append (n : Int) (a b : Nat) :
    (List.range (a + b)).map (fun (i : Nat) => n + 1 + (i : Int)) =
      (List.range a).map (fun (i : Nat) => n + 1 + (i : Int)) ++
        (List.range b).map (fun (i : Nat) => (n + a) + 1 + (i : Int)) := by
  rw [List.range_add, List.map_append, List.map_map]
  congr 1
  apply List.map_congr_left
  intro i _
  simp only [Function.comp_apply, Nat.cast_add]
  omega

theorem setBodyNumbers_snd (segs : List (Option Segment)) (n : Int) :
    (setBodyNumbers segs n).2 = n + segs.reduceOption.length := by
  induction segs generalizing n with
  | nil => simp [setBodyNumbers]
  | cons s rest ih =>
    cases s with
    | none => simp [setBodyNumbers, ih]
    | some s =>
      simp [setBodyNumbers, ih, Segment.SetNumber, List.reduceOption_cons_of_some]
      omega

theorem setBodyNumbers_numbers (segs : List (Option Segment)) (n : Int) :
    (setBodyNumbers segs n).1.reduceOption.map (fun s => s.Header.Number) =
      (List.range segs.reduceOption.length).map (fun (i : Nat) => n + 1 + (i : Int)) := by
  induction segs generalizing n with
  | nil => simp [setBodyNumbers]
  | cons s rest ih =>
    cases s with
    | none => simp [setBodyNumbers, ih]
    | some s =>
      simp [setBodyNumbers, ih, Segment.SetNumber, List.reduceOption_cons_of_some,
        List.range_succ_eq_map, SegmentHeader.SetNumber, Function.comp_def]
      intro a _
      omega

theorem setBodyNumbers_unnumbered (segs : List (Option Segment)) (n : Int) :
    (setBodyNumbers segs n).1.reduceOption.map Segment.unnumbered =
      segs.reduceOption.map Segment.unnumbered := by
  induction segs generalizing n with
  | nil => simp [setBodyNumbers]
  | cons s rest ih =>
    cases s with
    | none => simp [setBodyNumbers, ih]
    | some s =>
      simp [setBodyNumbers, ih, Segment.SetNumber, List.reduceOption_cons_of_some,
        SegmentHeader.SetNumber, Segment.unnumbered]

theorem setOptionalNumber_snd (s : Option Segment) (n : Int) :
    (setOptionalNumber s n).2 = n + s.toList.length := by
  cases s <;> simp [setOptionalNumber, Segment.SetNumber]

theorem setOptionalNumber_numbers (s : Option Segment) (n : Int) :
    (setOptionalNumber s n).1.toList.map (fun s => s.Header.Number) =
      (List.range s.toList.length).map (fun (i : Nat) => n + 1 + (i : Int)) := by
  cases s <;> simp [setOptionalNumber, Segment.SetNumber, SegmentHeader.SetNumber,
    List.range_succ]

theorem setOptionalNumber_unnumbered (s : Option Segment) (n : Int) :
    (setOptionalNumber s n).1.toList.map Segment.unnumbered =
      s.toList.map Segment.unnumbered := by
  cases s <;> simp [setOptionalNumber, Segment.SetNumber, SegmentHeader.SetNumber,
    Segment.unnumbered]

theorem setNumbers_renumbers (b : BasicMessage) (h : MessageHeaderSegment)
    (e : MessageEndSegment) (segs : List (Option Segment))
    (hH : b.Header = some h) (hE : b.End = some e) (hB : b.HBCIMessage = some segs) :
    ∃ b1, b.SetNumbers = Outcome.ok b1 ∧
      b1.numbers = (List.range b.emitted.length).map (fun (i : Nat) => (i : Int) + 1) ∧
      b1.emitted.map Segment.unnumbered = b.emitted.map Segment.unnumbered := by
  obtain ⟨H, E, SB, SE, M, v, mc⟩ := b
  simp only at hH hE hB
  subst hH hE hB
  refine ⟨_, rfl, ?_, ?_⟩
  · have hlen : (BasicMessage.emitted ⟨some h, some e, SB, SE, some segs, v, mc⟩).length =
        1 + (SB.toList.length + (segs.reduceOption.length + (SE.toList.length + 1))) := by
      simp [BasicMessage.emitted]; omega
    have hfun : (fun (i : Nat) => (i : Int) + 1) = (fun (i : Nat) => (0 : Int) + 1 + (i : Int)) := by
      funext i; omega
    rw [hlen, hfun, range_map_append, range_map_append, range_map_append, range_map_append]
    simp only [BasicMessage.numbers, BasicMessage.emitted, Option.map_some', Option.toList_some,
      List.map_append, setOptionalNumber_numbers, setBodyNumbers_numbers, setOptionalNumber_snd,
      setBodyNumbers_snd, MessageHeaderSegment.SetNumber, MessageEndSegment.SetNumber]
    simp [MessageHeaderSegment.toSegment, MessageEndSegment.toSegment, SegmentHeader.SetNumber,
      List.range_succ]
  · simp only [BasicMessage.emitted, Option.map_some', Option.toList_some,
      List.map_append, setOptionalNumber_unnumbered, setBodyNumbers_unnumbered]
    simp [MessageHeaderSegment.SetNumber, MessageEndSegment.SetNumber,
      SegmentHeader.SetNumber, MessageHeaderSegment.toSegment, MessageEndSegment.toSegment,
      Segment.unnumbered, MessageHeaderSegment.elements, MessageEndSegment.elements]

/-- C1. For a message whose header, end and body are set, `SetNumbers` succeeds, and
afterwards the segments in emission order (header, signature header if present, non-nil
body segments, signature end if present, end) carry the numbers 1, 2, ..., k, where k is
the number of these segments; apart from their numbers the segments are unchanged. -/
theorem SetNumbers_numbers_consecutive (b : BasicMessage) (h : MessageHeaderSegment)
    (e : MessageEndSegment) (segs : List (Option Segment))
    (hH : b.Header = some h) (hE : b.End = some e) (hB : b.HBCIMessage = some segs) :
    ∃ b1, b.SetNumbers = Outcome.ok b1 ∧
      b1.numbers = (List.range b.emitted.length).map (fun (i : Nat) => (i : Int) + 1) ∧
      b1.emitted.map Segment.unnumbered = b.emitted.map Segment.unnumbered :=
  setNumbers_renumbers b h e segs hH hE hB

/-- The renumbered sample message is what `SetNumbers` makes of the sample message. -/
theorem sampleMessage_SetNumbers : sampleMessage.SetNumbers = Outcome.ok sampleNumbered := rfl

/-- Witness of C1 on the sample message (header, B1, a nil entry, B2, end). -/
theorem SetNumbers_numbers_consecutive_witness :
    ∃ b1, sampleMessage.SetNumbers = Outcome.ok b1 ∧
      b1.numbers = (List.range sampleMessage.emitted.length).map (fun (i : Nat) => (i : Int) + 1) ∧
      b1.emitted.map Segment.unnumbered = sampleMessage.emitted.map Segment.unnumbered :=
  SetNumbers_numbers_consecutive sampleMessage (NewMessageHeaderSegment 0 220 (latin1 "0") 1)
    (NewMessageEndSegment 9 1) [some sampleB1, none, some sampleB2] rfl rfl rfl


/-! ### Message size (`SetSize`, `MarshalHBCI`) -/

@[simp] theorem Outcome.bind_ok {α β : Type} (a : α) (f : α → Outcome β) :
    (Outcome.ok a).bind f = f a := rfl
@[simp] theorem Outcome.bind_error {α β : Type} (e : String) (f : α → Outcome β) :
    (Outcome.error e : Outcome α).bind f = Outcome.error e := rfl
@[simp] theorem Outcome.bind_aborted {α β : Type} (e : String) (f : α → Outcome β) :
    (Outcome.aborted e : Outcome α).bind f = Outcome.aborted e := rfl
theorem Outcome.bind_assoc {α β γ : Type} (x : Outcome α) (f : α → Outcome β)
    (g : β → Outcome γ) : (x.bind f).bind g = x.bind (fun a => (f a).bind g) := by
  cases x <;> rfl

theorem Outcome.bind_eq_ok {α β : Type} {x : Outcome α} {f : α → Outcome β} {r : β}
    (h : x.bind f = Outcome.ok r) : ∃ a, x = Outcome.ok a ∧ f a = Outcome.ok r := by
  cases x with
  | ok a => exact ⟨a, rfl, h⟩
  | error e => simp at h
  | aborted e => simp at h

theorem writeOptional_acc (s : Option Segment) (a t : Bytes) :
    writeOptional s (a ++ t) = (writeOptional s t).bind (fun r => Outcome.ok (a ++ r)) := by
  cases s with
  | none => rfl
  | some seg =>
    simp only [writeOptional]
    cases seg.MarshalHBCI <;> simp [List.append_assoc]

theorem writeBody_acc (segs : List (Option Segment)) (a t : Bytes) :
    writeBody segs (a ++ t) = (writeBody segs t).bind (fun r => Outcome.ok (a ++ r)) := by
  induction segs generalizing t with
  | nil => rfl
  | cons s rest ih =>
    cases s with
    | none => simpa [writeBody] using ih t
    | some seg =>
      simp only [writeBody]
      cases seg.MarshalHBCI with
      | ok w => simpa [List.append_assoc] using ih (t ++ w)
      | error e => rfl
      | aborted e => rfl

theorem writeSegments_split (b : BasicMessage) (h : MessageHeaderSegment)
    (hH : b.Header = some h) (segs : List (Option Segment)) :
    b.writeSegments segs =
      h.toSegment.MarshalHBCI.bind fun hb =>
        ((writeOptional b.SignatureBegin []).bind fun t1 =>
          (writeBody segs t1).bind fun t2 =>
          (writeOptional b.SignatureEnd t2).bind fun t3 =>
            match b.End with
            | none => Outcome.aborted "nil pointer dereference"
            | some e => e.toSegment.MarshalHBCI.bind fun eb => Outcome.ok (t3 ++ eb)).bind
          fun t => Outcome.ok (hb ++ t) := by
  simp only [BasicMessage.writeSegments, hH]
  cases h.toSegment.MarshalHBCI with
  | error e => rfl
  | aborted e => rfl
  | ok hb =>
    simp only [Outcome.bind_ok, List.nil_append]
    have h1 := writeOptional_acc b.SignatureBegin hb []
    rw [List.append_nil] at h1
    rw [h1]
    cases writeOptional b.SignatureBegin [] with
    | error e => rfl
    | aborted e => rfl
    | ok t1 =>
      simp only [Outcome.bind_ok]
      rw [writeBody_acc]
      cases writeBody segs t1 with
      | error e => rfl
      | aborted e => rfl
      | ok t2 =>
        simp only [Outcome.bind_ok]
        rw [writeOptional_acc]
        cases writeOptional b.SignatureEnd t2 with
        | error e => rfl
        | aborted e => rfl
        | ok t3 =>
          simp only [Outcome.bind_ok]
          cases b.End with
          | none => rfl
          | some e =>
            simp only
            cases e.toSegment.MarshalHBCI <;> simp [List.append_assoc]

theorem header_marshal_size (h : MessageHeaderSegment) (hb : Bytes)
    (hm : h.toSegment.MarshalHBCI = Outcome.ok hb) :
    ∃ R, hb = h.Segment.String ++ plusSign :: (h.Size.String ++ R) ∧
      ∀ v, (h.SetSize v).toSegment.MarshalHBCI =
        Outcome.ok (h.Segment.String ++ plusSign :: ((NewDigit v 12).String ++ R)) := by
  obtain ⟨S, Sz, V, D, N, R⟩ := h
  cases R with
  | none =>
    simp [MessageHeaderSegment.toSegment, Segment.MarshalHBCI, MessageHeaderSegment.elements,
      elementWires, DigitDataElement.toDataElement, NumberDataElement.toDataElement,
      AlphaNumericDataElement.toDataElement, joinPlus] at hm
    refine ⟨plusSign :: (V.String ++ plusSign :: (D.String ++ plusSign :: (N.String ++
      [plusSign]))) ++ [quote], ?_, fun v => ?_⟩
    · rw [← hm]; simp
    · simp [MessageHeaderSegment.toSegment, Segment.MarshalHBCI, MessageHeaderSegment.elements,
        elementWires, DigitDataElement.toDataElement, NumberDataElement.toDataElement,
        AlphaNumericDataElement.toDataElement, joinPlus, MessageHeaderSegment.SetSize]
  | some r =>
    cases hr : r.wire with
    | ok w =>
      simp [MessageHeaderSegment.toSegment, Segment.MarshalHBCI, MessageHeaderSegment.elements,
        elementWires, DigitDataElement.toDataElement, NumberDataElement.toDataElement,
        AlphaNumericDataElement.toDataElement, joinPlus, hr] at hm
      refine ⟨plusSign :: (V.String ++ plusSign :: (D.String ++ plusSign :: (N.String ++
        plusSign :: w))) ++ [quote], ?_, fun v => ?_⟩
      · rw [← hm]; simp
      · simp [MessageHeaderSegment.toSegment, Segment.MarshalHBCI, MessageHeaderSegment.elements,
          elementWires, DigitDataElement.toDataElement, NumberDataElement.toDataElement,
          AlphaNumericDataElement.toDataElement, joinPlus, MessageHeaderSegment.SetSize, hr]
    | error e =>
      simp [MessageHeaderSegment.toSegment, Segment.MarshalHBCI, MessageHeaderSegment.elements,
        elementWires, DigitDataElement.toDataElement, NumberDataElement.toDataElement,
        AlphaNumericDataElement.toDataElement, hr] at hm
    | aborted e =>
      simp [MessageHeaderSegment.toSegment, Segment.MarshalHBCI, MessageHeaderSegment.elements,
        elementWires, DigitDataElement.toDataElement, NumberDataElement.toDataElement,
        AlphaNumericDataElement.toDataElement, hr] at hm

theorem sign_unfold (b : BasicMessage) (h : MessageHeaderSegment) (e : MessageEndSegment)
    (segs : List (Option Segment)) (provider : SignatureProvider)
    (hH : b.Header = some h) (hE : b.End = some e) (hB : b.HBCIMessage = some segs) :
    let sh0 := b.hbciVersion.PinTanSignatureHeader [] [] KeyName.zero
    let sh : Segment :=
      { Header := sh0.Header.SetNumber 2, elements := provider.WriteSignatureHeader sh0.elements }
    let se0 := b.hbciVersion.SignatureEnd (-1) []
    let body := setBodyNumbers segs 2
    let se : Segment := { Header := se0.Header.SetNumber (body.2 + 1), elements := se0.elements }
    let b2 : BasicMessage :=
      { b with
        Header := some (h.SetNumber 0).1
        SignatureBegin := some sh
        HBCIMessage := some body.1
        SignatureEnd := some se
        End := some (e.SetNumber (body.2 + 1)).1 }
    let handed := writeBodyStrings body.1 ([] ++ sh.String)
    b.Sign provider =
      match provider.Sign handed with
      | Outcome.ok sig =>
        Outcome.ok ⟨{ b2 with SignatureEnd := some { se with elements := provider.WriteSignature se.elements sig } },
          handed,
          Outcome.ok (NewBasicSignedMessage
            { b2 with SignatureEnd := some { se with elements := provider.WriteSignature se.elements sig } })⟩
      | Outcome.error err => Outcome.ok ⟨b2, handed, Outcome.error err⟩
      | Outcome.aborted err => Outcome.aborted err := by
  obtain ⟨H, E, SB, SE, M, v, mc⟩ := b
  simp only at hH hE hB
  subst hH hE hB
  simp only [BasicMessage.Sign, BasicMessage.SetNumbers, setOptionalNumber, Outcome.bind,
    Segment.SetNumber, MessageHeaderSegment.SetNumber]
  norm_num

/-- C3. For a message with header H, end E and body set, and a provider whose `Sign`
succeeds, `Sign` returns the signed message; afterwards the signature header SH and the
signature end SE are both present, the emitted sequence is H, SH, the non-nil body segments
in order, SE, E, and it carries the numbers 1, 2, ..., n + 4. -/
theorem Sign_envelope (b : BasicMessage) (h : MessageHeaderSegment) (e : MessageEndSegment)
    (segs : List (Option Segment)) (provider : SignatureProvider)
    (hH : b.Header = some h) (hE : b.End = some e) (hB : b.HBCIMessage = some segs)
    (hsig : ∀ payload, ∃ sig, provider.Sign payload = Outcome.ok sig) :
    ∃ r SH SE, b.Sign provider = Outcome.ok r ∧
      r.returned = Outcome.ok (NewBasicSignedMessage r.message) ∧
      r.message.SignatureBegin = some SH ∧ r.message.SignatureEnd = some SE ∧
      r.message.emitted.map Segment.unnumbered =
        [h.toSegment.unnumbered, SH.unnumbered] ++ segs.reduceOption.map Segment.unnumbered ++
          [SE.unnumbered, e.toSegment.unnumbered] ∧
      r.message.numbers =
        (List.range (segs.reduceOption.length + 4)).map (fun (i : Nat) => (i : Int) + 1) := by
  have hu := sign_unfold b h e segs provider hH hE hB
  simp only at hu
  obtain ⟨sig, hs⟩ := hsig (writeBodyStrings (setBodyNumbers segs 2).1
    ([] ++ Segment.String
      { Header := (b.hbciVersion.PinTanSignatureHeader [] [] KeyName.zero).Header.SetNumber 2,
        elements := provider.WriteSignatureHeader
          (b.hbciVersion.PinTanSignatureHeader [] [] KeyName.zero).elements }))
  rw [hs] at hu
  simp only at hu
  refine ⟨_, _, _, hu, rfl, rfl, rfl, ?_, ?_⟩
  · simp [BasicMessage.emitted, setBodyNumbers_unnumbered, MessageHeaderSegment.SetNumber,
      MessageEndSegment.SetNumber, SegmentHeader.SetNumber, MessageHeaderSegment.toSegment,
      MessageEndSegment.toSegment, Segment.unnumbered, MessageHeaderSegment.elements,
      MessageEndSegment.elements]
  · have hfun : (fun (i : Nat) => (i : Int) + 1) = (fun (i : Nat) => (0 : Int) + 1 + (i : Int)) := by
      funext i; omega
    have hk : segs.reduceOption.length + 4 = 2 + (segs.reduceOption.length + 2) := by omega
    rw [hk, hfun, range_map_append, range_map_append]
    simp [BasicMessage.numbers, BasicMessage.emitted, setBodyNumbers_numbers, setBodyNumbers_snd,
      MessageHeaderSegment.SetNumber, MessageEndSegment.SetNumber, SegmentHeader.SetNumber,
      MessageHeaderSegment.toSegment, MessageEndSegment.toSegment, List.range_succ]

/-- Witness of C3 on the sample message with body B1, B2: the numbers are 1 to 6. -/
theorem Sign_envelope_witness :
    (∃ r SH SE, sampleMessage.Sign sampleSigner = Outcome.ok r ∧
      r.returned = Outcome.ok (NewBasicSignedMessage r.message) ∧
      r.message.SignatureBegin = some SH ∧ r.message.SignatureEnd = some SE ∧
      r.message.emitted.map Segment.unnumbered =
        [(NewMessageHeaderSegment 0 220 (latin1 "0") 1).toSegment.unnumbered, SH.unnumbered] ++
          [some sampleB1, none, some sampleB2].reduceOption.map Segment.unnumbered ++
          [SE.unnumbered, (NewMessageEndSegment 9 1).toSegment.unnumbered] ∧
      r.message.numbers =
        (List.range ([some sampleB1, none, some sampleB2].reduceOption.length + 4)).map
          (fun (i : Nat) => (i : Int) + 1)) ∧
    (match sampleMessage.Sign sampleSigner with
      | Outcome.ok r => r.message.numbers
      | _ => []) = [1, 2, 3, 4, 5, 6] :=
  ⟨Sign_envelope sampleMessage (NewMessageHeaderSegment 0 220 (latin1 "0") 1)
    (NewMessageEndSegment 9 1) [some sampleB1, none, some sampleB2] sampleSigner rfl rfl rfl
    (fun _ => ⟨latin1 "PIN", rfl⟩), by decide⟩

/-! ### Emission (`MarshalHBCI`) -/

theorem marshalAll_append (l1 l2 : List Segment) :
    marshalAll (l1 ++ l2) =
      (marshalAll l1).bind fun p1 => (marshalAll l2).bind fun p2 => Outcome.ok (p1 ++ p2) := by
  induction l1 with
  | nil =>
    simp only [List.nil_append, marshalAll, Outcome.bind_ok]
    cases marshalAll l2 <;> rfl
  | cons s rest ih =>
    show (s.MarshalHBCI.bind fun w =>
        (marshalAll (rest ++ l2)).bind fun ws => Outcome.ok (w :: ws)) =
      (s.MarshalHBCI.bind fun w => (marshalAll rest).bind fun ws => Outcome.ok (w :: ws)).bind
        fun p1 => (marshalAll l2).bind fun p2 => Outcome.ok (p1 ++ p2)
    rw [ih]
    cases s.MarshalHBCI with
    | ok w =>
      simp only [Outcome.bind_ok]
      cases marshalAll rest with
      | ok ws =>
        simp only [Outcome.bind_ok]
        cases marshalAll l2 <;> rfl
      | error e => rfl
      | aborted e => rfl
    | error e => rfl
    | aborted e => rfl

theorem writeBody_marshalAll (segs : List (Option Segment)) (buf : Bytes) :
    writeBody segs buf =
      (marshalAll segs.reduceOption).bind fun ps => Outcome.ok (buf ++ ps.flatten) := by
  induction segs generalizing buf with
  | nil => simp [writeBody, marshalAll]
  | cons s rest ih =>
    cases s with
    | none => simpa [writeBody] using ih buf
    | some seg =>
      rw [List.reduceOption_cons_of_some]
      show (seg.MarshalHBCI.bind fun segBytes => writeBody rest (buf ++ segBytes)) =
        (seg.MarshalHBCI.bind fun w =>
          (marshalAll rest.reduceOption).bind fun ws => Outcome.ok (w :: ws)).bind
          fun ps => Outcome.ok (buf ++ ps.flatten)
      cases seg.MarshalHBCI with
      | ok w =>
        simp only [Outcome.bind_ok]
        rw [ih]
        cases marshalAll rest.reduceOption with
        | ok ws => simp only [Outcome.bind_ok, List.flatten, List.append_assoc]
        | error e => rfl
        | aborted e => rfl
      | error e => rfl
      | aborted e => rfl

theorem writeOptional_marshalAll (s : Option Segment) (buf : Bytes) :
    writeOptional s buf =
      (marshalAll s.toList).bind fun ps => Outcome.ok (buf ++ ps.flatten) := by
  cases s with
  | none => simp [writeOptional, marshalAll]
  | some seg =>
    simp only [writeOptional, Option.toList_some, marshalAll]
    cases seg.MarshalHBCI <;> simp

theorem writeSegments_marshalAll (b : BasicMessage) (segs : List (Option Segment))
    (bytes : Bytes) (hB : b.HBCIMessage = some segs)
    (hw : b.writeSegments segs = Outcome.ok bytes) :
    ∃ parts, marshalAll b.emitted = Outcome.ok parts ∧ bytes = parts.flatten := by
  obtain ⟨H, E, SB, SE, M, v, mc⟩ := b
  simp only at hB
  subst hB
  cases H with
  | none => simp [BasicMessage.writeSegments] at hw
  | some h =>
    simp only [BasicMessage.writeSegments, writeOptional_marshalAll, writeBody_marshalAll] at hw
    simp only [BasicMessage.emitted, Option.map_some', Option.toList_some, marshalAll_append,
      marshalAll, List.singleton_append]
    cases hh : h.toSegment.MarshalHBCI with
    | error e => simp [hh] at hw
    | aborted e => simp [hh] at hw
    | ok hb =>
      cases h1 : marshalAll SB.toList with
      | error e => simp [hh, h1] at hw
      | aborted e => simp [hh, h1] at hw
      | ok p1 =>
        cases h2 : marshalAll segs.reduceOption with
        | error e => simp [hh, h1, h2] at hw
        | aborted e => simp [hh, h1, h2] at hw
        | ok p2 =>
          cases h3 : marshalAll SE.toList with
          | error e => simp [hh, h1, h2, h3] at hw
          | aborted e => simp [hh, h1, h2, h3] at hw
          | ok p3 =>
            cases E with
            | none => simp [hh, h1, h2, h3] at hw
            | some e =>
              cases h4 : e.toSegment.MarshalHBCI with
              | error err => simp [hh, h1, h2, h3, h4] at hw
              | aborted err => simp [hh, h1, h2, h3, h4] at hw
              | ok eb =>
                simp [hh, h1, h2, h3, h4] at hw
                have e1 : marshalAll [e.toSegment] = Outcome.ok [eb] := by
                  simp [marshalAll, h4]
                have e2 : marshalAll (SE.toList ++ [e.toSegment]) = Outcome.ok (p3 ++ [eb]) := by
                  rw [marshalAll_append, h3, e1]; rfl
                have e3 : marshalAll (segs.reduceOption ++ (SE.toList ++ [e.toSegment])) =
                    Outcome.ok (p2 ++ (p3 ++ [eb])) := by
                  rw [marshalAll_append, h2, e2]; rfl
                have e4 : marshalAll (SB.toList ++ (segs.reduceOption ++
                    (SE.toList ++ [e.toSegment]))) = Outcome.ok (p1 ++ (p2 ++ (p3 ++ [eb]))) := by
                  rw [marshalAll_append, h1, e3]; rfl
                refine ⟨hb :: (p1 ++ (p2 ++ (p3 ++ [eb]))), ?_, ?_⟩
                · simp [e4, hh]
                · rw [← hw]; simp

theorem marshalHBCI_fresh (b : BasicMessage) (h : MessageHeaderSegment)
    (segs : List (Option Segment)) (placeholder : Bytes)
    (hH : b.Header = some h) (hB : b.HBCIMessage = some segs)
    (hfresh : b.marshaledContent = [])
    (hw : b.writeSegments segs = Outcome.ok placeholder) :
    ∃ bytes,
      ({ b with Header := some (h.SetSize (placeholder.length : Nat)) } :
        BasicMessage).writeSegments segs = Outcome.ok bytes ∧
      b.MarshalHBCI = Outcome.ok (bytes,
        { b with
          Header := some (h.SetSize (placeholder.length : Nat))
          marshaledContent := bytes }) := by
  have hsplit := writeSegments_split b h hH segs
  rw [hw] at hsplit
  obtain ⟨hb, hhb, hrest⟩ := Outcome.bind_eq_ok hsplit.symm
  obtain ⟨t, ht, _⟩ := Outcome.bind_eq_ok hrest
  obtain ⟨R, _, hset⟩ := header_marshal_size h hb hhb
  have h2 : ({ b with Header := some (h.SetSize (placeholder.length : Nat)) } :
      BasicMessage).writeSegments segs = Outcome.ok (h.Segment.String ++
        plusSign :: ((NewDigit (placeholder.length : Nat) 12).String ++ R) ++ t) := by
    rw [writeSegments_split _ (h.SetSize _) rfl segs]
    simp only [hset, Outcome.bind_ok, ht]
  refine ⟨_, h2, ?_⟩
  simp only [BasicMessage.MarshalHBCI, hB, BasicMessage.SetSize, hw, Outcome.bind_ok, hH,
    hfresh, List.length_nil, if_true]
  rw [writeSegments_split _ (h.SetSize _) rfl segs]
  simp only [hset, Outcome.bind_ok, ht]

/-- C4 (amended). `MarshalHBCI` does not renumber: for a message with header and body set
that was not marshalled before and whose segments marshal, the returned bytes are the wire
forms of the segments in emission order, and these carry the header numbers the message
held when `MarshalHBCI` was called; if that state came out of `SetNumbers`, the segment at
position i carries the number i. -/
theorem MarshalHBCI_emits_stored_numbers (b : BasicMessage) (h : MessageHeaderSegment)
    (segs : List (Option Segment)) (placeholder : Bytes)
    (hH : b.Header = some h) (hB : b.HBCIMessage = some segs)
    (hfresh : b.marshaledContent = [])
    (hw : b.writeSegments segs = Outcome.ok placeholder) :
    ∃ bytes b1 parts, b.MarshalHBCI = Outcome.ok (bytes, b1) ∧
      marshalAll b1.emitted = Outcome.ok parts ∧ bytes = parts.flatten ∧
      b1.numbers = b.numbers ∧
      (∀ b0 : BasicMessage, b0.SetNumbers = Outcome.ok b →
        b1.numbers = (List.range b1.emitted.length).map (fun (i : Nat) => (i : Int) + 1)) := by
  obtain ⟨bytes, h2, hm⟩ := marshalHBCI_fresh b h segs placeholder hH hB hfresh hw
  have hnum : (({ b with
      Header := some (h.SetSize (placeholder.length : Nat))
      marshaledContent := bytes } : BasicMessage)).numbers = b.numbers := by
    simp [BasicMessage.numbers, BasicMessage.emitted, hH, MessageHeaderSegment.toSegment,
      MessageHeaderSegment.SetSize]
  have hlen : (({ b with
      Header := some (h.SetSize (placeholder.length : Nat))
      marshaledContent := bytes } : BasicMessage)).emitted.length = b.emitted.length := by
    simp [BasicMessage.emitted, hH]
  obtain ⟨parts, hp1, hp2⟩ := writeSegments_marshalAll
    { b with
      Header := some (h.SetSize (placeholder.length : Nat))
      marshaledContent := bytes } segs bytes hB h2
  refine ⟨bytes, _, parts, hm, hp1, hp2, hnum, ?_⟩
  intro b0 hset
  rw [hnum, hlen]
  cases hM : b0.HBCIMessage with
  | none => simp [BasicMessage.SetNumbers, hM] at hset
  | some segs0 =>
    cases hH0 : b0.Header with
    | none => simp [BasicMessage.SetNumbers, hM, hH0] at hset
    | some h0 =>
      cases hE0 : b0.End with
      | none => simp [BasicMessage.SetNumbers, hM, hH0, hE0] at hset
      | some e0 =>
        obtain ⟨b', hb', hn, hu⟩ := setNumbers_renumbers b0 h0 e0 segs0 hH0 hE0 hM
        rw [hset] at hb'
        simp only [Outcome.ok.injEq] at hb'
        subst hb'
        rw [hn]
        have := congrArg List.length hu
        simp only [List.length_map] at this
        rw [this]

/-- Witness of the amended C4 on the renumbered sample message. -/
theorem MarshalHBCI_emits_stored_numbers_witness :
    ∃ bytes b1 parts, sampleNumbered.MarshalHBCI = Outcome.ok (bytes, b1) ∧
      marshalAll b1.emitted = Outcome.ok parts ∧ bytes = parts.flatten ∧
      b1.numbers = sampleNumbered.numbers ∧
      (∀ b0 : BasicMessage, b0.SetNumbers = Outcome.ok sampleNumbered →
        b1.numbers = (List.range b1.emitted.length).map (fun (i : Nat) => (i : Int) + 1)) :=
  MarshalHBCI_emits_stored_numbers sampleNumbered (NewMessageHeaderSegment 0 220 (latin1 "0") 1)
    [some (sampleB1.SetNumber 1).1, none, some (sampleB2.SetNumber 2).1]
    (latin1 "HNHBK:1:3+000000000000+220+0+1+'HKIDN:2:2+280?:10020030+9999999999'HKSAL:3:3+N'HNHBS:4:1+1'")
    rfl rfl rfl (by decide)

/-- C4 (counterexample). A message built by `NewBasicMessageWithHeaderAndEnd` from a new
header, the end `NewMessageEndSegment(8, 1)` and an empty body, never signed and never
renumbered, is emitted as `HNHBK:1:3+...'HNHBS:8:1+1'`: the segment at position 2 carries
the number 8. With the one body segment `HKIDN:3` the numbers emitted are 1, 3, 8. -/
theorem MarshalHBCI_end_number_not_position :
    (match NewBasicMessageWithHeaderAndEnd (some (NewMessageHeaderSegment 0 220 (latin1 "0") 1))
        (some (NewMessageEndSegment 8 1)) (some (NewHBCIMessage sampleVersion [])) with
      | Outcome.ok b =>
        (match b.MarshalHBCI with
          | Outcome.ok (bytes, b1) => (bytes, b1.numbers)
          | _ => ([], []))
      | _ => ([], [])) =
      (latin1 "HNHBK:1:3+000000000044+220+0+1+'HNHBS:8:1+1'", [1, 8]) ∧
    (match NewBasicMessageWithHeaderAndEnd (some (NewMessageHeaderSegment 0 220 (latin1 "0") 1))
        (some (NewMessageEndSegment 8 1))
        (some (NewHBCIMessage sampleVersion [some sampleB1])) with
      | Outcome.ok b =>
        (match b.MarshalHBCI with
          | Outcome.ok (bytes, b1) => (bytes, b1.numbers)
          | _ => ([], []))
      | _ => ([], [])) =
      (latin1 "HNHBK:1:3+000000000079+220+0+1+'HKIDN:3:2+280?:10020030+9999999999'HNHBS:8:1+1'",
        [1, 3, 8]) := by
  decide

/-! ### Balances (`NewBalance`, `Balance`) -/

/-- C5. `NewBalance(a, date, withTime)` stores the indicator `D` exactly when `a.Amount < 0`
and `C` otherwise (a zero is credit), and stores `math.Abs(a.Amount)`, whose sign bit is
clear, as the amount element. -/
theorem NewBalance_indicator_and_magnitude (a : Amount) (date : Time) (withTime : Bool) :
    ∃ ind v, (NewBalance a date withTime).DebitCreditIndicator = some ind ∧
      (NewBalance a date withTime).Amount = some v ∧
      (ind.val = latin1 "D" ↔ a.Amount.ltZero = true) ∧
      (a.Amount.ltZero = false → ind.val = latin1 "C") ∧
      (a.Amount.isZero = true → ind.val = latin1 "C") ∧
      v.val = a.Amount.abs ∧ v.val.sign = false := by
  have hDC : latin1 "C" ≠ latin1 "D" := by decide
  cases withTime <;> cases hlt : a.Amount.ltZero <;>
    simp [NewBalance, NewAlphaNumeric, NewValue, hlt, hDC, Float64.abs]
  all_goals
    intro hz
    simp [Float64.ltZero, hz] at hlt

theorem neg_abs_of_sign (x : Float64) (h : x.sign = true) : x.abs.neg = x := by
  cases x
  simp_all [Float64.abs, Float64.neg]

theorem abs_of_not_sign (x : Float64) (h : x.sign = false) : x.abs = x := by
  cases x
  simp_all [Float64.abs]

/-- C6. `NewBalance(a, date, withTime).Balance()` returns a balance with the currency of
`a` and an amount of the same magnitude and the same sign as `a.Amount`: the magnitude bits
are those of `a.Amount`, the amount is negative (positive) exactly when `a.Amount` is, it is
`==` to `a.Amount` whenever that is a number, and it is `a.Amount` bit for bit unless that
is a zero or a NaN. -/
theorem NewBalance_Balance_roundtrip (a : Amount) (date : Time) (withTime : Bool) :
    ∃ bal, (NewBalance a date withTime).Balance = Outcome.ok bal ∧
      bal.Amount.Currency = a.Currency ∧
      bal.Amount.Amount.abs = a.Amount.abs ∧
      bal.Amount.Amount.ltZero = a.Amount.ltZero ∧
      bal.Amount.Amount.gtZero = a.Amount.gtZero ∧
      (a.Amount.isNaN = false → Float64.eq bal.Amount.Amount a.Amount = true) ∧
      (a.Amount.isNaN = false → a.Amount.isZero = false → bal.Amount.Amount = a.Amount) := by
  have hDC : latin1 "C" ≠ latin1 "D" := by decide
  obtain ⟨⟨s, e, m⟩, cur⟩ := a
  by_cases h1 : e.val = 2047 <;> by_cases h2 : m.val = 0 <;> by_cases h3 : e.val = 0 <;>
    cases s <;> cases withTime <;>
    simp [NewBalance, BalanceDataElement.Balance, NewAlphaNumeric, NewValue, NewCurrency,
      NewDate, NewTime, Float64.eq, Float64.ltZero, Float64.gtZero, Float64.isNaN,
      Float64.isZero, Float64.abs, Float64.neg, hDC, h1, h2, h3]

/-! ### The message header codec (`UnmarshalHBCI`) -/

theorem splitBytes_ne_nil (sep : UInt8) (s : Bytes) : splitBytes sep s ≠ [] := by
  cases s with
  | nil => simp [splitBytes]
  | cons c cs =>
    simp only [splitBytes]
    split
    · simp
    · split <;> simp

theorem splitBytes_no_sep (sep : UInt8) (a : Bytes) (h : ∀ c ∈ a, c ≠ sep) :
    splitBytes sep a = [a] := by
  induction a with
  | nil => rfl
  | cons c cs ih =>
    have hc : c ≠ sep := h c (List.mem_cons_self _ _)
    have ih' := ih (fun x hx => h x (List.mem_cons_of_mem _ hx))
    simp [splitBytes, hc, ih']

theorem splitBytes_append_sep (sep : UInt8) (a rest : Bytes) (h : ∀ c ∈ a, c ≠ sep) :
    splitBytes sep (a ++ sep :: rest) = a :: splitBytes sep rest := by
  induction a with
  | nil => simp [splitBytes]
  | cons c cs ih =>
    have hc : c ≠ sep := h c (List.mem_cons_self _ _)
    have ih' := ih (fun x hx => h x (List.mem_cons_of_mem _ hx))
    simp [splitBytes, hc, ih']

theorem trimQuoteSuffix_append_quote (x : Bytes) : trimQuoteSuffix (x ++ [quote]) = x := by
  simp [trimQuoteSuffix]

theorem digit_not_separator (c : UInt8) (h : isDigit c = true) :
    c ≠ plusSign ∧ c ≠ colon ∧ c ≠ quote ∧ c ≠ minusSign := by
  simp only [isDigit, Bool.and_eq_true, decide_eq_true_eq] at h
  refine ⟨?_, ?_, ?_, ?_⟩ <;> intro hc <;> subst hc <;> revert h <;> decide

theorem decimal_no_separator (s : Bytes) (h : isDecimalInteger s = true) :
    ∀ c ∈ s, c ≠ plusSign ∧ c ≠ colon ∧ c ≠ quote := by
  intro c hc
  cases s with
  | nil => cases hc
  | cons d ds =>
    by_cases hm : d = minusSign
    · simp [isDecimalInteger, hm] at h
      rcases List.mem_cons.mp hc with rfl | hc'
      · subst hm; decide
      · have := digit_not_separator c (h.2 c hc')
        exact ⟨this.1, this.2.1, this.2.2.1⟩
    · simp [isDecimalInteger, hm] at h
      have hd : isDigit c = true := by
        rcases List.mem_cons.mp hc with rfl | hc'
        · exact h.1
        · exact h.2 c hc'
      have := digit_not_separator c hd
      exact ⟨this.1, this.2.1, this.2.2.1⟩

theorem Atoi_decimal (s : Bytes) (h : isDecimalInteger s = true) (hf : fitsInt (decimalValue s)) :
    Atoi s = Outcome.ok (decimalValue s) := by
  cases s with
  | nil => simp [isDecimalInteger] at h
  | cons d ds =>
    by_cases hm : d = minusSign
    · simp [isDecimalInteger, hm] at h
      simp [fitsInt, decimalValue, hm] at hf
      have hne : ds ≠ [] := h.1
      have hv : ¬ (9223372036854775808 < digitsValue ds) := by omega
      simp [Atoi, hm, hne, h.2, decimalValue, hv]
      intro x hx
      exact h.2 x hx
    · simp [isDecimalInteger, hm] at h
      simp [fitsInt, decimalValue, hm] at hf
      have hp : d ≠ plusSign := (digit_not_separator d h.1).1
      have hv : ¬ (9223372036854775807 < digitsValue (d :: ds)) := by omega
      simp [Atoi, hm, hp, h.1, decimalValue, hv]
      intro x hx
      exact h.2 x hx

theorem headerWire_split (n size version dialogId msgNo : Bytes)
    (hn : isDecimalInteger n = true) (hs : isDecimalInteger size = true)
    (hv : isDecimalInteger version = true)
    (hd : ∀ c ∈ dialogId, isSeparator c = false) :
    splitBytes plusSign (trimQuoteSuffix (headerWire n size version dialogId msgNo)) =
      (latin1 "HNHBK:" ++ n ++ latin1 ":3") :: size :: version :: dialogId ::
        splitBytes plusSign msgNo := by
  have e1 : headerWire n size version dialogId msgNo =
      ((latin1 "HNHBK:" ++ n ++ latin1 ":3") ++ plusSign :: (size ++ plusSign ::
        (version ++ plusSign :: (dialogId ++ plusSign :: msgNo)))) ++ [quote] := by
    have h3 : latin1 ":3+" = latin1 ":3" ++ [plusSign] := by decide
    simp [headerWire, h3]
  rw [e1, trimQuoteSuffix_append_quote]
  have hhdr : ∀ c ∈ latin1 "HNHBK:" ++ n ++ latin1 ":3", c ≠ plusSign := by
    intro c hc
    simp only [List.mem_append] at hc
    rcases hc with (hc | hc) | hc
    · intro h; subst h; revert hc; decide
    · exact (decimal_no_separator n hn c hc).1
    · intro h; subst h; revert hc; decide
  have hdlg : ∀ c ∈ dialogId, c ≠ plusSign := by
    intro c hc h
    have := hd c hc
    simp [isSeparator, h] at this
  rw [splitBytes_append_sep _ _ _ hhdr,
    splitBytes_append_sep _ _ _ (fun c hc => (decimal_no_separator size hs c hc).1),
    splitBytes_append_sep _ _ _ (fun c hc => (decimal_no_separator version hv c hc).1),
    splitBytes_append_sep _ _ _ hdlg]

theorem headerSegment_number (n : Bytes) (hn : isDecimalInteger n = true) :
    (splitBytes colon (latin1 "HNHBK:" ++ n ++ latin1 ":3")).get? 1 = some n := by
  have e1 : latin1 "HNHBK:" ++ n ++ latin1 ":3" =
      latin1 "HNHBK" ++ colon :: (n ++ colon :: latin1 "3") := by
    have h1 : latin1 "HNHBK:" = latin1 "HNHBK" ++ [colon] := by decide
    have h2 : latin1 ":3" = colon :: latin1 "3" := by decide
    simp [h1, h2]
  rw [e1, splitBytes_append_sep _ _ _ (by decide),
    splitBytes_append_sep _ _ _ (fun c hc => (decimal_no_separator n hn c hc).2.1)]
  rfl

/-- C7 (amended). For every input `HNHBK:<n>:3+<size>+<version>+<dialogId>+<msgNo>'` in
which n, size, version and msgNo are decimal integers within the range of a Go `int` and
dialogId contains no separator, `UnmarshalHBCI` succeeds and yields segment number n,
Size = size, HBCIVersion = version, DialogID = dialogId and Number = msgNo. -/
theorem UnmarshalHBCI_header_fields (m : MessageHeaderSegment)
    (n size version dialogId msgNo : Bytes)
    (hn : isDecimalInteger n = true) (hs : isDecimalInteger size = true)
    (hv : isDecimalInteger version = true) (hm : isDecimalInteger msgNo = true)
    (hnr : fitsInt (decimalValue n)) (hsr : fitsInt (decimalValue size))
    (hvr : fitsInt (decimalValue version)) (hmr : fitsInt (decimalValue msgNo))
    (hd : ∀ c ∈ dialogId, isSeparator c = false) :
    m.UnmarshalHBCI (headerWire n size version dialogId msgNo) =
      ⟨Outcome.ok (),
        { m with
          Segment := NewBasicSegment MessageHeaderSegment.id (decimalValue n)
            MessageHeaderSegment.version
          Size := NewDigit (decimalValue size) 12
          HBCIVersion := NewNumber (decimalValue version) 3
          DialogID := NewIdentification dialogId
          Number := NewNumber (decimalValue msgNo) 4 }⟩ := by
  have hsplit := headerWire_split n size version dialogId msgNo hn hs hv hd
  have hmsg : splitBytes plusSign msgNo = [msgNo] :=
    splitBytes_no_sep _ _ (fun c hc => (decimal_no_separator msgNo hm c hc).1)
  rw [hmsg] at hsplit
  have hnum := headerSegment_number n hn
  generalize latin1 "HNHBK:" ++ n ++ latin1 ":3" = hdr at hsplit hnum
  unfold MessageHeaderSegment.UnmarshalHBCI
  dsimp only
  rw [hsplit]
  dsimp only [List.length_cons, List.length_nil, List.getD_cons_zero, List.getD_cons_succ]
  rw [if_neg (by decide), hnum]
  dsimp only
  rw [Atoi_decimal n hn hnr]
  dsimp only
  rw [Atoi_decimal size hs hsr]
  dsimp only
  rw [Atoi_decimal version hv hvr]
  dsimp only
  rw [Atoi_decimal msgNo hm hmr]

/-- Witness of the amended C7 on the input `HNHBK:1:3+000000000100+220+0+1'`: segment
number 1, size 100, version 220, dialog id `0`, message number 1. -/
theorem UnmarshalHBCI_header_fields_witness :
    ((NewMessageHeaderSegment 0 0 [] 0).UnmarshalHBCI
        (headerWire (latin1 "1") (latin1 "000000000100") (latin1 "220") (latin1 "0")
          (latin1 "1")) =
      ⟨Outcome.ok (),
        { NewMessageHeaderSegment 0 0 [] 0 with
          Segment := NewBasicSegment MessageHeaderSegment.id (decimalValue (latin1 "1"))
            MessageHeaderSegment.version
          Size := NewDigit (decimalValue (latin1 "000000000100")) 12
          HBCIVersion := NewNumber (decimalValue (latin1 "220")) 3
          DialogID := NewIdentification (latin1 "0")
          Number := NewNumber (decimalValue (latin1 "1")) 4 }⟩) ∧
    headerWire (latin1 "1") (latin1 "000000000100") (latin1 "220") (latin1 "0") (latin1 "1") =
      latin1 "HNHBK:1:3+000000000100+220+0+1'" ∧
    (NewMessageHeaderSegment 0 0 [] 0).UnmarshalHBCI (latin1 "HNHBK:1:3+000000000100+220+0+1'") =
      ⟨Outcome.ok (),
        { Segment := ⟨latin1 "HNHBK", 1, 3, none⟩
          Size := ⟨100, 12⟩
          HBCIVersion := ⟨220, 3⟩
          DialogID := ⟨latin1 "0", 30⟩
          Number := ⟨1, 4⟩
          Ref := none }⟩ :=
  ⟨UnmarshalHBCI_header_fields (NewMessageHeaderSegment 0 0 [] 0) (latin1 "1")
      (latin1 "000000000100") (latin1 "220") (latin1 "0") (latin1 "1")
      (by decide) (by decide) (by decide) (by decide)
      (by unfold fitsInt; decide) (by unfold fitsInt; decide) (by unfold fitsInt; decide)
      (by unfold fitsInt; decide) (by decide),
    by decide, by decide⟩

/-- C7 (counterexample). The size `99999999999999999999` is a decimal integer, yet
`UnmarshalHBCI` fails on `HNHBK:1:3+99999999999999999999+220+0+1'`: `strconv.Atoi` reports a
range error. -/
theorem UnmarshalHBCI_size_out_of_range :
    isDecimalInteger (latin1 "99999999999999999999") = true ∧
    headerWire (latin1 "1") (latin1 "99999999999999999999") (latin1 "220") (latin1 "0")
        (latin1 "1") = latin1 "HNHBK:1:3+99999999999999999999+220+0+1'" ∧
    ((NewMessageHeaderSegment 0 0 [] 0).UnmarshalHBCI
        (latin1 "HNHBK:1:3+99999999999999999999+220+0+1'")).returned =
      Outcome.error "Error while unmarshaling size" := by
  decide

/-- C8 (the code at the failing input). A dialog id written `a?+b` on the wire is cut at
the escaped `+`: on `HNHBK:1:3+000000000100+220+a?+b+1'` the call fails, because the
message number is read from `b`; on `HNHBK:1:3+000000000100+220+a?+7+1'` it succeeds with
dialog id `a?` and message number 7. -/
theorem UnmarshalHBCI_splits_at_escaped_plus :
    ((NewMessageHeaderSegment 0 0 [] 0).UnmarshalHBCI
        (latin1 "HNHBK:1:3+000000000100+220+a?+b+1'")).returned =
      Outcome.error "Error while unmarshaling message number" ∧
    (NewMessageHeaderSegment 0 0 [] 0).UnmarshalHBCI
        (latin1 "HNHBK:1:3+000000000100+220+a?+7+1'") =
      ⟨Outcome.ok (),
        { Segment := ⟨latin1 "HNHBK", 1, 3, none⟩
          Size := ⟨100, 12⟩
          HBCIVersion := ⟨220, 3⟩
          DialogID := ⟨latin1 "a?", 30⟩
          Number := ⟨7, 4⟩
          Ref := none }⟩ := by
  decide

/-! ### Encryption and signing payloads (`Encrypt`, `Sign`) -/

theorem appendOptional_eq (s : Option Segment) (m : Bytes) :
    appendOptional s m = writeOptional s m := by
  cases s <;> rfl

theorem appendBody_eq (segs : List (Option Segment)) (m : Bytes) :
    appendBody segs m = writeBody segs m := by
  induction segs generalizing m with
  | nil => rfl
  | cons s rest ih =>
    cases s with
    | none => simpa [appendBody, writeBody] using ih m
    | some seg =>
      simp only [appendBody, writeBody]
      cases seg.MarshalHBCI with
      | ok w => simpa using ih (m ++ w)
      | error e => rfl
      | aborted e => rfl

/-- C9. When the signature header (if present), the non-nil body segments and the signature
end (if present) marshal, `Encrypt` hands the provider exactly the concatenation of their
bytes in this order, nothing of the message header or end; if the provider returns a
ciphertext, `Encrypt` returns a message that keeps the header and the end and whose
encrypted-data segment holds that ciphertext; if the provider returns an error, `Encrypt`
returns that error and no message. -/
theorem Encrypt_payload (b : BasicMessage) (provider : CryptoProvider)
    (segs : List (Option Segment)) (parts : List Bytes)
    (hB : b.HBCIMessage = some segs)
    (hparts : marshalAll (b.SignatureBegin.toList ++ (segs.reduceOption ++
      b.SignatureEnd.toList)) = Outcome.ok parts) :
    (b.Encrypt provider).handed = some parts.flatten ∧
    (∀ c, provider.Encrypt parts.flatten = Outcome.ok c →
      ∃ m, (b.Encrypt provider).returned = Outcome.ok m ∧ m.Header = b.Header ∧
        m.End = b.End ∧ m.EncryptedData = some (NewEncryptedDataSegment c)) ∧
    (∀ err, provider.Encrypt parts.flatten = Outcome.error err →
      (b.Encrypt provider).returned = Outcome.error err) := by
  rw [marshalAll_append] at hparts
  obtain ⟨p1, h1, hrest⟩ := Outcome.bind_eq_ok hparts
  rw [marshalAll_append] at hrest
  obtain ⟨p23, h23, hp⟩ := Outcome.bind_eq_ok hrest
  obtain ⟨p2, h2, hrest2⟩ := Outcome.bind_eq_ok h23
  obtain ⟨p3, h3, hp23⟩ := Outcome.bind_eq_ok hrest2
  simp only [Outcome.ok.injEq] at hp hp23
  subst hp23
  subst hp
  have hcollected : ((appendOptional b.SignatureBegin []).bind fun m1 =>
      (appendBody segs m1).bind fun m2 => appendOptional b.SignatureEnd m2) =
      Outcome.ok (p1 ++ (p2 ++ p3)).flatten := by
    simp [appendOptional_eq, appendBody_eq, writeOptional_marshalAll, writeBody_marshalAll,
      h1, h2, h3]
  unfold BasicMessage.Encrypt
  simp only [hB, hcollected]
  refine ⟨?_, ?_, ?_⟩
  · cases provider.Encrypt (p1 ++ (p2 ++ p3)).flatten <;> rfl
  · intro c hc
    rw [hc]
    exact ⟨_, rfl, rfl, rfl, rfl⟩
  · intro err herr
    rw [herr]

/-- Whatever `Encrypt` hands to the provider is the concatenation of the marshalled
signature header, non-nil body segments and signature end: the provider is called with
nothing else, and not at all when the body is unset or a segment fails to marshal. -/
theorem Encrypt_handed_only_payload (b : BasicMessage) (provider : CryptoProvider)
    (payload : Bytes) (hh : (b.Encrypt provider).handed = some payload) :
    ∃ segs parts, b.HBCIMessage = some segs ∧
      marshalAll (b.SignatureBegin.toList ++ (segs.reduceOption ++ b.SignatureEnd.toList)) =
        Outcome.ok parts ∧
      payload = parts.flatten := by
  cases hB : b.HBCIMessage with
  | none => simp [BasicMessage.Encrypt, hB] at hh
  | some segs =>
    refine ⟨segs, ?_⟩
    unfold BasicMessage.Encrypt at hh
    simp only [hB, appendOptional_eq, appendBody_eq, writeOptional_marshalAll,
      writeBody_marshalAll] at hh
    rw [marshalAll_append, marshalAll_append]
    cases h1 : marshalAll b.SignatureBegin.toList with
    | error e => simp [h1] at hh
    | aborted e => simp [h1] at hh
    | ok p1 =>
      cases h2 : marshalAll segs.reduceOption with
      | error e => simp [h1, h2] at hh
      | aborted e => simp [h1, h2] at hh
      | ok p2 =>
        cases h3 : marshalAll b.SignatureEnd.toList with
        | error e => simp [h1, h2, h3] at hh
        | aborted e => simp [h1, h2, h3] at hh
        | ok p3 =>
          simp only [h1, h2, h3, Outcome.bind_ok, List.nil_append] at hh
          refine ⟨p1 ++ (p2 ++ p3), rfl, rfl, ?_⟩
          cases hp : provider.Encrypt (p1.flatten ++ (p2.flatten ++ p3.flatten)) with
          | ok c => simp [hp] at hh; rw [← hh]; simp
          | error e => simp [hp] at hh; rw [← hh]; simp
          | aborted e => simp [hp] at hh; rw [← hh]; simp

theorem writeBodyStrings_eq (segs : List (Option Segment)) (buf : Bytes) :
    writeBodyStrings segs buf = buf ++ (segs.reduceOption.map Segment.String).flatten := by
  induction segs generalizing buf with
  | nil => simp [writeBodyStrings]
  | cons s rest ih =>
    cases s with
    | none => simpa [writeBodyStrings] using ih buf
    | some seg =>
      simp [writeBodyStrings, ih, List.reduceOption_cons_of_some, List.append_assoc]

/-- C10 (amended). `Sign` passes to the signer the `String()` of the signature header
followed by the `String()` of every non-nil body segment in order, after renumbering, and
nothing of the signature end; the value the signer returns is the one handed to
`WriteSignature` for the signature end. -/
theorem Sign_handed_bytes (b : BasicMessage) (h : MessageHeaderSegment) (e : MessageEndSegment)
    (segs : List (Option Segment)) (provider : SignatureProvider)
    (hH : b.Header = some h) (hE : b.End = some e) (hB : b.HBCIMessage = some segs)
    (hsig : ∀ payload, ∃ sig, provider.Sign payload = Outcome.ok sig) :
    ∃ r SH SE body sig, b.Sign provider = Outcome.ok r ∧
      r.message.SignatureBegin = some SH ∧ r.message.HBCIMessage = some body ∧
      r.message.SignatureEnd = some SE ∧
      r.handed = SH.String ++ (body.reduceOption.map Segment.String).flatten ∧
      provider.Sign r.handed = Outcome.ok sig ∧
      SE.elements =
        provider.WriteSignature (b.hbciVersion.SignatureEnd (-1) []).elements sig := by
  have hu := sign_unfold b h e segs provider hH hE hB
  simp only at hu
  obtain ⟨sig, hs⟩ := hsig (writeBodyStrings (setBodyNumbers segs 2).1
    ([] ++ Segment.String
      { Header := (b.hbciVersion.PinTanSignatureHeader [] [] KeyName.zero).Header.SetNumber 2,
        elements := provider.WriteSignatureHeader
          (b.hbciVersion.PinTanSignatureHeader [] [] KeyName.zero).elements }))
  rw [hs] at hu
  simp only at hu
  refine ⟨_, _, _, _, sig, hu, rfl, rfl, rfl, ?_, hs, rfl⟩
  simp [writeBodyStrings_eq]

/-- Witness of C9 on the signed sample message. -/
theorem Encrypt_payload_witness :
    ((sampleSigned.Encrypt sampleCrypto).handed =
        some [latin1 "HNSHK:2:3+999++'", latin1 "HKIDN:3:2+280?:10020030+9999999999'",
          latin1 "HKSAL:4:3+N'", latin1 "HNSHA:5:1++PIN'"].flatten ∧
      (∀ c, sampleCrypto.Encrypt
          [latin1 "HNSHK:2:3+999++'", latin1 "HKIDN:3:2+280?:10020030+9999999999'",
            latin1 "HKSAL:4:3+N'", latin1 "HNSHA:5:1++PIN'"].flatten = Outcome.ok c →
        ∃ m, (sampleSigned.Encrypt sampleCrypto).returned = Outcome.ok m ∧
          m.Header = sampleSigned.Header ∧ m.End = sampleSigned.End ∧
          m.EncryptedData = some (NewEncryptedDataSegment c)) ∧
      (∀ err, sampleCrypto.Encrypt
          [latin1 "HNSHK:2:3+999++'", latin1 "HKIDN:3:2+280?:10020030+9999999999'",
            latin1 "HKSAL:4:3+N'", latin1 "HNSHA:5:1++PIN'"].flatten = Outcome.error err →
        (sampleSigned.Encrypt sampleCrypto).returned = Outcome.error err)) ∧
    (sampleSigned.Encrypt failingCrypto).handed =
      some (latin1 "HNSHK:2:3+999++'HKIDN:3:2+280?:10020030+9999999999'HKSAL:4:3+N'HNSHA:5:1++PIN'") :=
  ⟨Encrypt_payload sampleSigned sampleCrypto
      [some (sampleB1.SetNumber 2).1, none, some (sampleB2.SetNumber 3).1]
      [latin1 "HNSHK:2:3+999++'", latin1 "HKIDN:3:2+280?:10020030+9999999999'",
        latin1 "HKSAL:4:3+N'", latin1 "HNSHA:5:1++PIN'"] rfl (by decide),
    by decide⟩

/-- Witness of the amended C10 on the sample message and the sample provider. -/
theorem Sign_handed_bytes_witness :
    ∃ r SH SE body sig, sampleMessage.Sign sampleSigner = Outcome.ok r ∧
      r.message.SignatureBegin = some SH ∧ r.message.HBCIMessage = some body ∧
      r.message.SignatureEnd = some SE ∧
      r.handed = SH.String ++ (body.reduceOption.map Segment.String).flatten ∧
      sampleSigner.Sign r.handed = Outcome.ok sig ∧
      SE.elements =
        sampleSigner.WriteSignature (sampleMessage.hbciVersion.SignatureEnd (-1) []).elements
          sig :=
  Sign_handed_bytes sampleMessage (NewMessageHeaderSegment 0 220 (latin1 "0") 1)
    (NewMessageEndSegment 9 1) [some sampleB1, none, some sampleB2] sampleSigner rfl rfl rfl
    (fun _ => ⟨latin1 "PIN", rfl⟩)

/-- C10 (counterexample). On the sample message the signer receives the signature header
and the two body segments and stops there: the signature end without its signature,
`HNSHA:5:1++'`, is not part of the signed bytes. -/
theorem Sign_handed_without_signature_end :
    (match sampleMessage.Sign sampleSigner with
      | Outcome.ok r => r.handed
      | _ => []) =
      latin1 "HNSHK:2:3+999++'HKIDN:3:2+280?:10020030+9999999999'HKSAL:4:3+N'" ∧
    Segment.String
        { Header := (sampleVersion.SignatureEnd (-1) []).Header.SetNumber 5
          elements := (sampleVersion.SignatureEnd (-1) []).elements } =
      latin1 "HNSHA:5:1++'" ∧
    (match sampleMessage.Sign sampleSigner with
      | Outcome.ok r => r.handed
      | _ => []) ≠
      latin1 "HNSHK:2:3+999++'HKIDN:3:2+280?:10020030+9999999999'HKSAL:4:3+N'HNSHA:5:1++'" := by
  decide

/-! ### Message numbers and the dialog end (`nextMessageNumber`, `dialogEnd`, `newDialog`) -/

theorem wrapInt_of_fitsInt (i : Int) (h : fitsInt i) : wrapInt i = i := by
  obtain ⟨h1, h2⟩ := h
  unfold wrapInt
  omega

theorem dialogEnd_eq (d : dialog) (hkendNumber : Int) :
    d.dialogEnd hkendNumber =
      (Outcome.aborted "invalid memory address or nil pointer dereference",
        d.nextMessageNumber.2) := rfl

theorem call_messageCount (d : dialog) (c : dialogCall) (hfit : fitsInt d.messageCount)
    (hhi : d.messageCount + (d.call c).1.length ≤ 9223372036854775807) :
    (d.call c).2.messageCount = d.messageCount + (d.call c).1.length ∧
    (d.call c).1 = (List.range (d.call c).1.length).map
      (fun (i : Nat) => d.messageCount + 1 + (i : Int)) := by
  obtain ⟨h1, h2⟩ := hfit
  cases c with
  | nextMessageNumber =>
    have hw : wrapInt (d.messageCount + 1) = d.messageCount + 1 := by
      apply wrapInt_of_fitsInt
      simp [dialog.call] at hhi
      exact ⟨by omega, by omega⟩
    simp [dialog.call, dialog.nextMessageNumber, hw, List.range_succ]
  | dialogEnd k =>
    have hw : wrapInt (d.messageCount + 1) = d.messageCount + 1 := by
      apply wrapInt_of_fitsInt
      simp [dialog.call] at hhi
      exact ⟨by omega, by omega⟩
    simp [dialog.call, dialogEnd_eq, dialog.nextMessageNumber, hw, List.range_succ]
  | _ => simp [dialog.call]

theorem run_messageCount (d : dialog) (calls : List dialogCall) (hfit : fitsInt d.messageCount)
    (hhi : d.messageCount + (d.run calls).1.length ≤ 9223372036854775807) :
    (d.run calls).2.messageCount = d.messageCount + (d.run calls).1.length ∧
    (d.run calls).1 = (List.range (d.run calls).1.length).map
      (fun (i : Nat) => d.messageCount + 1 + (i : Int)) := by
  induction calls generalizing d with
  | nil => simp [dialog.run]
  | cons c rest ih =>
    simp only [dialog.run, List.length_append] at hhi
    push_cast at hhi
    have hc : d.messageCount + ((d.call c).1.length : Int) ≤ 9223372036854775807 := by
      have : (0 : Int) ≤ (((d.call c).2.run rest).1.length : Int) := Int.ofNat_nonneg _
      omega
    obtain ⟨h1, h2⟩ := call_messageCount d c hfit hc
    have hfit2 : fitsInt (d.call c).2.messageCount := by
      rw [h1]
      obtain ⟨a, b⟩ := hfit
      have : (0 : Int) ≤ ((d.call c).1.length : Int) := Int.ofNat_nonneg _
      exact ⟨by omega, by omega⟩
    have hhi2 : (d.call c).2.messageCount + (((d.call c).2.run rest).1.length : Int) ≤
        9223372036854775807 := by
      rw [h1]; omega
    obtain ⟨h3, h4⟩ := ih (d.call c).2 hfit2 hhi2
    constructor
    · simp only [dialog.run, h3, h1, List.length_append]
      push_cast
      omega
    · simp only [dialog.run, List.length_append]
      rw [range_map_append]
      rw [h1] at h4
      rw [← h2, ← h4]

/-- C11 (amended). For every dialog state with `messageCount = c` in the range of a Go `int`
and below its largest value, `nextMessageNumber` returns `c+1` and leaves
`messageCount = c+1`. A call that takes no number leaves the dialog as it is, and every
call leaves `messageCount` at `c` or at `c+1`. Over every sequence of calls during which
the count stays in the range, the numbers taken are `c+1, c+2, ...` without a gap, and the
count ends at `c` plus the number of numbers taken. -/
theorem nextMessageNumber_consecutive (d : dialog) (hfit : fitsInt d.messageCount)
    (hhi : d.messageCount < 9223372036854775807) :
    d.nextMessageNumber.1 = d.messageCount + 1 ∧
    d.nextMessageNumber.2.messageCount = d.messageCount + 1 ∧
    (∀ c : dialogCall, (d.call c).1 = [] → (d.call c).2 = d) ∧
    (∀ c : dialogCall, (d.call c).2.messageCount = d.messageCount ∨
      (d.call c).2.messageCount = d.messageCount + 1) ∧
    (∀ calls : List dialogCall,
      d.messageCount + (d.run calls).1.length ≤ 9223372036854775807 →
      (d.run calls).1 = (List.range (d.run calls).1.length).map
        (fun (i : Nat) => d.messageCount + 1 + (i : Int)) ∧
      (d.run calls).2.messageCount = d.messageCount + (d.run calls).1.length) := by
  have hw : wrapInt (d.messageCount + 1) = d.messageCount + 1 :=
    wrapInt_of_fitsInt _ ⟨by have := hfit.1; omega, by omega⟩
  refine ⟨hw, hw, ?_, ?_, ?_⟩
  · intro c hc
    cases c <;> simp [dialog.call] at hc ⊢
  · intro c
    cases c with
    | nextMessageNumber => exact Or.inr hw
    | dialogEnd k => exact Or.inr (by rw [dialog.call, dialogEnd_eq]; exact hw)
    | UserParameterDataVersion => exact Or.inl rfl
    | BankParameterDataVersion => exact Or.inl rfl
    | post m => exact Or.inl rfl
    | dial m => exact Or.inl rfl
  · intro calls hrun
    exact ⟨(run_messageCount d calls hfit hrun).2, (run_messageCount d calls hfit hrun).1⟩

/-- C11 (witness). The sample dialog, a new dialog with `messageCount` 0. -/
theorem nextMessageNumber_consecutive_witness :
    sampleDialog.nextMessageNumber.1 = sampleDialog.messageCount + 1 ∧
    sampleDialog.nextMessageNumber.2.messageCount = sampleDialog.messageCount + 1 ∧
    (∀ c : dialogCall, (sampleDialog.call c).1 = [] → (sampleDialog.call c).2 = sampleDialog) ∧
    (∀ c : dialogCall, (sampleDialog.call c).2.messageCount = sampleDialog.messageCount ∨
      (sampleDialog.call c).2.messageCount = sampleDialog.messageCount + 1) ∧
    (∀ calls : List dialogCall,
      sampleDialog.messageCount + (sampleDialog.run calls).1.length ≤ 9223372036854775807 →
      (sampleDialog.run calls).1 = (List.range (sampleDialog.run calls).1.length).map
        (fun (i : Nat) => sampleDialog.messageCount + 1 + (i : Int)) ∧
      (sampleDialog.run calls).2.messageCount =
        sampleDialog.messageCount + (sampleDialog.run calls).1.length) :=
  nextMessageNumber_consecutive sampleDialog ⟨by decide, by decide⟩ (by decide)

/-- C11 (counterexample). A dialog whose `messageCount` is the largest `int`, 2^63 - 1:
`nextMessageNumber` returns -2^63, not `c+1`, and leaves the count there, below the count
before the call. From 2^63 - 2 the calls `nextMessageNumber`, `dialogEnd`,
`nextMessageNumber` take the numbers 2^63 - 1, -2^63, -2^63 + 1. -/
theorem nextMessageNumber_wraps :
    ({ sampleDialog with messageCount := 9223372036854775807 } : dialog).nextMessageNumber.1 =
      -9223372036854775808 ∧
    (({ sampleDialog with messageCount := 9223372036854775807 } :
      dialog).nextMessageNumber.2.messageCount) = -9223372036854775808 ∧
    (({ sampleDialog with messageCount := 9223372036854775807 } :
      dialog).nextMessageNumber.2.messageCount) <
      ({ sampleDialog with messageCount := 9223372036854775807 } : dialog).messageCount ∧
    (({ sampleDialog with messageCount := 9223372036854775806 } : dialog).run
      [dialogCall.nextMessageNumber, dialogCall.dialogEnd 2, dialogCall.nextMessageNumber]).1 =
      [9223372036854775807, -9223372036854775808, -9223372036854775807] := by
  decide

/-- C12 (the code at the failing input). `NewBasicClientMessage` hands its new value, whose
embedded `*BasicMessage` is still nil, to `NewBasicMessage`, and `HBCIVersion()` on that
value panics: the constructor panics for every client message. So for every dialog
`dialogEnd` takes its number and then panics: it returns no message, and the dialog is left
as `nextMessageNumber` leaves it. On the sample dialog the count is 1 afterwards. -/
theorem dialogEnd_panics (d : dialog) (hkendNumber : Int) :
    (∀ clientMessage : List (Option Segment),
      ({ BasicMessage := none, clientMessage := clientMessage } :
        BasicClientMessage).HBCIVersion =
        Outcome.aborted "invalid memory address or nil pointer dereference" ∧
      NewBasicClientMessage clientMessage =
        Outcome.aborted "invalid memory address or nil pointer dereference") ∧
    (d.dialogEnd hkendNumber).1 =
      Outcome.aborted "invalid memory address or nil pointer dereference" ∧
    (d.dialogEnd hkendNumber).2 = d.nextMessageNumber.2 ∧
    (sampleDialog.dialogEnd 2).2.messageCount = 1 :=
  ⟨fun _ => ⟨rfl, rfl⟩, rfl, rfl, rfl⟩

/-- C14. For every bank id, URL, client id and pair of providers, `newDialog` returns a
dialog with dialog id "0", client system id "0", `messageCount` 0 and no accounts, holding
the bank id, URL and client id it was given; the first message number it issues is 1. The
anonymous client id is the literal "9999999999". -/
theorem newDialog_initial_state (bankId : BankId) (hbciUrl clientId : Bytes)
    (signatureProvider : SignatureProvider) (cryptoProvider : CryptoProvider) :
    (newDialog bankId hbciUrl clientId signatureProvider cryptoProvider).dialogID =
      latin1 "0" ∧
    (newDialog bankId hbciUrl clientId signatureProvider cryptoProvider).ClientSystemID =
      latin1 "0" ∧
    (newDialog bankId hbciUrl clientId signatureProvider cryptoProvider).messageCount = 0 ∧
    (newDialog bankId hbciUrl clientId signatureProvider cryptoProvider).Accounts = [] ∧
    (newDialog bankId hbciUrl clientId signatureProvider
      cryptoProvider).nextMessageNumber.1 = 1 ∧
    (newDialog bankId hbciUrl clientId signatureProvider cryptoProvider).BankID = bankId ∧
    (newDialog bankId hbciUrl clientId signatureProvider cryptoProvider).hbciUrl = hbciUrl ∧
    (newDialog bankId hbciUrl clientId signatureProvider cryptoProvider).ClientID = clientId ∧
    anonymousClientID = latin1 "9999999999" := by
  refine ⟨rfl, rfl, rfl, rfl, rfl, rfl, rfl, rfl, rfl⟩

/-! ### Key management (`NewPublicKeyRenewalSegment`, `NewPublicKeyRevocationSegment`) -/

theorem searchLoop_le (f : Nat → Bool) (fuel i j : Nat) (h : i ≤ j) :
    searchLoop f fuel i j ≤ j := by
  induction fuel generalizing i j with
  | zero => simpa [searchLoop] using h
  | succ n ih =>
    simp only [searchLoop]
    split
    · split
      · exact ih _ _ (by omega)
      · exact le_trans (ih _ _ (by omega)) (by omega)
    · exact h

theorem searchLoop_fuel (f : Nat → Bool) (fuel extra i j : Nat) (h : j - i ≤ fuel) :
    searchLoop f (fuel + extra) i j = searchLoop f fuel i j := by
  induction fuel generalizing i j with
  | zero =>
    have hij : ¬ i < j := by omega
    cases extra with
    | zero => rfl
    | succ e => simp [searchLoop, hij]
  | succ n ih =>
    have e1 : n + 1 + extra = (n + extra) + 1 := by omega
    rw [e1]
    simp only [searchLoop]
    split
    · split
      · exact ih _ _ (by omega)
      · exact ih _ _ (by omega)
    · rfl

theorem SearchStrings_le (a : List Bytes) (x : Bytes) : SearchStrings a x ≤ a.length :=
  searchLoop_le _ _ _ _ (Nat.zero_le _)

theorem revocation_builds (number : Int) (keyName : KeyName) (reason : Bytes) (now : Time) :
    NewPublicKeyRevocationSegment number keyName reason now =
      Outcome.ok
        { MessageID := NewNumber 2 1
          FunctionID := NewNumber 130 3
          KeyName := ⟨keyName⟩
          RevocationReason := NewAlphaNumeric reason 3
          Date := ⟨true, now⟩
          Certificate := none
          Header := NewSegmentHeader (latin1 "HKSSP") number 2 } := by
  have h := SearchStrings_le validRevocationReasons reason
  simp only [NewPublicKeyRevocationSegment]
  rw [if_neg (by omega)]

/-- C15 (amended). `NewPublicKeyRenewalSegment` aborts with "KeyType may not be 'B'" exactly
for the key names of key type "B" and builds the segment, holding the key name, for every
other key type; `NewPublicKeyRevocationSegment` does not look at the key type and builds the
segment for every key name. -/
theorem renewal_rejects_key_type_B (number : Int) (keyName : KeyName)
    (pubKey : Option PublicKey) (reason : Bytes) (now : Time) :
    (NewPublicKeyRenewalSegment number keyName pubKey =
        Outcome.aborted "KeyType may not be 'B'" ↔ keyName.KeyType = latin1 "B") ∧
    ((∃ p, NewPublicKeyRenewalSegment number keyName pubKey = Outcome.ok p ∧
        p.KeyName.val = keyName) ↔ keyName.KeyType ≠ latin1 "B") ∧
    (∃ p, NewPublicKeyRevocationSegment number keyName reason now = Outcome.ok p ∧
        p.KeyName.val = keyName) := by
  refine ⟨?_, ?_, ⟨_, revocation_builds number keyName reason now, rfl⟩⟩
  · by_cases h : keyName.KeyType = latin1 "B" <;> simp [NewPublicKeyRenewalSegment, h]
  · by_cases h : keyName.KeyType = latin1 "B" <;> simp [NewPublicKeyRenewalSegment, h]

/-- C15 (counterexample). With a key name of key type "B" and the reason "1",
`NewPublicKeyRevocationSegment` builds a revocation segment that holds the key type "B". -/
theorem revocation_builds_with_key_type_B :
    sampleKeyNameB.KeyType = latin1 "B" ∧
    (match NewPublicKeyRevocationSegment 3 sampleKeyNameB (latin1 "1") sampleNow with
      | Outcome.ok p => some p.KeyName.val.KeyType
      | _ => none) = some (latin1 "B") := by
  decide

/-- C16 (the code at the failing input). `NewPublicKeyRevocationSegment` builds a segment
for every reason and stores the reason as given: the search answers an index of at most 3,
never above the length of the list of valid reasons. The reasons "2", "" and "zzz" are not valid reasons, and the
confirmation segment is built with the reason "2" as well. -/
theorem revocation_accepts_any_reason (number : Int) (keyName : KeyName) (reason : Bytes)
    (now : Time) :
    (∃ p, NewPublicKeyRevocationSegment number keyName reason now = Outcome.ok p ∧
      p.RevocationReason.val = reason) ∧
    SearchStrings validRevocationReasons reason ≤ validRevocationReasons.length ∧
    latin1 "2" ∉ validRevocationReasons ∧ latin1 "" ∉ validRevocationReasons ∧
    latin1 "zzz" ∉ validRevocationReasons ∧
    SearchStrings validRevocationReasons (latin1 "2") = 1 ∧
    SearchStrings validRevocationReasons (latin1 "zzz") = 3 ∧
    (match NewPublicKeyRevocationConfirmationSegment (latin1 "0") 4 1 sampleKeyName (latin1 "2")
        (some sampleRevocation) sampleNow with
      | Outcome.ok p => some p.RevocationReason.val
      | _ => none) = some (latin1 "2") := by
  refine ⟨⟨_, revocation_builds number keyName reason now, rfl⟩,
    SearchStrings_le _ _, by decide, by decide, by decide, by decide, by decide, by decide⟩

/-! ### The `:86:` field (`CustomFieldTag.Unmarshal`) -/

theorem startsWith_iff (s k : Bytes) : startsWith s k = true ↔ k <+: s := by
  induction s generalizing k with
  | nil =>
    cases k with
    | nil => simp [startsWith]
    | cons p ps => simp [startsWith]
  | cons c cs ih =>
    cases k with
    | nil => simp [startsWith]
    | cons p ps =>
      simp only [startsWith, Bool.and_eq_true, decide_eq_true_eq, ih, List.cons_prefix_cons]
      constructor
      · rintro ⟨h1, h2⟩; exact ⟨h1.symm, h2⟩
      · rintro ⟨h1, h2⟩; exact ⟨h1.symm, h2⟩

theorem startsWith_length (s k : Bytes) (h : startsWith s k = true) : k.length ≤ s.length :=
  ((startsWith_iff s k).mp h).length_le

theorem startsWith_unique (s k1 k2 : Bytes) (h1 : startsWith s k1 = true)
    (h2 : startsWith s k2 = true) (hl : k1.length = k2.length) : k1 = k2 := by
  rw [startsWith_iff] at h1 h2
  rw [List.prefix_iff_eq_take] at h1 h2
  rw [h1, h2, hl]

theorem indexFrom_some (s k : Bytes) (i j : Nat) (hk : k ≠ [])
    (h : indexFrom s k i = some j) :
    i ≤ j ∧ startsWith (s.drop (j - i)) k = true ∧
      ∀ q, q < j - i → startsWith (s.drop q) k = false := by
  induction s generalizing i with
  | nil => simp [indexFrom, hk] at h
  | cons c cs ih =>
    simp only [indexFrom] at h
    by_cases hs : startsWith (c :: cs) k = true
    · simp only [hs, if_true, Option.some.injEq] at h
      subst h
      simp [hs]
    · simp only [hs] at h
      obtain ⟨h1, h2, h3⟩ := ih (i + 1) h
      refine ⟨by omega, ?_, ?_⟩
      · have e : j - i = (j - (i + 1)) + 1 := by omega
        rw [e, List.drop_succ_cons]
        exact h2
      · intro q hq
        cases q with
        | zero => simpa using hs
        | succ q =>
          rw [List.drop_succ_cons]
          exact h3 q (by omega)

theorem indexFrom_none (s k : Bytes) (i : Nat) (hk : k ≠ [])
    (h : indexFrom s k i = none) : ∀ q, startsWith (s.drop q) k = false := by
  induction s generalizing i with
  | nil =>
    intro q
    cases k with
    | nil => exact absurd rfl hk
    | cons p ps => simp [startsWith]
  | cons c cs ih =>
    simp only [indexFrom] at h
    by_cases hs : startsWith (c :: cs) k = true
    · simp [hs] at h
    · simp only [hs] at h
      intro q
      cases q with
      | zero => simpa using hs
      | succ q =>
        rw [List.drop_succ_cons]
        exact ih (i + 1) h q

theorem bytesIndex_eq_some (s k : Bytes) (j : Nat) (hk : k ≠ [])
    (h1 : startsWith (s.drop j) k = true)
    (h2 : ∀ q, q < j → startsWith (s.drop q) k = false) : bytesIndex s k = some j := by
  cases h : bytesIndex s k with
  | none =>
    have := indexFrom_none s k 0 hk h j
    rw [h1] at this
    cases this
  | some j' =>
    obtain ⟨_, h3, h4⟩ := indexFrom_some s k 0 j' hk h
    simp only [Nat.sub_zero] at h3 h4
    rcases Nat.lt_trichotomy j j' with hlt | heq | hgt
    · have := h4 j hlt
      rw [h1] at this
      cases this
    · rw [heq]
    · have := h2 j' hgt
      rw [h3] at this
      cases this

theorem bytesIndex_eq_none (s k : Bytes) (hk : k ≠ [])
    (h : ∀ q, startsWith (s.drop q) k = false) : bytesIndex s k = none := by
  cases h' : bytesIndex s k with
  | none => rfl
  | some j =>
    obtain ⟨_, h3, _⟩ := indexFrom_some s k 0 j hk h'
    simp only [Nat.sub_zero] at h3
    rw [h j] at h3
    cases h3

theorem fieldKeys_length : ∀ k ∈ customFieldTagFieldKeys, k.length = 3 := by decide

theorem fieldKeys_shape : ∀ k ∈ customFieldTagFieldKeys,
    k.getD 0 0 = questionMark ∧ k.getD 1 0 ≠ questionMark ∧ k.getD 2 0 ≠ questionMark := by
  decide

theorem fieldKeys_nodup : customFieldTagFieldKeys.Nodup := by decide

theorem keyAt_iff (s : Bytes) (q : Nat) (k : Bytes) :
    keyAt s q = some k ↔ k ∈ customFieldTagFieldKeys ∧ startsWith (s.drop q) k = true := by
  constructor
  · intro h
    exact ⟨List.mem_of_find?_eq_some h, by simpa using List.find?_some h⟩
  · rintro ⟨hm, hs⟩
    cases h : keyAt s q with
    | none =>
      have := List.find?_eq_none.mp h k hm
      simp [hs] at this
    | some k' =>
      have hm' := List.mem_of_find?_eq_some h
      have hs' : startsWith (s.drop q) k' = true := by simpa using List.find?_some h
      rw [startsWith_unique _ k k' hs hs'
        (by rw [fieldKeys_length k hm, fieldKeys_length k' hm'])]

theorem mem_scanKeys (s : Bytes) (e : fieldKeyIndex) :
    e ∈ scanKeys s ↔ e.index < s.length ∧ keyAt s e.index = some e.fieldKey := by
  simp only [scanKeys, List.mem_filterMap, List.mem_range, Option.map_eq_some']
  constructor
  · rintro ⟨q, hq, k, hk, rfl⟩
    exact ⟨hq, hk⟩
  · rintro ⟨hq, hk⟩
    exact ⟨e.index, hq, e.fieldKey, hk, rfl⟩

theorem scanKeys_pairwise (s : Bytes) :
    (scanKeys s).Pairwise (fun a b => a.index < b.index) := by
  unfold scanKeys
  rw [List.pairwise_filterMap]
  refine List.Pairwise.imp ?_ (List.pairwise_lt_range s.length)
  intro a b hab x hx y hy
  simp only [Option.mem_def, Option.map_eq_some'] at hx hy
  obtain ⟨_, _, rfl⟩ := hx
  obtain ⟨_, _, rfl⟩ := hy
  exact hab

theorem key_bytes (s k : Bytes) (q : Nat) (hk : k ∈ customFieldTagFieldKeys)
    (hs : startsWith (s.drop q) k = true) :
    q + 3 ≤ s.length ∧ s.getD q 0 = questionMark ∧ s.getD (q + 1) 0 ≠ questionMark ∧
      s.getD (q + 2) 0 ≠ questionMark := by
  have hl := fieldKeys_length k hk
  have hsh := fieldKeys_shape k hk
  have hlen := startsWith_length _ _ hs
  rw [List.length_drop, hl] at hlen
  rw [startsWith_iff] at hs
  obtain ⟨t, ht⟩ := hs
  have hget : ∀ i, i < 3 → s.getD (q + i) 0 = k.getD i 0 := by
    intro i hi
    have h1 : (s.drop q).getD i 0 = (k ++ t).getD i 0 := by rw [ht]
    rw [List.getD_eq_getElem?_getD, List.getD_eq_getElem?_getD, List.getElem?_drop] at h1
    rw [List.getD_eq_getElem?_getD, h1, List.getElem?_append_left (by omega),
      List.getD_eq_getElem?_getD]
  refine ⟨by omega, ?_, ?_, ?_⟩
  · have := hget 0 (by omega); rw [Nat.add_zero] at this; rw [this]; exact hsh.1
  · have := hget 1 (by omega); rw [this]; exact hsh.2.1
  · have := hget 2 (by omega); rw [this]; exact hsh.2.2

theorem scanKeys_gap (s : Bytes) (a b : fieldKeyIndex) (ha : a ∈ scanKeys s)
    (hb : b ∈ scanKeys s) (hab : a.index < b.index) : a.index + 3 ≤ b.index := by
  obtain ⟨_, hka⟩ := (mem_scanKeys s a).mp ha
  obtain ⟨_, hkb⟩ := (mem_scanKeys s b).mp hb
  obtain ⟨hma, hsa⟩ := (keyAt_iff _ _ _).mp hka
  obtain ⟨hmb, hsb⟩ := (keyAt_iff _ _ _).mp hkb
  obtain ⟨_, _, a1, a2⟩ := key_bytes s _ _ hma hsa
  obtain ⟨_, b0, _, _⟩ := key_bytes s _ _ hmb hsb
  by_contra hlt
  have : b.index = a.index + 1 ∨ b.index = a.index + 2 := by omega
  rcases this with h | h
  · rw [h] at b0; exact a1 b0
  · rw [h] at b0; exact a2 b0

theorem scanKeys_end (s : Bytes) (a : fieldKeyIndex) (ha : a ∈ scanKeys s) :
    a.index + 3 ≤ s.length := by
  obtain ⟨_, hka⟩ := (mem_scanKeys s a).mp ha
  obtain ⟨hma, hsa⟩ := (keyAt_iff _ _ _).mp hka
  exact (key_bytes s _ _ hma hsa).1

theorem filterMap_of_sublist {α β : Type} (key : β → α) (g : α → Option β) (C : List α)
    (L : List β) (hC : C.Nodup) (hsub : (L.map key).Sublist C)
    (hsome : ∀ e ∈ L, g (key e) = some e)
    (hnone : ∀ k ∈ C, k ∉ L.map key → g k = none) : C.filterMap g = L := by
  induction C generalizing L with
  | nil =>
    have : L.map key = [] := List.sublist_nil.mp hsub
    rw [List.map_eq_nil_iff.mp this]; rfl
  | cons k C ih =>
    rw [List.nodup_cons] at hC
    cases L with
    | nil =>
      have : ∀ x ∈ k :: C, g x = none := fun x hx => hnone x hx (by simp)
      exact List.filterMap_eq_nil_iff.mpr this
    | cons e L =>
      simp only [List.map_cons] at hsub
      rcases List.sublist_cons_iff.mp hsub with h | ⟨r, hr, hrC⟩
      · -- the whole of L lies in C
        have hk : k ∉ (e :: L).map key := fun hmem => hC.1 (h.subset hmem)
        have hgk : g k = none := hnone k (List.mem_cons_self _ _) hk
        rw [List.filterMap_cons_none hgk]
        exact ih (e :: L) hC.2 h hsome
          (fun k' hk' hn => hnone k' (List.mem_cons_of_mem _ hk') hn)
      · -- the head of L is k
        simp only [List.cons.injEq] at hr
        obtain ⟨hke, hrL⟩ := hr
        subst hrL
        have hgk : g k = some e := by
          rw [← hke]; exact hsome e (List.mem_cons_self _ _)
        rw [List.filterMap_cons_some hgk]
        congr 1
        refine ih L hC.2 hrC (fun e' he' => hsome e' (List.mem_cons_of_mem _ he')) ?_
        intro k' hk' hn
        refine hnone k' (List.mem_cons_of_mem _ hk') ?_
        simp only [List.map_cons, List.mem_cons, not_or]
        refine ⟨?_, hn⟩
        intro hkk
        rw [← hke] at hC
        exact hC.1 (hkk ▸ hk')

theorem findFieldKeys_eq_scanKeys (s : Bytes)
    (hsub : ((scanKeys s).map fieldKeyIndex.fieldKey).Sublist customFieldTagFieldKeys) :
    findFieldKeys s = scanKeys s := by
  have hnd : ((scanKeys s).map fieldKeyIndex.fieldKey).Nodup := hsub.nodup fieldKeys_nodup
  unfold findFieldKeys
  refine filterMap_of_sublist fieldKeyIndex.fieldKey _ _ _ fieldKeys_nodup hsub ?_ ?_
  · intro e he
    obtain ⟨hq, hk⟩ := (mem_scanKeys s e).mp he
    obtain ⟨hm, hs⟩ := (keyAt_iff _ _ _).mp hk
    have hne : e.fieldKey ≠ [] := by
      intro h0
      have := fieldKeys_length _ hm
      rw [h0] at this
      cases this
    have hfirst : ∀ q, q < e.index → startsWith (s.drop q) e.fieldKey = false := by
      intro q hqlt
      by_contra hcon
      have hsq : startsWith (s.drop q) e.fieldKey = true := by simpa using hcon
      have he' : (⟨e.fieldKey, q⟩ : fieldKeyIndex) ∈ scanKeys s :=
        (mem_scanKeys s _).mpr ⟨by show q < s.length; omega, (keyAt_iff _ _ _).mpr ⟨hm, hsq⟩⟩
      have := List.inj_on_of_nodup_map hnd he' he rfl
      have hidx : q = e.index := congrArg fieldKeyIndex.index this
      omega
    rw [bytesIndex_eq_some s _ _ hne hs hfirst]
    rfl
  · intro k hk hnot
    have hne : k ≠ [] := by
      intro h0
      have := fieldKeys_length _ hk
      rw [h0] at this
      cases this
    have hnone : ∀ q, startsWith (s.drop q) k = false := by
      intro q
      by_contra hcon
      have hsq : startsWith (s.drop q) k = true := by simpa using hcon
      have hlen := startsWith_length _ _ hsq
      rw [List.length_drop, fieldKeys_length k hk] at hlen
      have he' : (⟨k, q⟩ : fieldKeyIndex) ∈ scanKeys s :=
        (mem_scanKeys s _).mpr ⟨by show q < s.length; omega, (keyAt_iff _ _ _).mpr ⟨hk, hsq⟩⟩
      exact hnot (List.mem_map_of_mem fieldKeyIndex.fieldKey he')
    rw [bytesIndex_eq_none s k hne hnone]
    rfl

theorem Atoi_not_aborted (v : Bytes) (e : String) : Atoi v ≠ Outcome.aborted e := by
  unfold Atoi
  simp only
  split_ifs <;> simp

theorem startsWith_not_2 (k p : Bytes) (h : startsWith k p = true) (hl : 2 ≤ p.length)
    (hp : ¬ (latin1 "?2" <+: p)) : startsWith k (latin1 "?2") = false := by
  by_contra hc
  have h2 : startsWith k (latin1 "?2") = true := by simpa using hc
  rw [startsWith_iff] at h h2
  exact hp (List.prefix_of_prefix_length_le h2 h hl)

theorem setField_purpose (c : CustomFieldTag) (k v : Bytes) :
    (∃ c1, c.setField k v = Outcome.ok c1 ∧
      c1.Purpose = c.Purpose ++
        (if startsWith k (latin1 "?2") = true then removeCRLF v else [])) ∨
    ((∃ err, c.setField k v = Outcome.error err) ∧
      (startsWith k (latin1 "?30") || startsWith k (latin1 "?31") ||
        startsWith k (latin1 "?34")) = true) := by
  obtain ⟨add, hadd⟩ : ∃ add, add = (if startsWith k (latin1 "?2") = true then removeCRLF v else []) :=
    ⟨_, rfl⟩
  rw [← hadd]
  unfold CustomFieldTag.setField
  by_cases h0 : startsWith k (latin1 "?00") = true
  · rw [if_pos h0]
    left; exact ⟨_, rfl, by simp [hadd, startsWith_not_2 k _ h0 (by decide) (by decide)]⟩
  rw [if_neg h0]
  by_cases h1 : startsWith k (latin1 "?10") = true
  · rw [if_pos h1]
    left; exact ⟨_, rfl, by simp [hadd, startsWith_not_2 k _ h1 (by decide) (by decide)]⟩
  rw [if_neg h1]
  by_cases h2 : startsWith k (latin1 "?2") = true
  · rw [if_pos h2]
    left; exact ⟨_, rfl, by simp [hadd, h2]⟩
  rw [if_neg h2]
  have hadd0 : add = [] := by rw [hadd, if_neg h2]
  by_cases h3 : startsWith k (latin1 "?30") = true
  · rw [if_pos h3]
    cases hA : Atoi v with
    | ok n => left; exact ⟨_, rfl, by simp [hadd0]⟩
    | error e => right; exact ⟨⟨e, rfl⟩, by simp [h3]⟩
    | aborted e => exact absurd hA (Atoi_not_aborted v e)
  rw [if_neg h3]
  by_cases h4 : startsWith k (latin1 "?31") = true
  · rw [if_pos h4]
    cases hA : Atoi v with
    | ok n => left; exact ⟨_, rfl, by simp [hadd0]⟩
    | error e => right; exact ⟨⟨e, rfl⟩, by simp [h4]⟩
    | aborted e => exact absurd hA (Atoi_not_aborted v e)
  rw [if_neg h4]
  by_cases h5 : startsWith k (latin1 "?32") = true
  · rw [if_pos h5]
    left; exact ⟨_, rfl, by simp [hadd0]⟩
  rw [if_neg h5]
  by_cases h6 : startsWith k (latin1 "?33") = true
  · rw [if_pos h6]
    left; exact ⟨_, rfl, by simp [hadd0]⟩
  rw [if_neg h6]
  by_cases h7 : startsWith k (latin1 "?34") = true
  · rw [if_pos h7]
    cases hA : Atoi v with
    | ok n => left; exact ⟨_, rfl, by simp [hadd0]⟩
    | error e => right; exact ⟨⟨e, rfl⟩, by simp [h7]⟩
    | aborted e => exact absurd hA (Atoi_not_aborted v e)
  rw [if_neg h7]
  by_cases h8 : startsWith k (latin1 "?6") = true
  · rw [if_pos h8]
    left; exact ⟨_, rfl, by simp [hadd0]⟩
  rw [if_neg h8]
  left; exact ⟨_, rfl, by simp [hadd0]⟩

theorem fieldKeys_number_then_no_purpose :
    customFieldTagFieldKeys.Pairwise fun a b =>
      (startsWith a (latin1 "?30") || startsWith a (latin1 "?31") ||
        startsWith a (latin1 "?34")) = true → startsWith b (latin1 "?2") = false := by
  decide

theorem subfieldValues_keys (s : Bytes) :
    ∀ L : List fieldKeyIndex, (subfieldValues s L).map Prod.fst = L.map fieldKeyIndex.fieldKey
  | [] => rfl
  | entry :: rest => by
    have ih := subfieldValues_keys s rest
    cases rest with
    | nil => rfl
    | cons next r =>
      show entry.fieldKey :: (subfieldValues s (next :: r)).map Prod.fst = _
      rw [ih]
      rfl

theorem subfieldValues_no_purpose (s : Bytes) (L : List fieldKeyIndex)
    (h : ∀ k ∈ L.map fieldKeyIndex.fieldKey, startsWith k (latin1 "?2") = false) :
    ((subfieldValues s L).filter fun kv => startsWith kv.1 (latin1 "?2")) = [] := by
  rw [List.filter_eq_nil_iff]
  intro kv hkv
  have : kv.1 ∈ (subfieldValues s L).map Prod.fst := List.mem_map_of_mem _ hkv
  rw [subfieldValues_keys] at this
  simp [h kv.1 this]

theorem processFields_purpose (s : Bytes) :
    ∀ (L : List fieldKeyIndex) (c : CustomFieldTag),
      (L.map fieldKeyIndex.fieldKey).Sublist customFieldTagFieldKeys →
      L.Pairwise (fun a b => a.index + 3 ≤ b.index) →
      (∀ a ∈ L, a.index + 3 ≤ s.length) →
      (processFields s L c).tag.Purpose = c.Purpose ++
        (((subfieldValues s L).filter fun kv => startsWith kv.1 (latin1 "?2")).map
          fun kv => removeCRLF kv.2).flatten
  | [], c, _, _, _ => by simp [processFields, subfieldValues]
  | entry :: rest, c, hsub, hgap, hend => by
    have ih := fun c1 => processFields_purpose s rest c1
      ((List.sublist_cons_self _ _).trans hsub) (List.pairwise_cons.mp hgap).2
      (fun a ha => hend a (List.mem_cons_of_mem _ ha))
    obtain ⟨nxt, hnxt⟩ : ∃ n, n = (match rest with
        | [] => s.length
        | next :: _ => next.index) := ⟨_, rfl⟩
    have hb : entry.index + 3 ≤ nxt ∧ nxt ≤ s.length := by
      subst hnxt
      cases rest with
      | nil => exact ⟨hend entry (List.mem_cons_self _ _), le_refl _⟩
      | cons next r =>
        refine ⟨(List.pairwise_cons.mp hgap).1 next (List.mem_cons_self _ _), ?_⟩
        have := hend next (List.mem_cons_of_mem _ (List.mem_cons_self _ _))
        show next.index ≤ s.length
        omega
    have hP : processFields s (entry :: rest) c =
        match c.setField entry.fieldKey ((s.take nxt).drop (entry.index + 3)) with
        | Outcome.ok c1 => processFields s rest c1
        | Outcome.error err => ⟨Outcome.error err, c⟩
        | Outcome.aborted err => ⟨Outcome.aborted err, c⟩ := by
      have h0 : processFields s (entry :: rest) c =
          match sliceBytes s (entry.index + 3) nxt with
          | Outcome.ok fieldValue =>
            match c.setField entry.fieldKey fieldValue with
            | Outcome.ok c1 => processFields s rest c1
            | Outcome.error err => ⟨Outcome.error err, c⟩
            | Outcome.aborted err => ⟨Outcome.aborted err, c⟩
          | Outcome.error err => ⟨Outcome.error err, c⟩
          | Outcome.aborted err => ⟨Outcome.aborted err, c⟩ := by
        subst hnxt
        cases rest <;> rfl
      rw [h0, sliceBytes, if_pos hb]
    have hV : subfieldValues s (entry :: rest) =
        (entry.fieldKey, (s.take nxt).drop (entry.index + 3)) :: subfieldValues s rest := by
      subst hnxt
      cases rest <;> rfl
    rw [hP, hV]
    rcases setField_purpose c entry.fieldKey ((s.take nxt).drop (entry.index + 3)) with
      ⟨c1, h1, h2⟩ | ⟨⟨err, h1⟩, h2⟩
    · rw [h1]
      simp only
      rw [ih c1, h2]
      by_cases hk : startsWith entry.fieldKey (latin1 "?2") = true
      · simp [List.filter_cons, hk]
      · simp [List.filter_cons, hk]
    · rw [h1]
      simp only
      have hpw := (List.Pairwise.sublist hsub fieldKeys_number_then_no_purpose)
      rw [List.map_cons, List.pairwise_cons] at hpw
      have hrest := subfieldValues_no_purpose s rest (fun k hk => hpw.1 k hk h2)
      have hk : startsWith entry.fieldKey (latin1 "?2") = false := by
        simp only [Bool.or_eq_true] at h2
        rcases h2 with (h | h) | h
        · exact startsWith_not_2 _ _ h (by decide) (by decide)
        · exact startsWith_not_2 _ _ h (by decide) (by decide)
        · exact startsWith_not_2 _ _ h (by decide) (by decide)
      simp [List.filter_cons, hk, hrest]

theorem Unmarshal_fields (extract : Bytes → Outcome (List Bytes)) (c : CustomFieldTag)
    (value id code fields : Bytes) (t : Int)
    (hext : extract value = Outcome.ok [id, code ++ fields])
    (hcode : code.length = 3) (hatoi : Atoi code = Outcome.ok t) :
    c.Unmarshal extract value =
      processFields fields (findFieldKeys fields) { c with Tag := id, TransactionID := t } := by
  have h1 : sliceBytes (code ++ fields) 0 3 = Outcome.ok code := by
    rw [sliceBytes, if_pos ⟨by omega, by simp [hcode]⟩]
    simp [← hcode]
  have h2 : sliceBytes (code ++ fields) 3 (code ++ fields).length = Outcome.ok fields := by
    rw [sliceBytes, if_pos ⟨by simp [hcode], le_refl _⟩, List.take_length, ← hcode,
      List.drop_left]
  unfold CustomFieldTag.Unmarshal
  rw [hext]
  simp only [List.length_cons, List.length_nil, ne_eq, not_true_eq_false, if_false,
    List.getD_cons_zero, List.getD_cons_succ, h1, hatoi, h2]

/-- C17. For every `:86:` value that the tag extractor cuts into the tag id and a field value
made of a three-byte transaction code that reads as a number and the subfields, parsed into
a fresh `CustomFieldTag`: if the subfield keys found by a left-to-right scan of the
subfields are a sublist of the catalogue (each key at most once, in ascending order), then
after `Unmarshal` the field `Purpose` is the concatenation, in order, of the values of the
subfields `?20` to `?29` with every CRLF removed, the value of a subfield being the bytes
behind its three-byte key up to the next key or the end. -/
theorem Unmarshal_purpose (extract : Bytes → Outcome (List Bytes))
    (value id code fields : Bytes) (t : Int)
    (hext : extract value = Outcome.ok [id, code ++ fields])
    (hcode : code.length = 3) (hatoi : Atoi code = Outcome.ok t)
    (hkeys : ((scanKeys fields).map fieldKeyIndex.fieldKey).Sublist customFieldTagFieldKeys) :
    (CustomFieldTag.fresh.Unmarshal extract value).tag.Purpose = purposeOf fields := by
  rw [Unmarshal_fields extract _ value id code fields t hext hcode hatoi,
    findFieldKeys_eq_scanKeys fields hkeys]
  rw [processFields_purpose fields (scanKeys fields) _ hkeys
    ((scanKeys_pairwise fields).imp_of_mem fun ha hb hab => scanKeys_gap fields _ _ ha hb hab)
    (scanKeys_end fields)]
  show [] ++ _ = _
  rw [List.nil_append]
  rfl

/-- C17 (witness). The value `:86:166?00GUTSCHRIFT?20MIETE \r\nJUNI?21 2016?30x?32MAX` meets
the hypotheses; its purpose is `MIETE JUNI 2016`, also though the bank id `x` of `?30` is
not a number. -/
theorem Unmarshal_purpose_witness :
    sampleExtractTagElements (latin1 ":86:166?00GUTSCHRIFT?20MIETE \r\nJUNI?21 2016?30x?32MAX") =
        Outcome.ok [latin1 "86", latin1 "166" ++
          latin1 "?00GUTSCHRIFT?20MIETE \r\nJUNI?21 2016?30x?32MAX"] ∧
      (CustomFieldTag.fresh.Unmarshal sampleExtractTagElements
        (latin1 ":86:166?00GUTSCHRIFT?20MIETE \r\nJUNI?21 2016?30x?32MAX")).tag.Purpose =
        latin1 "MIETE JUNI 2016" ∧
      purposeOf (latin1 "?00GUTSCHRIFT?20MIETE \r\nJUNI?21 2016?30x?32MAX") =
        latin1 "MIETE JUNI 2016" :=
  ⟨by decide,
   (Unmarshal_purpose sampleExtractTagElements _ (latin1 "86") (latin1 "166")
      (latin1 "?00GUTSCHRIFT?20MIETE \r\nJUNI?21 2016?30x?32MAX") 166 (by decide) (by decide)
      (by decide) (by decide)).trans (by decide),
   by decide⟩

/-- C18 (the code at the failing input). With only `?33` present the name gets a leading
space: `:86:166?33MUSTERMANN` is read with `Name = " MUSTERMANN"`; with both subfields the
name is `MAX MUSTERMANN`. -/
theorem Unmarshal_name_with_only_33 :
    CustomFieldTag.fresh.Unmarshal sampleExtractTagElements (latin1 ":86:166?33MUSTERMANN") =
      ⟨Outcome.ok (),
        { CustomFieldTag.fresh with
          Tag := latin1 "86"
          TransactionID := 166
          Name := latin1 " MUSTERMANN" }⟩ ∧
    (CustomFieldTag.fresh.Unmarshal sampleExtractTagElements
        (latin1 ":86:166?32MAX?33MUSTERMANN")).tag.Name = latin1 "MAX MUSTERMANN" := by
  decide

/-- C19 (amended). A subfield key outside the catalogue is text to `Unmarshal`: in a field
value whose only catalogue key is `?32`, the call succeeds, `Name` is everything behind the
`?32` key up to the end of the value, whatever it holds, everything before the `?32` key is
dropped, and nothing but `Tag`, `TransactionID` and `Name` is set. -/
theorem Unmarshal_unknown_key_is_text (extract : Bytes → Outcome (List Bytes))
    (value id code pre rest : Bytes) (t : Int)
    (hext : extract value = Outcome.ok [id, code ++ (pre ++ latin1 "?32" ++ rest)])
    (hcode : code.length = 3) (hatoi : Atoi code = Outcome.ok t)
    (hkeys : scanKeys (pre ++ latin1 "?32" ++ rest) = [⟨latin1 "?32", pre.length⟩]) :
    CustomFieldTag.fresh.Unmarshal extract value =
      ⟨Outcome.ok (), { CustomFieldTag.fresh with Tag := id, TransactionID := t, Name := rest }⟩ := by
  have hsub : ((scanKeys (pre ++ latin1 "?32" ++ rest)).map fieldKeyIndex.fieldKey).Sublist
      customFieldTagFieldKeys := by
    rw [hkeys]
    show [latin1 "?32"].Sublist customFieldTagFieldKeys
    decide
  rw [Unmarshal_fields extract _ value id code _ t hext hcode hatoi,
    findFieldKeys_eq_scanKeys _ hsub, hkeys]
  have hs : sliceBytes (pre ++ latin1 "?32" ++ rest) (pre.length + 3)
      (pre ++ latin1 "?32" ++ rest).length = Outcome.ok rest := by
    have hl : (latin1 "?32").length = 3 := by decide
    rw [sliceBytes, if_pos ⟨by simp [hl], le_refl _⟩]
    rw [List.take_length, ← hl, ← List.length_append, List.drop_left]
  have hset : ∀ c : CustomFieldTag, c.setField (latin1 "?32") rest =
      Outcome.ok { c with Name := rest } := by
    intro c
    unfold CustomFieldTag.setField
    rw [if_neg (by decide), if_neg (by decide), if_neg (by decide), if_neg (by decide),
      if_neg (by decide), if_pos (by decide)]
  simp only [processFields, hs, hset]

/-- C19 (witness). In `:86:166?35EXTRA?32NAME?36MORE` the only catalogue key is `?32`: the
name is `NAME?36MORE` and `?35EXTRA` is dropped. -/
theorem Unmarshal_unknown_key_is_text_witness :
    CustomFieldTag.fresh.Unmarshal sampleExtractTagElements
        (latin1 ":86:166?35EXTRA?32NAME?36MORE") =
      ⟨Outcome.ok (), { CustomFieldTag.fresh with
        Tag := latin1 "86", TransactionID := 166, Name := latin1 "NAME?36MORE" }⟩ :=
  Unmarshal_unknown_key_is_text sampleExtractTagElements _ (latin1 "86") (latin1 "166")
    (latin1 "?35EXTRA") (latin1 "NAME?36MORE") 166 (by decide) (by decide) (by decide)
    (by decide)

/-- C19 (counterexample). The value `:86:166?32NAME?35EXTRA` is read with the name
`NAME?35EXTRA`, where `:86:166?32NAME` gives `NAME`: the unknown subfield alters the value
of a known one, and nothing else of the result holds it. In `:86:166?35EXTRA?32NAME` the
unknown subfield is dropped, and in `?20A?35EXTRA?21B` it becomes part of the purpose. -/
theorem Unmarshal_unknown_key_alters_name :
    CustomFieldTag.fresh.Unmarshal sampleExtractTagElements (latin1 ":86:166?32NAME?35EXTRA") =
        ⟨Outcome.ok (), { CustomFieldTag.fresh with
          Tag := latin1 "86", TransactionID := 166, Name := latin1 "NAME?35EXTRA" }⟩ ∧
      CustomFieldTag.fresh.Unmarshal sampleExtractTagElements (latin1 ":86:166?32NAME") =
        ⟨Outcome.ok (), { CustomFieldTag.fresh with
          Tag := latin1 "86", TransactionID := 166, Name := latin1 "NAME" }⟩ ∧
      CustomFieldTag.fresh.Unmarshal sampleExtractTagElements (latin1 ":86:166?35EXTRA?32NAME") =
        ⟨Outcome.ok (), { CustomFieldTag.fresh with
          Tag := latin1 "86", TransactionID := 166, Name := latin1 "NAME" }⟩ ∧
      (CustomFieldTag.fresh.Unmarshal sampleExtractTagElements
        (latin1 ":86:166?20A?35EXTRA?21B")).tag.Purpose = latin1 "A?35EXTRAB" := by
  decide

/-! ### Bank parameter data (`CommonBankParameterSegment.UnmarshalHBCI`) -/

/-- C20 (the code at the failing input). `CommonBankParameterSegment.UnmarshalHBCI` stores the bank name as the bytes
of the wire: for the name `M?nchen Bank` with the ISO-8859-1 byte 0xFC the value of
`BankName` holds the byte 0xFC, not the UTF-8 bytes 0xC3 0xBC, while the bank id of a bank
identification is converted. -/
theorem UnmarshalHBCI_bank_name_not_converted :
    (match (CommonBankParameterSegment.fresh.UnmarshalHBCI sampleExtractors
        sampleBankParameterWire).segment.BankName with
      | some name => some name.val
      | none => none) = some (latin1 "M" ++ [252] ++ latin1 "nchen Bank") ∧
    ToUtf8 (latin1 "M" ++ [252] ++ latin1 "nchen Bank") =
      latin1 "M" ++ [195, 188] ++ latin1 "nchen Bank" ∧
    (CommonBankParameterSegment.fresh.UnmarshalHBCI sampleExtractors
        sampleBankParameterWire).returned = Outcome.ok () ∧
    (match (BankIdentificationDataElement.UnmarshalHBCI sampleExtractors ⟨none, none⟩
        (latin1 "280:B" ++ [252] ++ latin1 "K")).element.BankID with
      | some id => some id.val
      | none => none) = some (latin1 "B" ++ [195, 188] ++ latin1 "K") := by
  decide

/-! ### Dates (`time.Date`, `Format`, `time.Parse`) -/

theorem digitByte_toNat (n : Nat) (h : n < 10) : ((48 + n).toUInt8).toNat = 48 + n := by
  simp [Nat.toUInt8, UInt8.ofNat, UInt8.toNat]
  omega

theorem digitsValue_append (xs : Bytes) (c : UInt8) :
    digitsValue (xs ++ [c]) = digitsValue xs * 10 + (c.toNat - 48) := by
  simp [digitsValue, List.foldl_append]

theorem fixedDigits_length (w u : Nat) : (fixedDigits w u).length = w := by
  induction w generalizing u with
  | zero => rfl
  | succ n ih => simp [fixedDigits, ih]

theorem fixedDigits_isDigit (w u : Nat) : (fixedDigits w u).all isDigit = true := by
  induction w generalizing u with
  | zero => rfl
  | succ n ih =>
    simp only [fixedDigits, List.all_append, ih, Bool.true_and, List.all_cons, List.all_nil,
      Bool.and_true]
    have := digitByte_toNat (u % 10) (Nat.mod_lt _ (by norm_num))
    simp only [isDigit, this, Bool.and_eq_true, decide_eq_true_eq]
    omega

theorem fixedDigits_value (w u : Nat) : digitsValue (fixedDigits w u) = u % 10 ^ w := by
  induction w generalizing u with
  | zero => simp [fixedDigits, digitsValue, Nat.mod_one]
  | succ n ih =>
    rw [fixedDigits, digitsValue_append, ih, digitByte_toNat _ (Nat.mod_lt _ (by norm_num))]
    have h1 : 48 + u % 10 - 48 = u % 10 := by omega
    rw [h1, pow_succ', Nat.mod_mul]
    omega

theorem normalizeDay_valid (fuel : Nat) (year : Int) (month day : Nat) (h1 : 1 ≤ day)
    (h2 : day ≤ daysIn month year) :
    normalizeDay (fuel + 1) year month day = (year, month, day) := by
  simp only [normalizeDay]
  rw [if_neg (by omega), if_neg (by omega)]
  simp

theorem timeDate_valid (year : Int) (month day : Nat) (loc : Bytes) (hm1 : 1 ≤ month)
    (hm2 : month ≤ 12) (hd1 : 1 ≤ day) (hd2 : day ≤ daysIn month year) :
    timeDate year month day 0 0 0 0 loc = ⟨year, month, day, 0, 0, 0, 0, loc⟩ := by
  have e1 : ((month : Int) - 1) / 12 = 0 := by omega
  have e2 : (((month : Int) - 1) % 12 + 1).toNat = month := by omega
  simp only [timeDate, e1, e2, Int.zero_ediv, Int.zero_emod, add_zero, Int.toNat_zero]
  have e3 : ((day : Int)).natAbs + 1 = day + 1 := by omega
  rw [e3, normalizeDay_valid _ _ _ _ hd1 hd2]

theorem timeDate_midnight (year month day : Int) (loc : Bytes) :
    (timeDate year month day 0 0 0 0 loc).hour = 0 ∧
    (timeDate year month day 0 0 0 0 loc).minute = 0 ∧
    (timeDate year month day 0 0 0 0 loc).second = 0 ∧
    (timeDate year month day 0 0 0 0 loc).nanosecond = 0 ∧
    (timeDate year month day 0 0 0 0 loc).location = loc := by
  simp [timeDate]

theorem daysIn_range (month : Nat) (year : Int) :
    28 ≤ daysIn month year ∧ daysIn month year ≤ 31 := by
  unfold daysIn
  split_ifs <;> omega

theorem normalizeDay_in_range (fuel : Nat) : ∀ (year : Int) (month : Nat) (day : Int),
    1 ≤ month → month ≤ 12 → day.natAbs < fuel →
    1 ≤ (normalizeDay fuel year month day).2.1 ∧ (normalizeDay fuel year month day).2.1 ≤ 12 ∧
    1 ≤ (normalizeDay fuel year month day).2.2 ∧
    (normalizeDay fuel year month day).2.2 ≤
      daysIn (normalizeDay fuel year month day).2.1 (normalizeDay fuel year month day).1 := by
  induction fuel with
  | zero =>
    intro year month day _ _ h
    omega
  | succ n ih =>
    intro year month day hm1 hm2 hfuel
    simp only [normalizeDay]
    by_cases h1 : day < 1
    · rw [if_pos h1]
      obtain ⟨py, hpy⟩ : ∃ py, py = (if month ≤ 1 then year - 1 else year) := ⟨_, rfl⟩
      obtain ⟨pm, hpm⟩ : ∃ pm, pm = (if month ≤ 1 then 12 else month - 1) := ⟨_, rfl⟩
      rw [← hpy, ← hpm]
      have hpm1 : 1 ≤ pm ∧ pm ≤ 12 := by
        rw [hpm]
        split_ifs <;> omega
      have hr := daysIn_range pm py
      by_cases h2 : day + (daysIn pm py : Int) < 1
      · exact ih py pm _ hpm1.1 hpm1.2 (by omega)
      · cases n with
        | zero =>
          simp only [normalizeDay]
          exact ⟨hpm1.1, hpm1.2, by omega, by omega⟩
        | succ k =>
          simp only [normalizeDay]
          rw [if_neg h2, if_neg (by omega)]
          exact ⟨hpm1.1, hpm1.2, by dsimp only; omega, by dsimp only; omega⟩
    · rw [if_neg h1]
      by_cases h2 : (daysIn month year : Int) < day
      · rw [if_pos h2]
        obtain ⟨ny, hny⟩ : ∃ ny, ny = (if 12 ≤ month then year + 1 else year) := ⟨_, rfl⟩
        obtain ⟨nm, hnm⟩ : ∃ nm, nm = (if 12 ≤ month then 1 else month + 1) := ⟨_, rfl⟩
        rw [← hny, ← hnm]
        have hnm1 : 1 ≤ nm ∧ nm ≤ 12 := by
          rw [hnm]
          split_ifs <;> omega
        have hr := daysIn_range month year
        exact ih ny nm _ hnm1.1 hnm1.2 (by omega)
      · rw [if_neg h2]
        exact ⟨hm1, hm2, by dsimp only; omega, by dsimp only; omega⟩

theorem timeDate_valid_fields (year month day hour min sec nsec : Int) (loc : Bytes) :
    (timeDate year month day hour min sec nsec loc).valid = true := by
  obtain ⟨d1, hd1⟩ : ∃ d1, d1 = day + (hour + (min + (sec + nsec / 1000000000) / 60) / 60) / 24 :=
    ⟨_, rfl⟩
  have hm : 1 ≤ ((month - 1) % 12 + 1).toNat ∧ ((month - 1) % 12 + 1).toNat ≤ 12 := by omega
  obtain ⟨r1, r2, r3, r4⟩ := normalizeDay_in_range (d1.natAbs + 1) (year + (month - 1) / 12)
    ((month - 1) % 12 + 1).toNat d1 hm.1 hm.2 (by omega)
  simp only [Time.valid, timeDate, ← hd1, Bool.and_eq_true, decide_eq_true_eq]
  refine ⟨⟨⟨⟨⟨⟨⟨r1, r2⟩, r3⟩, r4⟩, ?_⟩, ?_⟩, ?_⟩, ?_⟩ <;> omega

theorem appendInt_small (x : Int) (w : Nat) (h0 : 0 ≤ x) (h1 : x.natAbs < 10 ^ w) :
    appendInt x w = fixedDigits w x.natAbs := by
  simp only [appendInt]
  rw [if_neg (by omega), if_pos h1]
  rfl

theorem parseChunk_year (st : parseState) (y : Nat) (rest : Bytes) (hy : y < 10 ^ 4)
    (hv : st.value = fixedDigits 4 y ++ rest) :
    parseChunk st layoutChunk.stdLongYear = Outcome.ok { st with value := rest, year := y } := by
  have hl := fixedDigits_length 4 y
  have ht : st.value.take 4 = fixedDigits 4 y := by
    rw [hv, List.take_left' hl]
  have hd : st.value.drop 4 = rest := by
    rw [hv, List.drop_left' hl]
  have hlen : ¬ (st.value.length < 4 ∨ ¬ (st.value.take 4).all isDigit = true) := by
    rw [ht, fixedDigits_isDigit, hv, List.length_append, hl]
    simp
  simp only [parseChunk]
  rw [if_neg hlen, ht, hd, fixedDigits_value, Nat.mod_eq_of_lt hy]

theorem getnum_fixedDigits (u : Nat) (rest : Bytes) (hu : u < 100) :
    getnum (fixedDigits 2 u ++ rest) = Outcome.ok ((u : Int), rest) := by
  have h1 := digitByte_toNat (u / 10 % 10) (Nat.mod_lt _ (by norm_num))
  have h2 := digitByte_toNat (u % 10) (Nat.mod_lt _ (by norm_num))
  simp only [fixedDigits, List.nil_append, List.cons_append, getnum, isDigit, h1, h2]
  have e : (48 + u / 10 % 10 - 48) * 10 + (48 + u % 10 - 48) = u := by omega
  rw [e]
  simp
  omega

theorem parseChunk_month (st : parseState) (m : Nat) (rest : Bytes) (h1 : 1 ≤ m) (h2 : m ≤ 12)
    (hv : st.value = fixedDigits 2 m ++ rest) :
    parseChunk st layoutChunk.stdZeroMonth = Outcome.ok { st with value := rest, month := m } := by
  simp only [parseChunk, hv, getnum_fixedDigits m rest (by omega), Outcome.bind_ok]
  rw [if_neg (by omega)]

theorem parseChunk_day (st : parseState) (d : Nat) (rest : Bytes) (h : d < 100)
    (hv : st.value = fixedDigits 2 d ++ rest) :
    parseChunk st layoutChunk.stdZeroDay = Outcome.ok { st with value := rest, day := d } := by
  simp only [parseChunk, hv, getnum_fixedDigits d rest h, Outcome.bind_ok]

theorem parseChunk_text (st : parseState) (b rest : Bytes) (hv : st.value = b ++ rest) :
    parseChunk st (layoutChunk.text b) = Outcome.ok { st with value := rest } := by
  have hs : startsWith (b ++ rest) b = true := by
    rw [startsWith_iff]
    exact List.prefix_append _ _
  simp only [parseChunk, hv, hs, if_true, List.drop_left]

theorem timeParse_Format_compact (t : Time) (hv : t.valid = true) (hy0 : 0 ≤ t.year)
    (hy1 : t.year ≤ 9999) (hmid : t.hour = 0 ∧ t.minute = 0 ∧ t.second = 0 ∧ t.nanosecond = 0)
    (hloc : t.location = UTC) :
    timeParse layoutCompact (t.Format layoutCompact) = Outcome.ok t := by
  simp only [Time.valid, Bool.and_eq_true, decide_eq_true_eq] at hv
  obtain ⟨⟨⟨⟨⟨⟨⟨hm1, hm2⟩, hd1⟩, hd2⟩, _⟩, _⟩, _⟩, _⟩ := hv
  have hd3 := (daysIn_range t.month t.year).2
  obtain ⟨y, hy⟩ : ∃ y : Nat, t.year = y := ⟨t.year.toNat, by omega⟩
  have hF : t.Format layoutCompact =
      fixedDigits 4 y ++ (fixedDigits 2 t.month ++ (fixedDigits 2 t.day ++ [])) := by
    simp only [Time.Format, layoutCompact]
    rw [appendInt_small _ 4 hy0 (by omega), appendInt_small _ 2 (by omega) (by simp; omega),
      appendInt_small _ 2 (by omega) (by simp; omega), hy]
    simp
  simp only [timeParse, layoutCompact, parseChunks]
  rw [parseChunk_year _ y _ (by omega) hF]
  simp only [Outcome.bind_ok]
  rw [parseChunk_month _ t.month _ hm1 hm2 rfl]
  simp only [Outcome.bind_ok]
  rw [parseChunk_day _ t.day _ (by omega) rfl]
  simp only [Outcome.bind_ok, ne_eq, not_true_eq_false, if_false]
  have hmi : (if (t.month : Int) < 0 then 1 else (t.month : Int)) = t.month :=
    if_neg (by omega)
  have hdi : (if (t.day : Int) < 0 then 1 else (t.day : Int)) = t.day := if_neg (by omega)
  have e : ((t.month : Int)).toNat = t.month := by omega
  rw [hmi, hdi, e, ← hy, if_neg (by omega), timeDate_valid _ _ _ _ hm1 hm2 hd1 hd2]
  obtain ⟨h1, h2, h3, h4⟩ := hmid
  cases t
  simp only at h1 h2 h3 h4 hloc
  subst h1 h2 h3 h4 hloc
  rfl

theorem timeParse_short (s : Bytes) (h : s.length < 8) :
    ∃ e, timeParse layoutCompact s = Outcome.error e := by
  rcases s with _ | ⟨a, _ | ⟨b, _ | ⟨c, _ | ⟨d, _ | ⟨e, _ | ⟨f, _ | ⟨g, _ | ⟨i, rest⟩⟩⟩⟩⟩⟩⟩⟩
  · exact ⟨_, rfl⟩
  · exact ⟨_, rfl⟩
  · exact ⟨_, rfl⟩
  · exact ⟨_, rfl⟩
  · simp only [timeParse, layoutCompact, parseChunks, parseChunk]
    split_ifs
    · exact ⟨_, rfl⟩
    · exact ⟨_, rfl⟩
  · simp only [timeParse, layoutCompact, parseChunks, parseChunk]
    split_ifs
    · exact ⟨_, rfl⟩
    · exact ⟨_, rfl⟩
  · simp only [timeParse, layoutCompact, parseChunks, parseChunk]
    split_ifs
    · exact ⟨_, rfl⟩
    · simp only [Outcome.bind_ok, List.drop_succ_cons, List.drop_zero, getnum]
      split_ifs
      · simp only [Outcome.bind_ok]
        split_ifs
        · exact ⟨_, rfl⟩
        · exact ⟨_, rfl⟩
      · exact ⟨_, rfl⟩
  · simp only [timeParse, layoutCompact, parseChunks, parseChunk]
    split_ifs
    · exact ⟨_, rfl⟩
    · simp only [Outcome.bind_ok, List.drop_succ_cons, List.drop_zero, getnum]
      split_ifs
      · simp only [Outcome.bind_ok]
        split_ifs
        · exact ⟨_, rfl⟩
        · exact ⟨_, rfl⟩
      · exact ⟨_, rfl⟩
  · simp only [List.length_cons] at h
    omega

theorem timeParse_eight (a b c d e f g h : UInt8) (rest : Bytes) :
    timeParse layoutCompact (a :: b :: c :: d :: e :: f :: g :: h :: rest) =
      if ¬ [a, b, c, d].all isDigit = true then Outcome.error "cannot parse"
      else if ¬ (isDigit e && isDigit f) = true then Outcome.error "cannot parse"
      else if (((e.toNat - 48) * 10 + (f.toNat - 48) : Nat) : Int) ≤ 0 ∨
          12 < (((e.toNat - 48) * 10 + (f.toNat - 48) : Nat) : Int) then
        Outcome.error "month out of range"
      else if ¬ (isDigit g && isDigit h) = true then Outcome.error "cannot parse"
      else if rest ≠ [] then Outcome.error "extra text"
      else if (((g.toNat - 48) * 10 + (h.toNat - 48) : Nat) : Int) < 1 ∨
          (daysIn ((e.toNat - 48) * 10 + (f.toNat - 48)) (digitsValue [a, b, c, d]) : Int) <
            (((g.toNat - 48) * 10 + (h.toNat - 48) : Nat) : Int) then
        Outcome.error "day out of range"
      else Outcome.ok (timeDate (digitsValue [a, b, c, d])
        (((e.toNat - 48) * 10 + (f.toNat - 48) : Nat) : Int)
        (((g.toNat - 48) * 10 + (h.toNat - 48) : Nat) : Int) 0 0 0 0 UTC) := by
  simp only [timeParse, layoutCompact, parseChunks, parseChunk, List.length_cons,
    List.take_succ_cons, List.take_zero, List.drop_succ_cons, List.drop_zero]
  by_cases h1 : [a, b, c, d].all isDigit = true
  · rw [if_neg (by rw [h1]; simp), if_neg (by simp [h1])]
    simp only [Outcome.bind_ok, getnum]
    by_cases h2 : (isDigit e && isDigit f) = true
    · rw [if_pos h2, if_neg (by simp [h2])]
      simp only [Outcome.bind_ok]
      by_cases h3 : (((e.toNat - 48) * 10 + (f.toNat - 48) : Nat) : Int) ≤ 0 ∨
          12 < (((e.toNat - 48) * 10 + (f.toNat - 48) : Nat) : Int)
      · rw [if_pos h3, if_pos h3]
        rfl
      · rw [if_neg h3, if_neg h3]
        simp only [Outcome.bind_ok]
        by_cases h4 : (isDigit g && isDigit h) = true
        · rw [if_pos h4, if_neg (by simp [h4])]
          simp only [Outcome.bind_ok]
          by_cases h5 : rest ≠ []
          · rw [if_pos h5, if_pos h5]
          · rw [if_neg h5, if_neg h5]
            have hm : ¬ (((e.toNat - 48) * 10 + (f.toNat - 48) : Nat) : Int) < 0 := by omega
            have hd : ¬ (((g.toNat - 48) * 10 + (h.toNat - 48) : Nat) : Int) < 0 := by omega
            simp only [if_neg hm, if_neg hd, Int.toNat_ofNat]
        · rw [if_neg h4, if_pos (by simp [h4])]
          rfl
    · rw [if_neg h2, if_pos (by simp [h2])]
      rfl
  · rw [if_pos (Or.inr h1), if_pos h1]
    rfl

theorem digitsValue_two (e f : UInt8) :
    digitsValue [e, f] = (e.toNat - 48) * 10 + (f.toNat - 48) := by
  simp [digitsValue]

theorem timeParse_compact_valid (s : Bytes) (hs : isYYYYMMDD s = true) :
    timeParse layoutCompact s = Outcome.ok (dateOfYYYYMMDD s).Time := by
  simp only [isYYYYMMDD, Bool.and_eq_true, decide_eq_true_eq] at hs
  obtain ⟨⟨⟨⟨⟨hlen, hdig⟩, hm1⟩, hm2⟩, hd1⟩, hd2⟩ := hs
  rcases s with _ | ⟨a, _ | ⟨b, _ | ⟨c, _ | ⟨d, _ | ⟨e, _ | ⟨f, _ | ⟨g, _ | ⟨h, rest⟩⟩⟩⟩⟩⟩⟩⟩ <;>
    simp only [List.length_cons, List.length_nil] at hlen <;> try omega
  have hr : rest = [] := by
    apply List.eq_nil_of_length_eq_zero
    omega
  subst hr
  simp only [List.drop_succ_cons, List.drop_zero, List.take_succ_cons, List.take_zero,
    List.take_nil, digitsValue_two] at hm1 hm2 hd1 hd2
  simp only [List.all_cons, List.all_nil, Bool.and_true, Bool.and_eq_true] at hdig
  obtain ⟨ha, hb, hc, hd, he, hf, hg, hh⟩ := hdig
  rw [timeParse_eight]
  rw [if_neg (by simp [ha, hb, hc, hd]), if_neg (by simp [he, hf]), if_neg (by omega),
    if_neg (by simp [hg, hh]), if_neg (by simp), if_neg (by omega)]
  rw [timeDate_valid _ _ _ _ hm1 hm2 hd1 hd2]
  simp only [dateOfYYYYMMDD, List.drop_succ_cons, List.drop_zero, List.take_succ_cons,
    List.take_zero, List.take_nil, digitsValue_two]

theorem timeParse_compact_invalid (s : Bytes) (hs : isYYYYMMDD s = false) :
    ∃ err, timeParse layoutCompact s = Outcome.error err := by
  by_cases hshort : s.length < 8
  · exact timeParse_short s hshort
  · rcases s with _ | ⟨a, _ | ⟨b, _ | ⟨c, _ | ⟨d, _ | ⟨e, _ | ⟨f, _ | ⟨g, _ | ⟨h, rest⟩⟩⟩⟩⟩⟩⟩⟩ <;>
      simp only [List.length_cons, List.length_nil] at hshort <;> try omega
    rw [timeParse_eight]
    by_cases h1 : ¬ [a, b, c, d].all isDigit = true
    · rw [if_pos h1]
      exact ⟨_, rfl⟩
    rw [if_neg h1]
    by_cases h2 : ¬ (isDigit e && isDigit f) = true
    · rw [if_pos h2]
      exact ⟨_, rfl⟩
    rw [if_neg h2]
    by_cases h3 : (((e.toNat - 48) * 10 + (f.toNat - 48) : Nat) : Int) ≤ 0 ∨
        12 < (((e.toNat - 48) * 10 + (f.toNat - 48) : Nat) : Int)
    · rw [if_pos h3]
      exact ⟨_, rfl⟩
    rw [if_neg h3]
    by_cases h4 : ¬ (isDigit g && isDigit h) = true
    · rw [if_pos h4]
      exact ⟨_, rfl⟩
    rw [if_neg h4]
    by_cases h5 : rest ≠ []
    · rw [if_pos h5]
      exact ⟨_, rfl⟩
    rw [if_neg h5]
    by_cases h6 : (((g.toNat - 48) * 10 + (h.toNat - 48) : Nat) : Int) < 1 ∨
        (daysIn ((e.toNat - 48) * 10 + (f.toNat - 48)) (digitsValue [a, b, c, d]) : Int) <
          (((g.toNat - 48) * 10 + (h.toNat - 48) : Nat) : Int)
    · rw [if_pos h6]
      exact ⟨_, rfl⟩
    exfalso
    have hr : rest = [] := by simpa using h5
    subst hr
    have hv : isYYYYMMDD [a, b, c, d, e, f, g, h] = true := by
      have h1 := not_not.mp h1
      have h2 := not_not.mp h2
      have h4 := not_not.mp h4
      simp only [List.all_cons, List.all_nil, Bool.and_true, Bool.and_eq_true] at h1 h2 h4
      simp only [isYYYYMMDD, List.length_cons, List.length_nil, List.drop_succ_cons,
        List.drop_zero, List.take_succ_cons, List.take_zero, List.take_nil, digitsValue_two,
        Bool.and_eq_true, decide_eq_true_eq, List.all_cons, List.all_nil, Bool.and_true]
      refine ⟨⟨⟨⟨⟨trivial, ?_⟩, ?_⟩, ?_⟩, ?_⟩, ?_⟩
      · exact ⟨h1.1, h1.2.1, h1.2.2.1, h1.2.2.2, h2.1, h2.2, h4.1, h4.2⟩
      · omega
      · omega
      · omega
      · omega
    rw [hv] at hs
    cases hs

theorem TimeframeFromQuery_eq (params : Values) :
    TimeframeFromQuery params =
      if params.Get (latin1 "from") = [] ∨ params.Get (latin1 "to") = [] then
        ⟨Timeframe.zero, Outcome.error "'from' and/or 'to' must be set"⟩
      else if isYYYYMMDD (params.Get (latin1 "from")) = true ∧
          isYYYYMMDD (params.Get (latin1 "to")) = true then
        ⟨⟨dateOfYYYYMMDD (params.Get (latin1 "from")), dateOfYYYYMMDD (params.Get (latin1 "to"))⟩,
          Outcome.ok ()⟩
      else ⟨Timeframe.zero, Outcome.error "Malformed query params"⟩ := by
  unfold TimeframeFromQuery
  simp only
  by_cases h0 : params.Get (latin1 "from") = [] ∨ params.Get (latin1 "to") = []
  · rw [if_pos h0, if_pos h0]
  · rw [if_neg h0, if_neg h0]
    cases h1 : isYYYYMMDD (params.Get (latin1 "from")) with
    | false =>
      obtain ⟨e1, he1⟩ := timeParse_compact_invalid _ h1
      rw [he1, if_neg (by simp)]
    | true =>
      rw [timeParse_compact_valid _ h1]
      cases h2 : isYYYYMMDD (params.Get (latin1 "to")) with
      | false =>
        obtain ⟨e2, he2⟩ := timeParse_compact_invalid _ h2
        rw [he2, if_neg (by simp)]
      | true =>
        rw [timeParse_compact_valid _ h2, if_pos ⟨rfl, rfl⟩]
        rfl

/-- C26. `TimeframeFromQuery` returns an error exactly when the parameter `from` or `to` is
missing or empty or is not a text YYYYMMDD that names a date; it returns an error or
succeeds, with an error the timeframe is the zero timeframe, and without one the start date
is the date of `from` and the end date the date of `to`. -/
theorem TimeframeFromQuery_error_iff (params : Values) :
    ((∃ err, (TimeframeFromQuery params).returned = Outcome.error err) ↔
      (params.Get (latin1 "from") = [] ∨ params.Get (latin1 "to") = [] ∨
        isYYYYMMDD (params.Get (latin1 "from")) = false ∨
        isYYYYMMDD (params.Get (latin1 "to")) = false)) ∧
    ((TimeframeFromQuery params).returned = Outcome.ok () ∨
      ∃ err, (TimeframeFromQuery params).returned = Outcome.error err) ∧
    ((∃ err, (TimeframeFromQuery params).returned = Outcome.error err) →
      (TimeframeFromQuery params).timeframe = Timeframe.zero) ∧
    ((TimeframeFromQuery params).returned = Outcome.ok () →
      (TimeframeFromQuery params).timeframe =
        ⟨dateOfYYYYMMDD (params.Get (latin1 "from")),
          dateOfYYYYMMDD (params.Get (latin1 "to"))⟩) := by
  rw [TimeframeFromQuery_eq]
  by_cases h0 : params.Get (latin1 "from") = [] ∨ params.Get (latin1 "to") = []
  · rw [if_pos h0]
    refine ⟨⟨fun _ => ?_, fun _ => ⟨_, rfl⟩⟩, Or.inr ⟨_, rfl⟩, fun _ => rfl, fun h => ?_⟩
    · rcases h0 with h | h
      · exact Or.inl h
      · exact Or.inr (Or.inl h)
    · cases h
  · rw [if_neg h0]
    by_cases h1 : isYYYYMMDD (params.Get (latin1 "from")) = true ∧
        isYYYYMMDD (params.Get (latin1 "to")) = true
    · rw [if_pos h1]
      refine ⟨⟨fun h => ?_, fun h => ?_⟩, Or.inl rfl, fun h => ?_, fun _ => rfl⟩
      · obtain ⟨e, he⟩ := h
        cases he
      · rcases h with h | h | h | h
        · exact absurd (Or.inl h) h0
        · exact absurd (Or.inr h) h0
        · rw [h1.1] at h
          cases h
        · rw [h1.2] at h
          cases h
      · obtain ⟨e, he⟩ := h
        cases he
    · rw [if_neg h1]
      refine ⟨⟨fun _ => ?_, fun _ => ⟨_, rfl⟩⟩, Or.inr ⟨_, rfl⟩, fun _ => rfl, fun h => ?_⟩
      · by_cases ha : isYYYYMMDD (params.Get (latin1 "from")) = true
        · right; right; right
          by_contra hb
          exact h1 ⟨ha, by simpa using hb⟩
        · right; right; left
          simpa using ha
      · cases h

theorem midnightUTC_fields (s : ShortDate) (h : s.midnightUTC = true) :
    s.Time.valid = true ∧
      (s.Time.hour = 0 ∧ s.Time.minute = 0 ∧ s.Time.second = 0 ∧ s.Time.nanosecond = 0) ∧
      s.Time.location = UTC := by
  simp only [ShortDate.midnightUTC, Time.atMidnight, Bool.and_eq_true, decide_eq_true_eq] at h
  obtain ⟨⟨hv, ⟨⟨⟨h1, h2⟩, h3⟩, h4⟩⟩, hl⟩ := h
  exact ⟨hv, ⟨h1, h2, h3, h4⟩, hl⟩

theorem isYYYYMMDD_Format (t : Time) (hv : t.valid = true) (hy0 : 0 ≤ t.year)
    (hy1 : t.year ≤ 9999) (hmid : t.hour = 0 ∧ t.minute = 0 ∧ t.second = 0 ∧ t.nanosecond = 0)
    (hloc : t.location = UTC) : isYYYYMMDD (t.Format layoutCompact) = true := by
  cases h : isYYYYMMDD (t.Format layoutCompact) with
  | true => rfl
  | false =>
    obtain ⟨e, he⟩ := timeParse_compact_invalid _ h
    rw [timeParse_Format_compact t hv hy0 hy1 hmid hloc] at he
    cases he

theorem ToQuery_Get (tf : Timeframe) :
    tf.ToQuery.Get (latin1 "from") = tf.StartDate.Time.Format layoutCompact ∧
    tf.ToQuery.Get (latin1 "to") = tf.EndDate.Time.Format layoutCompact := by
  have h1 : ¬ (latin1 "from" = latin1 "to") := by decide
  have h2 : ¬ (latin1 "to" = latin1 "from") := by decide
  constructor
  · simp [Timeframe.ToQuery, Values.Set, Values.Get, h1, h2]
  · simp [Timeframe.ToQuery, Values.Set, Values.Get, h1, h2]

/-- C22. For every timeframe whose start and end date are midnight-UTC dates with years
from 1 to 9999, `TimeframeFromQuery(tf.ToQuery())` returns the timeframe and no error;
`ToQuery` writes the two dates as texts YYYYMMDD under the keys `from` and `to`. -/
theorem TimeframeFromQuery_ToQuery (tf : Timeframe)
    (hs : tf.StartDate.midnightUTC = true) (he : tf.EndDate.midnightUTC = true)
    (hsy : 1 ≤ tf.StartDate.Time.year ∧ tf.StartDate.Time.year ≤ 9999)
    (hey : 1 ≤ tf.EndDate.Time.year ∧ tf.EndDate.Time.year ≤ 9999) :
    TimeframeFromQuery tf.ToQuery = ⟨tf, Outcome.ok ()⟩ ∧
    tf.ToQuery.Get (latin1 "from") = tf.StartDate.Time.Format layoutCompact ∧
    tf.ToQuery.Get (latin1 "to") = tf.EndDate.Time.Format layoutCompact ∧
    isYYYYMMDD (tf.ToQuery.Get (latin1 "from")) = true ∧
    isYYYYMMDD (tf.ToQuery.Get (latin1 "to")) = true := by
  obtain ⟨hsv, hsm, hsl⟩ := midnightUTC_fields _ hs
  obtain ⟨hev, hem, hel⟩ := midnightUTC_fields _ he
  obtain ⟨g1, g2⟩ := ToQuery_Get tf
  have v1 := isYYYYMMDD_Format _ hsv (by omega) hsy.2 hsm hsl
  have v2 := isYYYYMMDD_Format _ hev (by omega) hey.2 hem hel
  have p1 := timeParse_Format_compact _ hsv (by omega) hsy.2 hsm hsl
  have p2 := timeParse_Format_compact _ hev (by omega) hey.2 hem hel
  rw [timeParse_compact_valid _ v1, Outcome.ok.injEq] at p1
  rw [timeParse_compact_valid _ v2, Outcome.ok.injEq] at p2
  refine ⟨?_, g1, g2, by rw [g1]; exact v1, by rw [g2]; exact v2⟩
  have n1 : tf.StartDate.Time.Format layoutCompact ≠ [] := by
    intro h
    rw [h] at v1
    cases v1
  have n2 : tf.EndDate.Time.Format layoutCompact ≠ [] := by
    intro h
    rw [h] at v2
    cases v2
  rw [TimeframeFromQuery_eq, g1, g2, if_neg (by simp [n1, n2]), if_pos ⟨v1, v2⟩]
  have q1 : dateOfYYYYMMDD (tf.StartDate.Time.Format layoutCompact) = tf.StartDate := by
    cases hd : tf.StartDate
    rw [hd] at p1
    cases hq : dateOfYYYYMMDD ((ShortDate.mk _).Time.Format layoutCompact)
    rw [hq] at p1
    simp only at p1
    rw [p1]
  have q2 : dateOfYYYYMMDD (tf.EndDate.Time.Format layoutCompact) = tf.EndDate := by
    cases hd : tf.EndDate
    rw [hd] at p2
    cases hq : dateOfYYYYMMDD ((ShortDate.mk _).Time.Format layoutCompact)
    rw [hq] at p2
    simp only at p2
    rw [p2]
  rw [q1, q2]

/-- C22 (witness). The timeframe from March 1 to April 30, 2016 is written as `20160301`
and `20160430` and read back. -/
theorem TimeframeFromQuery_ToQuery_witness :
    TimeframeFromQuery sampleTimeframe.ToQuery = ⟨sampleTimeframe, Outcome.ok ()⟩ ∧
    sampleTimeframe.ToQuery.Get (latin1 "from") = latin1 "20160301" ∧
    sampleTimeframe.ToQuery.Get (latin1 "to") = latin1 "20160430" :=
  ⟨(TimeframeFromQuery_ToQuery sampleTimeframe (by decide) (by decide) (by decide)
      (by decide)).1, by decide, by decide⟩

/-- C24 (the code at the failing input). The result of `Date` is in UTC whatever location is
passed, and so is the result of `NewShortDate`: `Date(2016, 3, 1, Berlin)` is midnight UTC
of March 1, 2016, and `NewShortDate` of a time in Berlin is not in Berlin. -/
theorem Date_ignores_location (year month day : Int) (location : Bytes) (t : Time) :
    (Date year month day location).Time.location = UTC ∧
    (NewShortDate t).Time.location = UTC ∧
    (Date 2016 3 1 (latin1 "Europe/Berlin")).Time = ⟨2016, 3, 1, 0, 0, 0, 0, UTC⟩ ∧
    (Date 2016 3 1 (latin1 "Europe/Berlin")).Time.location ≠ latin1 "Europe/Berlin" ∧
    sampleBerlinTime.location = latin1 "Europe/Berlin" ∧
    (NewShortDate sampleBerlinTime).Time.location ≠ sampleBerlinTime.location := by
  refine ⟨(timeDate_midnight _ _ _ _).2.2.2.2, (timeDate_midnight _ _ _ _).2.2.2.2, by decide,
    by decide, by decide, by decide⟩

/-- C23 (the code at the failing input). `MarshalJSON` of the zero `ShortDate` is the JSON
text of the empty string, two double quotes; `UnmarshalJSON` of these two bytes unquotes
them to the empty text, which `time.Parse` rejects: the call returns the error. The date
March 1, 2016 is written as `"2016-03-01"` and read back without an error. -/
theorem UnmarshalJSON_rejects_zero_date :
    (⟨Time.zero⟩ : ShortDate).MarshalJSON = some [doubleQuote, doubleQuote] ∧
    Unquote [doubleQuote, doubleQuote] = some (Outcome.ok []) ∧
    (⟨Time.zero⟩ : ShortDate).UnmarshalJSON [doubleQuote, doubleQuote] =
      some ⟨Outcome.error "cannot parse", ⟨Time.zero⟩⟩ ∧
    (Date 2016 3 1 UTC).MarshalJSON =
      some ([doubleQuote] ++ latin1 "2016-03-01" ++ [doubleQuote]) ∧
    (⟨Time.zero⟩ : ShortDate).UnmarshalJSON
        ([doubleQuote] ++ latin1 "2016-03-01" ++ [doubleQuote]) =
      some ⟨Outcome.ok (), Date 2016 3 1 UTC⟩ := by
  decide

/-! ### The element extractor (`ExtractElements`) -/

theorem extractRun_append (st : extractState) (xs ys : Bytes) :
    extractRun st (xs ++ ys) = (extractRun st xs).bind fun st1 => extractRun st1 ys := by
  induction xs generalizing st with
  | nil => simp [extractRun]
  | cons c rest ih =>
    simp only [List.cons_append, extractRun]
    cases h : extractStep st c with
    | ok st1 => simp [ih]
    | error e => simp
    | aborted e => simp

theorem extractRun_escapedText (e : Bytes) :
    ∀ (cur : Bytes) (acc : List Bytes), isEscapedText e = true →
      (cur ≠ [] ∨ e.head? ≠ some atSign) →
      extractRun ⟨extractMode.element, cur, acc⟩ e =
        Outcome.ok ⟨extractMode.element, cur ++ e, acc⟩ := by
  induction e using isEscapedText.induct with
  | case1 =>
    intro cur acc _ _
    simp [extractRun]
  | case2 c =>
    intro cur acc h hc
    simp only [isEscapedText, Bool.and_eq_true, bne_iff_ne, ne_eq] at h
    obtain ⟨⟨h1, h2⟩, h3⟩ := h
    have h4 : ¬ (c = atSign ∧ cur = []) := by
      rintro ⟨rfl, rfl⟩
      simp at hc
    simp [extractRun, extractStep, extractElementByte, h1, h2, h3, h4]
  | case3 d rest ih =>
    intro cur acc h _
    simp only [isEscapedText, if_true] at h
    have := ih (cur ++ [questionMark, d]) acc h (Or.inl (by simp))
    simp only [extractRun, extractStep, extractElementByte, if_true, Outcome.bind_ok]
    simp only [List.append_assoc, List.cons_append, List.nil_append] at this ⊢
    exact this
  | case4 c d rest hq ih =>
    intro cur acc h hc
    simp only [isEscapedText, if_neg hq, Bool.and_eq_true, bne_iff_ne, ne_eq] at h
    obtain ⟨⟨h2, h3⟩, h5⟩ := h
    have h4 : ¬ (c = atSign ∧ cur = []) := by
      rintro ⟨rfl, rfl⟩
      simp at hc
    have := ih (cur ++ [c]) acc h5 (Or.inl (by simp))
    have hstep : extractStep ⟨extractMode.element, cur, acc⟩ c =
        Outcome.ok ⟨extractMode.element, cur ++ [c], acc⟩ := by
      simp only [extractStep, extractElementByte, if_neg hq, if_neg h2, if_neg h3, if_neg h4]
    rw [extractRun, hstep, Outcome.bind_ok, this]
    simp

theorem extractRun_element (e rest : Bytes) (acc : List Bytes) (h : isElementText e = true) :
    extractRun ⟨extractMode.element, [], acc⟩ (e ++ plusSign :: rest) =
      extractRun ⟨extractMode.element, [], acc ++ [e]⟩ rest := by
  simp only [isElementText, Bool.and_eq_true, bne_iff_ne, ne_eq] at h
  rw [extractRun_append, extractRun_escapedText e [] acc h.2 (Or.inr h.1), Outcome.bind_ok,
    extractRun]
  have hp : plusSign ≠ questionMark := by decide
  simp only [extractStep, extractElementByte, if_neg hp, if_true, Outcome.bind_ok,
    List.nil_append]

theorem extractRun_elements (es : List Bytes) (rest : Bytes) (acc : List Bytes)
    (h : ∀ e ∈ es, isElementText e = true) :
    extractRun ⟨extractMode.element, [], acc⟩
        ((es.map fun e => e ++ [plusSign]).flatten ++ rest) =
      extractRun ⟨extractMode.element, [], acc ++ es⟩ rest := by
  induction es generalizing acc with
  | nil => simp
  | cons e tail ih =>
    simp only [List.map_cons, List.flatten_cons, List.append_assoc, List.singleton_append,
      List.cons_append]
    rw [extractRun_element e _ acc (h e (List.mem_cons_self _ _)), List.nil_append,
      ih _ (fun x hx => h x (List.mem_cons_of_mem _ hx))]
    simp

theorem joinPlus_plus (es : List Bytes) (hne : es ≠ []) :
    joinPlus es ++ [plusSign] = (es.map fun e => e ++ [plusSign]).flatten := by
  induction es with
  | nil => exact absurd rfl hne
  | cons e tail ih =>
    cases tail with
    | nil => simp [joinPlus]
    | cons f rest =>
      have := ih (by simp)
      simp only [joinPlus, List.map_cons, List.flatten_cons, List.append_assoc,
        List.cons_append, List.nil_append] at this ⊢
      rw [this]

/-- C21. For every non-empty list of data element texts (no binary marker at the start,
every `?` followed by the byte it escapes, no unescaped `+` or `'`, any number of `:`),
`ExtractElements` on the elements joined by `+` and followed by `+'` returns exactly the
list and no error: it cuts at every unescaped `+`, never at `:`, and drops the terminator
and the empty element before it. The two inputs of the test give the lists of the test. -/
theorem ExtractElements_splits_at_plus (es : List Bytes) (hne : es ≠ [])
    (h : ∀ e ∈ es, isElementText e = true) :
    ExtractElements (joinPlus es ++ [plusSign, quote]) = Outcome.ok es ∧
    ExtractElements (latin1 "abcde+123+012+de+'") =
      Outcome.ok [latin1 "abcde", latin1 "123", latin1 "012", latin1 "de"] ∧
    ExtractElements (latin1 "abcde:123:012+de+'") =
      Outcome.ok [latin1 "abcde:123:012", latin1 "de"] := by
  refine ⟨?_, by decide, by decide⟩
  have e1 : joinPlus es ++ [plusSign, quote] =
      (es.map fun e => e ++ [plusSign]).flatten ++ [quote] := by
    rw [← joinPlus_plus es hne]
    simp
  unfold ExtractElements
  rw [e1, extractRun_elements es [quote] [] h]
  have hq1 : quote ≠ questionMark := by decide
  have hq2 : quote ≠ plusSign := by decide
  simp [extractRun, extractStep, extractElementByte, hq1, hq2]

/-- C21 (witness). A segment with group elements, an escaped `+` and an empty last
element. -/
theorem ExtractElements_splits_at_plus_witness :
    ExtractElements (latin1 "HIBPA:5:2:3+12+280:10020030+a?+b+" ++ [plusSign, quote]) =
      Outcome.ok [latin1 "HIBPA:5:2:3", latin1 "12", latin1 "280:10020030", latin1 "a?+b",
        latin1 ""] :=
  (ExtractElements_splits_at_plus
    [latin1 "HIBPA:5:2:3", latin1 "12", latin1 "280:10020030", latin1 "a?+b", latin1 ""]
    (by decide) (by decide)).1

/-! ### The balance element on the wire (`BalanceDataElement.UnmarshalHBCI`) -/

/-- C27 (amended). When the group has fewer than four elements, `BalanceDataElement.UnmarshalHBCI`
returns an error and leaves the receiver alone. When it has four or five elements that
their unmarshallers accept, the call succeeds, indicator, amount, currency and transmission
date are the elements read from positions 0 to 3, and the transmission time is assigned
exactly when there is a fifth element (and is otherwise what the receiver held); for a
receiver without a transmission time, as a new element is, the element and its `Balance()`
have a transmission time exactly when there is a fifth element. -/
theorem BalanceDataElement_UnmarshalHBCI (x : ElementUnmarshallers) (b : BalanceDataElement)
    (value : Bytes) (elems : List Bytes) (hext : x.ExtractElements value = Outcome.ok elems) :
    (elems.length < 4 →
      b.UnmarshalHBCI x value =
        ⟨Outcome.error "*element.BalanceDataElement: Malformed marshaled value", b⟩) ∧
    ((elems.length = 4 ∨ elems.length = 5) →
      (x.AlphaNumeric (elems.getD 0 [])).returned = Outcome.ok () →
      (x.Value (elems.getD 1 [])).returned = Outcome.ok () →
      (x.Currency (elems.getD 2 [])).returned = Outcome.ok () →
      (x.Date (elems.getD 3 [])).returned = Outcome.ok () →
      (elems.length = 5 → (x.Time (elems.getD 4 [])).returned = Outcome.ok ()) →
      (b.UnmarshalHBCI x value).returned = Outcome.ok () ∧
      (b.UnmarshalHBCI x value).element.DebitCreditIndicator =
        some (x.AlphaNumeric (elems.getD 0 [])).element ∧
      (b.UnmarshalHBCI x value).element.Amount = some (x.Value (elems.getD 1 [])).element ∧
      (b.UnmarshalHBCI x value).element.Currency = some (x.Currency (elems.getD 2 [])).element ∧
      (b.UnmarshalHBCI x value).element.TransmissionDate =
        some (x.Date (elems.getD 3 [])).element ∧
      (b.UnmarshalHBCI x value).element.TransmissionTime =
        (if elems.length = 5 then some (x.Time (elems.getD 4 [])).element
          else b.TransmissionTime) ∧
      (b.TransmissionTime = none →
        ((b.UnmarshalHBCI x value).element.TransmissionTime.isSome = true ↔ elems.length = 5) ∧
        ∃ balance, (b.UnmarshalHBCI x value).element.Balance = Outcome.ok balance ∧
          (balance.TransmissionTime.isSome = true ↔ elems.length = 5))) := by
  constructor
  · intro hlen
    simp only [BalanceDataElement.UnmarshalHBCI, hext, if_pos hlen]
  · intro hlen h0 h1 h2 h3 h4
    have hn : ¬ elems.length < 4 := by omega
    have hU : b.UnmarshalHBCI x value =
        unmarshalTransmissionTime x
          { b with
            DebitCreditIndicator := some (x.AlphaNumeric (elems.getD 0 [])).element
            Amount := some (x.Value (elems.getD 1 [])).element
            Currency := some (x.Currency (elems.getD 2 [])).element
            TransmissionDate := some (x.Date (elems.getD 3 [])).element } elems := by
      simp only [BalanceDataElement.UnmarshalHBCI, hext, if_neg hn, h0, h1, h2, h3]
    rw [hU]
    by_cases h5 : elems.length = 5
    · have hT : ∀ b4 : BalanceDataElement, unmarshalTransmissionTime x b4 elems =
          ⟨Outcome.ok (), { b4 with TransmissionTime := some (x.Time (elems.getD 4 [])).element }⟩ := by
        intro b4
        simp only [unmarshalTransmissionTime, if_pos h5, h4 h5]
      rw [hT, if_pos h5]
      refine ⟨rfl, rfl, rfl, rfl, rfl, rfl, fun _ => ⟨⟨fun _ => h5, fun _ => rfl⟩, ?_⟩⟩
      exact ⟨_, rfl, ⟨fun _ => h5, fun _ => rfl⟩⟩
    · have hT : ∀ b4 : BalanceDataElement, unmarshalTransmissionTime x b4 elems =
          ⟨Outcome.ok (), b4⟩ := by
        intro b4
        simp only [unmarshalTransmissionTime, if_neg h5]
      rw [hT, if_neg h5]
      refine ⟨rfl, rfl, rfl, rfl, rfl, rfl, fun hb => ?_⟩
      simp only [hb]
      refine ⟨⟨fun h => (by cases h), fun h => absurd h h5⟩, ?_⟩
      exact ⟨_, rfl, ⟨fun h => (by cases h), fun h => absurd h h5⟩⟩

/-- C27 (witness). Three elements are an error; `C:0,:EUR:20160301` has no transmission
time, `C:0,:EUR:20160301:120000` has one. -/
theorem BalanceDataElement_UnmarshalHBCI_witness :
    BalanceDataElement.fresh.UnmarshalHBCI sampleElementUnmarshallers (latin1 "C:0,:EUR") =
      ⟨Outcome.error "*element.BalanceDataElement: Malformed marshaled value",
        BalanceDataElement.fresh⟩ ∧
    (BalanceDataElement.fresh.UnmarshalHBCI sampleElementUnmarshallers
      (latin1 "C:0,:EUR:20160301")).element.TransmissionTime = none ∧
    ((BalanceDataElement.fresh.UnmarshalHBCI sampleElementUnmarshallers
      (latin1 "C:0,:EUR:20160301:120000")).element.TransmissionTime.isSome = true ↔
        [latin1 "C", latin1 "0,", latin1 "EUR", latin1 "20160301", latin1 "120000"].length = 5) :=
  ⟨(BalanceDataElement_UnmarshalHBCI sampleElementUnmarshallers BalanceDataElement.fresh
      (latin1 "C:0,:EUR") [latin1 "C", latin1 "0,", latin1 "EUR"] (by decide)).1 (by decide),
    by decide,
    ((BalanceDataElement_UnmarshalHBCI sampleElementUnmarshallers BalanceDataElement.fresh
      (latin1 "C:0,:EUR:20160301:120000")
      [latin1 "C", latin1 "0,", latin1 "EUR", latin1 "20160301", latin1 "120000"]
      (by decide)).2 (by decide) (by decide) (by decide) (by decide) (by decide)
      (fun _ => by decide)).2.2.2.2.2.2 rfl |>.1⟩

/-- C27 (counterexample). A receiver that holds a transmission time, as left by
`C:0,:EUR:20160301:120000`, unmarshals the four elements `D:0,:EUR:20160302`: the call
succeeds, indicator and date are the new ones, and the transmission time 12:00:00 is still
there, in the element and in its `Balance()`, though the wire form carried none. A new
element that unmarshals the same four elements has no transmission time. -/
theorem UnmarshalHBCI_keeps_transmission_time :
    sampleElementUnmarshallers.ExtractElements (latin1 "D:0,:EUR:20160302") =
      Outcome.ok [latin1 "D", latin1 "0,", latin1 "EUR", latin1 "20160302"] ∧
    ((BalanceDataElement.fresh.UnmarshalHBCI sampleElementUnmarshallers
      (latin1 "C:0,:EUR:20160301:120000")).element.UnmarshalHBCI sampleElementUnmarshallers
      (latin1 "D:0,:EUR:20160302")) =
      ⟨Outcome.ok (),
        { DebitCreditIndicator := some (NewAlphaNumeric (latin1 "D") 1)
          Amount := some (NewValue ⟨false, 0, 0⟩)
          Currency := some (NewCurrency (latin1 "EUR"))
          TransmissionDate := some (NewDate ⟨2016, 3, 2, 0, 0, 0, 0, UTC⟩)
          TransmissionTime := some (NewTime ⟨1, 1, 1, 12, 0, 0, 0, UTC⟩) }⟩ ∧
    (match ((BalanceDataElement.fresh.UnmarshalHBCI sampleElementUnmarshallers
        (latin1 "C:0,:EUR:20160301:120000")).element.UnmarshalHBCI sampleElementUnmarshallers
        (latin1 "D:0,:EUR:20160302")).element.Balance with
      | Outcome.ok balance => balance.TransmissionTime
      | _ => none) = some ⟨1, 1, 1, 12, 0, 0, 0, UTC⟩ ∧
    (match (BalanceDataElement.fresh.UnmarshalHBCI sampleElementUnmarshallers
        (latin1 "D:0,:EUR:20160302")).element.Balance with
      | Outcome.ok balance => balance.TransmissionTime.isSome
      | _ => true) = false := by
  decide

/-! ### Segment search (`FindSegment`, `FindSegments`) -/

theorem findSegmentsLoop_some (segmentID : Bytes) (segs : List Segment) (acc : List Bytes) :
    findSegmentsLoop segmentID (segs.map some) acc =
      Outcome.ok (acc ++ (segs.filter fun s => s.Header.ID = segmentID).map Segment.String) := by
  induction segs generalizing acc with
  | nil => simp [findSegmentsLoop]
  | cons s rest ih =>
    by_cases h : s.Header.ID = segmentID
    · simp [findSegmentsLoop, h, ih]
    · simp [findSegmentsLoop, h, ih]

theorem findSegmentLoop_some (segmentID : Bytes) (segs : List Segment) :
    findSegmentLoop segmentID (segs.map some) =
      Outcome.ok ((segs.filter fun s => s.Header.ID = segmentID).map Segment.String).head? := by
  induction segs with
  | nil => simp [findSegmentLoop]
  | cons s rest ih =>
    by_cases h : s.Header.ID = segmentID
    · simp [findSegmentLoop, h]
    · simp [findSegmentLoop, h, ih]

/-- C28 (the code at the failing input). On the sample message, whose body holds a nil
segment between HKIDN and HKSAL, `FindSegments` panics for every id and `FindSegment`
panics for HKSAL; `FindSegment` finds HKIDN, which stands before the nil segment. For a body
without nil segments both answer as claimed: `FindSegments` the `String()` forms of the
segments with the id, in body order, and `FindSegment` the first of them or nil. -/
theorem FindSegments_nil_segment (b : BasicMessage) (segs : List Segment) (segmentID : Bytes) :
    sampleMessage.HBCIMessage = some [some sampleB1, none, some sampleB2] ∧
    sampleMessage.FindSegments (latin1 "HKSAL") = Outcome.aborted "nil pointer dereference" ∧
    sampleMessage.FindSegment (latin1 "HKSAL") = Outcome.aborted "nil pointer dereference" ∧
    sampleMessage.FindSegments (latin1 "HKIDN") = Outcome.aborted "nil pointer dereference" ∧
    sampleMessage.FindSegment (latin1 "HKIDN") =
      Outcome.ok (some (latin1 "HKIDN:3:2+280?:10020030+9999999999'")) ∧
    ({ b with HBCIMessage := some (segs.map some) } : BasicMessage).FindSegments segmentID =
      Outcome.ok ((segs.filter fun s => s.Header.ID = segmentID).map Segment.String) ∧
    ({ b with HBCIMessage := some (segs.map some) } : BasicMessage).FindSegment segmentID =
      Outcome.ok ((segs.filter fun s => s.Header.ID = segmentID).map Segment.String).head? := by
  refine ⟨rfl, by decide, by decide, by decide, by decide, ?_, ?_⟩
  · simp [BasicMessage.FindSegments, findSegmentsLoop_some]
  · simp [BasicMessage.FindSegment, findSegmentLoop_some]

/-! ### The message header codec on malformed input -/

/-- C29 (the code at the failing input). On `HNHBK+1+220+0+1'` the call panics: the value
has five elements, the first, `HNHBK`, has no `:`, and index 1 of its one piece does not
exist. In general the call panics exactly when the value has at least five elements and
the first holds no `:`; every other value ends in success or a returned error. -/
theorem UnmarshalHBCI_header_without_colon (m : MessageHeaderSegment) (value : Bytes) :
    ((NewMessageHeaderSegment 0 0 [] 0).UnmarshalHBCI (latin1 "HNHBK+1+220+0+1'")).returned =
      Outcome.aborted "index out of range [1]" ∧
    splitBytes plusSign (trimQuoteSuffix (latin1 "HNHBK+1+220+0+1'")) =
      [latin1 "HNHBK", latin1 "1", latin1 "220", latin1 "0", latin1 "1"] ∧
    splitBytes colon (latin1 "HNHBK") = [latin1 "HNHBK"] ∧
    ((∃ e, (m.UnmarshalHBCI value).returned = Outcome.aborted e) ↔
      (5 ≤ (splitBytes plusSign (trimQuoteSuffix value)).length ∧
        (splitBytes colon ((splitBytes plusSign (trimQuoteSuffix value)).getD 0 [])).length < 2)) := by
  refine ⟨by decide, by decide, by decide, ?_⟩
  unfold MessageHeaderSegment.UnmarshalHBCI
  simp only
  by_cases hlen : (splitBytes plusSign (trimQuoteSuffix value)).length = 0 ∨
      (splitBytes plusSign (trimQuoteSuffix value)).length < 5
  · rw [if_pos hlen]
    constructor
    · rintro ⟨e, he⟩
      cases he
    · rintro ⟨h5, _⟩
      omega
  · rw [if_neg hlen]
    cases hget : (splitBytes colon ((splitBytes plusSign (trimQuoteSuffix value)).getD 0 [])).get? 1 with
    | none =>
      have hl := List.get?_eq_none.mp hget
      simp only
      exact ⟨fun _ => ⟨by omega, by omega⟩, fun _ => ⟨_, rfl⟩⟩
    | some numStr =>
      have hl : 1 < (splitBytes colon
          ((splitBytes plusSign (trimQuoteSuffix value)).getD 0 [])).length := by
        by_contra hc
        have := List.get?_eq_none.mpr (Nat.le_of_not_lt hc)
        rw [this] at hget
        cases hget
      simp only
      constructor
      · rintro ⟨e, he⟩
        exfalso
        revert he
        cases h1 : Atoi numStr with
        | aborted e1 => exact absurd h1 (Atoi_not_aborted _ _)
        | error e1 => simp
        | ok num =>
          simp only
          cases h2 : Atoi ((splitBytes plusSign (trimQuoteSuffix value)).getD 1 []) with
          | aborted e1 => exact absurd h2 (Atoi_not_aborted _ _)
          | error e1 => simp
          | ok size =>
            simp only
            cases h3 : Atoi ((splitBytes plusSign (trimQuoteSuffix value)).getD 2 []) with
            | aborted e1 => exact absurd h3 (Atoi_not_aborted _ _)
            | error e1 => simp
            | ok v =>
              simp only
              cases h4 : Atoi ((splitBytes plusSign (trimQuoteSuffix value)).getD 4 []) with
              | aborted e1 => exact absurd h4 (Atoi_not_aborted _ _)
              | error e1 => simp
              | ok n => simp
      · rintro ⟨_, h2⟩
        omega

/-! ### Repeated `MarshalHBCI` -/

/-- C31 (amended). For a message with header, end and body set and a provider whose `Sign`
returns an error, `Sign` returns that error, and the message keeps what `Sign` did before
it asked the provider: the signature header and the signature end are set (the end without a
signature), and the segments carry the numbers 1, 2, ..., n + 4. -/
theorem Sign_failure_keeps_changes (b : BasicMessage) (h : MessageHeaderSegment)
    (e : MessageEndSegment) (segs : List (Option Segment)) (provider : SignatureProvider)
    (hH : b.Header = some h) (hE : b.End = some e) (hB : b.HBCIMessage = some segs)
    (hsig : ∀ payload, ∃ err, provider.Sign payload = Outcome.error err) :
    ∃ r err SH SE, b.Sign provider = Outcome.ok r ∧
      provider.Sign r.handed = Outcome.error err ∧ r.returned = Outcome.error err ∧
      r.message.SignatureBegin = some SH ∧ r.message.SignatureEnd = some SE ∧
      SE.elements = (b.hbciVersion.SignatureEnd (-1) []).elements ∧
      r.message.emitted.map Segment.unnumbered =
        [h.toSegment.unnumbered, SH.unnumbered] ++ segs.reduceOption.map Segment.unnumbered ++
          [SE.unnumbered, e.toSegment.unnumbered] ∧
      r.message.numbers =
        (List.range (segs.reduceOption.length + 4)).map (fun (i : Nat) => (i : Int) + 1) := by
  have hu := sign_unfold b h e segs provider hH hE hB
  simp only at hu
  obtain ⟨err, hs⟩ := hsig (writeBodyStrings (setBodyNumbers segs 2).1
    ([] ++ Segment.String
      { Header := (b.hbciVersion.PinTanSignatureHeader [] [] KeyName.zero).Header.SetNumber 2,
        elements := provider.WriteSignatureHeader
          (b.hbciVersion.PinTanSignatureHeader [] [] KeyName.zero).elements }))
  rw [hs] at hu
  simp only at hu
  refine ⟨_, err, _, _, hu, hs, rfl, rfl, rfl, rfl, ?_, ?_⟩
  · simp [BasicMessage.emitted, setBodyNumbers_unnumbered, MessageHeaderSegment.SetNumber,
      MessageEndSegment.SetNumber, SegmentHeader.SetNumber, MessageHeaderSegment.toSegment,
      MessageEndSegment.toSegment, Segment.unnumbered, MessageHeaderSegment.elements,
      MessageEndSegment.elements]
  · have hfun : (fun (i : Nat) => (i : Int) + 1) = (fun (i : Nat) => (0 : Int) + 1 + (i : Int)) := by
      funext i; omega
    have hk : segs.reduceOption.length + 4 = 2 + (segs.reduceOption.length + 2) := by omega
    rw [hk, hfun, range_map_append, range_map_append]
    simp [BasicMessage.numbers, BasicMessage.emitted, setBodyNumbers_numbers, setBodyNumbers_snd,
      MessageHeaderSegment.SetNumber, MessageEndSegment.SetNumber, SegmentHeader.SetNumber,
      MessageHeaderSegment.toSegment, MessageEndSegment.toSegment, List.range_succ]

/-- C31 (witness). The sample message and a provider that fails with `no key`. -/
theorem Sign_failure_keeps_changes_witness :
    ∃ r err SH SE, sampleMessage.Sign failingSigner = Outcome.ok r ∧
      failingSigner.Sign r.handed = Outcome.error err ∧ r.returned = Outcome.error err ∧
      r.message.SignatureBegin = some SH ∧ r.message.SignatureEnd = some SE ∧
      SE.elements = (sampleMessage.hbciVersion.SignatureEnd (-1) []).elements ∧
      r.message.emitted.map Segment.unnumbered =
        [(NewMessageHeaderSegment 0 220 (latin1 "0") 1).toSegment.unnumbered, SH.unnumbered] ++
          [some sampleB1, none, some sampleB2].reduceOption.map Segment.unnumbered ++
          [SE.unnumbered, (NewMessageEndSegment 9 1).toSegment.unnumbered] ∧
      r.message.numbers =
        (List.range ([some sampleB1, none, some sampleB2].reduceOption.length + 4)).map
          (fun (i : Nat) => (i : Int) + 1) :=
  Sign_failure_keeps_changes sampleMessage (NewMessageHeaderSegment 0 220 (latin1 "0") 1)
    (NewMessageEndSegment 9 1) [some sampleB1, none, some sampleB2] failingSigner rfl rfl rfl
    (fun _ => ⟨"no key", rfl⟩)

/-- C31 (counterexample). The sample message has no signature segments and the numbers 1,
3, 4, 9; after `Sign` with a provider that fails it has both signature segments and the
numbers 1 to 6, and the error is returned. -/
theorem Sign_failure_changes_message :
    sampleMessage.SignatureBegin = none ∧ sampleMessage.SignatureEnd = none ∧
    sampleMessage.numbers = [1, 3, 4, 9] ∧
    (match sampleMessage.Sign failingSigner with
      | Outcome.ok r =>
        some ((match r.returned with
            | Outcome.error err => some err
            | _ => none),
          r.message.SignatureBegin.isSome, r.message.SignatureEnd.isSome, r.message.numbers)
      | _ => none) = some (some "no key", true, true, [1, 2, 3, 4, 5, 6]) := by
  decide

/-! ### `CustomFieldTag.Unmarshal`: the receiver and the slices -/

theorem continues_refl (c : CustomFieldTag) : c.continues c CustomFieldTag.fresh := by
  simp [CustomFieldTag.continues, CustomFieldTag.fresh]

theorem setField_lockstep (c0 c f : CustomFieldTag) (k v : Bytes) (h : c.continues c0 f) :
    (∃ c1 f1, c.setField k v = Outcome.ok c1 ∧ f.setField k v = Outcome.ok f1 ∧
      c1.continues c0 f1) ∨
    (∃ err, c.setField k v = Outcome.error err ∧ f.setField k v = Outcome.error err) := by
  obtain ⟨h1, h2, h3, h4, h5, h6, h7, h8, h9, h10⟩ := h
  unfold CustomFieldTag.setField
  by_cases k0 : startsWith k (latin1 "?00") = true
  · rw [if_pos k0, if_pos k0]
    exact Or.inl ⟨_, _, rfl, rfl, h1, h2, h3, h4, h5, Or.inl rfl, h7, h8, h9, h10⟩
  rw [if_neg k0, if_neg k0]
  by_cases k1 : startsWith k (latin1 "?10") = true
  · rw [if_pos k1, if_pos k1]
    exact Or.inl ⟨_, _, rfl, rfl, h1, h2, h3, h4, h5, h6, Or.inl rfl, h8, h9, h10⟩
  rw [if_neg k1, if_neg k1]
  by_cases k2 : startsWith k (latin1 "?2") = true
  · rw [if_pos k2, if_pos k2]
    refine Or.inl ⟨_, _, rfl, rfl, ?_, h2, h3, h4, h5, h6, h7, h8, h9, h10⟩
    show c.Purpose ++ removeCRLF v = c0.Purpose ++ (f.Purpose ++ removeCRLF v)
    rw [h1, List.append_assoc]
  rw [if_neg k2, if_neg k2]
  by_cases k3 : startsWith k (latin1 "?30") = true
  · rw [if_pos k3, if_pos k3]
    cases hA : Atoi v with
    | ok n => exact Or.inl ⟨_, _, rfl, rfl, h1, h2, h3, h4, h5, h6, h7, Or.inl rfl, h9, h10⟩
    | error e => exact Or.inr ⟨e, rfl, rfl⟩
    | aborted e => exact absurd hA (Atoi_not_aborted v e)
  rw [if_neg k3, if_neg k3]
  by_cases k4 : startsWith k (latin1 "?31") = true
  · rw [if_pos k4, if_pos k4]
    cases hA : Atoi v with
    | ok n => exact Or.inl ⟨_, _, rfl, rfl, h1, h2, h3, h4, h5, h6, h7, h8, Or.inl rfl, h10⟩
    | error e => exact Or.inr ⟨e, rfl, rfl⟩
    | aborted e => exact absurd hA (Atoi_not_aborted v e)
  rw [if_neg k4, if_neg k4]
  by_cases k5 : startsWith k (latin1 "?32") = true
  · rw [if_pos k5, if_pos k5]
    exact Or.inl ⟨_, _, rfl, rfl, h1, h2, Or.inl rfl, h4, h5, h6, h7, h8, h9, h10⟩
  rw [if_neg k5, if_neg k5]
  by_cases k6 : startsWith k (latin1 "?33") = true
  · rw [if_pos k6, if_pos k6]
    refine Or.inl ⟨_, _, rfl, rfl, h1, h2, ?_, h4, h5, h6, h7, h8, h9, h10⟩
    rcases h3 with h3 | h3
    · left
      show c.Name ++ latin1 " " ++ v = f.Name ++ latin1 " " ++ v
      rw [h3]
    · right
      show c.Name ++ latin1 " " ++ v = c0.Name ++ (f.Name ++ latin1 " " ++ v)
      rw [h3]
      simp only [List.append_assoc]
  rw [if_neg k6, if_neg k6]
  by_cases k7 : startsWith k (latin1 "?34") = true
  · rw [if_pos k7, if_pos k7]
    cases hA : Atoi v with
    | ok n => exact Or.inl ⟨_, _, rfl, rfl, h1, h2, h3, h4, h5, h6, h7, h8, h9, Or.inl rfl⟩
    | error e => exact Or.inr ⟨e, rfl, rfl⟩
    | aborted e => exact absurd hA (Atoi_not_aborted v e)
  rw [if_neg k7, if_neg k7]
  by_cases k8 : startsWith k (latin1 "?6") = true
  · rw [if_pos k8, if_pos k8]
    refine Or.inl ⟨_, _, rfl, rfl, h1, ?_, h3, h4, h5, h6, h7, h8, h9, h10⟩
    show c.Purpose2 ++ removeCRLF v = c0.Purpose2 ++ (f.Purpose2 ++ removeCRLF v)
    rw [h2, List.append_assoc]
  rw [if_neg k8, if_neg k8]
  exact Or.inl ⟨_, _, rfl, rfl, h1, h2, h3, h4, h5, h6, h7, h8, h9, h10⟩

theorem processFields_lockstep (s : Bytes) :
    ∀ (L : List fieldKeyIndex) (c0 c f : CustomFieldTag), c.continues c0 f →
      (processFields s L c).returned = (processFields s L f).returned ∧
      (processFields s L c).tag.continues c0 (processFields s L f).tag
  | [], _, _, _, h => ⟨rfl, h⟩
  | entry :: rest, c0, c, f, h => by
    obtain ⟨nxt, hnxt⟩ : ∃ n : Nat, n = (rest.head?.map fieldKeyIndex.index).getD s.length :=
      ⟨_, rfl⟩
    have h0 : ∀ c : CustomFieldTag, processFields s (entry :: rest) c =
        match sliceBytes s (entry.index + 3) nxt with
        | Outcome.ok fieldValue =>
          match c.setField entry.fieldKey fieldValue with
          | Outcome.ok c1 => processFields s rest c1
          | Outcome.error err => ⟨Outcome.error err, c⟩
          | Outcome.aborted err => ⟨Outcome.aborted err, c⟩
        | Outcome.error err => ⟨Outcome.error err, c⟩
        | Outcome.aborted err => ⟨Outcome.aborted err, c⟩ := by
      intro c
      subst hnxt
      cases rest <;> rfl
    rw [h0 c, h0 f]
    cases hs : sliceBytes s (entry.index + 3) nxt with
    | ok fieldValue =>
      rcases setField_lockstep c0 c f entry.fieldKey fieldValue h with
        ⟨c1, f1, hc, hf, hr⟩ | ⟨err, hc, hf⟩
      · dsimp only
        rw [hc, hf]
        exact processFields_lockstep s rest c0 c1 f1 hr
      · dsimp only
        rw [hc, hf]
        exact ⟨rfl, h⟩
    | error err => exact ⟨rfl, h⟩
    | aborted err => exact ⟨rfl, h⟩

/-- C33 (amended). `Unmarshal` into a receiver that holds content returns what it returns
for a fresh tag, and the receiver is left with the content of the fresh result laid over
the previous content: `Purpose` and `Purpose2` are the previous content followed by the
fresh one, `Name` is the fresh one or the previous one followed by it, and every other
field is the fresh one or the previous one. -/
theorem Unmarshal_continues_receiver (extract : Bytes → Outcome (List Bytes))
    (c : CustomFieldTag) (value : Bytes) :
    (c.Unmarshal extract value).returned =
      (CustomFieldTag.fresh.Unmarshal extract value).returned ∧
    (c.Unmarshal extract value).tag.Purpose =
      c.Purpose ++ (CustomFieldTag.fresh.Unmarshal extract value).tag.Purpose ∧
    (c.Unmarshal extract value).tag.Purpose2 =
      c.Purpose2 ++ (CustomFieldTag.fresh.Unmarshal extract value).tag.Purpose2 ∧
    ((c.Unmarshal extract value).tag.Name =
        (CustomFieldTag.fresh.Unmarshal extract value).tag.Name ∨
      (c.Unmarshal extract value).tag.Name =
        c.Name ++ (CustomFieldTag.fresh.Unmarshal extract value).tag.Name) ∧
    (c.Unmarshal extract value).tag.continues c
      (CustomFieldTag.fresh.Unmarshal extract value).tag := by
  have key : (c.Unmarshal extract value).returned =
        (CustomFieldTag.fresh.Unmarshal extract value).returned ∧
      (c.Unmarshal extract value).tag.continues c
        (CustomFieldTag.fresh.Unmarshal extract value).tag := by
    have hrefl := continues_refl c
    unfold CustomFieldTag.Unmarshal
    cases hx : extract value with
    | error err => exact ⟨rfl, hrefl⟩
    | aborted err => exact ⟨rfl, hrefl⟩
    | ok elems =>
      simp only
      by_cases hl : elems.length ≠ 2
      · rw [if_pos hl, if_pos hl]
        exact ⟨rfl, hrefl⟩
      rw [if_neg hl, if_neg hl]
      have h1 : ({ c with Tag := elems.getD 0 [] } : CustomFieldTag).continues c
          { CustomFieldTag.fresh with Tag := elems.getD 0 [] } := by
        obtain ⟨r1, r2, r3, _, r5, r6, r7, r8, r9, r10⟩ := hrefl
        exact ⟨r1, r2, r3, Or.inl rfl, r5, r6, r7, r8, r9, r10⟩
      cases hs1 : sliceBytes (elems.getD 1 []) 0 3 with
      | error err => exact ⟨rfl, h1⟩
      | aborted err => exact ⟨rfl, h1⟩
      | ok code =>
        simp only
        cases ha : Atoi code with
        | error err => exact ⟨rfl, h1⟩
        | aborted err => exact ⟨rfl, h1⟩
        | ok tId =>
          simp only
          have h2 : ({ c with Tag := elems.getD 0 [], TransactionID := tId } :
              CustomFieldTag).continues c
              { CustomFieldTag.fresh with Tag := elems.getD 0 [], TransactionID := tId } := by
            obtain ⟨r1, r2, r3, _, _, r6, r7, r8, r9, r10⟩ := hrefl
            exact ⟨r1, r2, r3, Or.inl rfl, Or.inl rfl, r6, r7, r8, r9, r10⟩
          cases hs2 : sliceBytes (elems.getD 1 []) 3 (elems.getD 1 []).length with
          | error err => exact ⟨rfl, h2⟩
          | aborted err => exact ⟨rfl, h2⟩
          | ok fields => exact processFields_lockstep fields _ c _ _ h2
  exact ⟨key.1, key.2.1, key.2.2.1, key.2.2.2.1, key.2⟩

/-- C33 (counterexample). Unmarshalling `:86:166?00TEXT?20A?21B?32MAX?33M?60X` into a fresh
tag gives the purpose `AB` and the second purpose `X`; unmarshalling the same bytes again
into this tag gives `ABAB` and `XX`. `:86:166?20C?33N` gives the name ` N` in a fresh tag
and `MAX M N`, with the booking text `TEXT` still there, in the used one. -/
theorem Unmarshal_twice_doubles_purpose :
    (CustomFieldTag.fresh.Unmarshal sampleExtractTagElements
      (latin1 ":86:166?00TEXT?20A?21B?32MAX?33M?60X")) = ⟨Outcome.ok (), sampleUsedTag⟩ ∧
    (sampleUsedTag.Unmarshal sampleExtractTagElements
      (latin1 ":86:166?00TEXT?20A?21B?32MAX?33M?60X")) =
      ⟨Outcome.ok (),
        { sampleUsedTag with Purpose := latin1 "ABAB", Purpose2 := latin1 "XX" }⟩ ∧
    (sampleUsedTag.Unmarshal sampleExtractTagElements (latin1 ":86:166?20C?33N")) =
      ⟨Outcome.ok (),
        { sampleUsedTag with Purpose := latin1 "ABC", Name := latin1 "MAX M N" }⟩ ∧
    (CustomFieldTag.fresh.Unmarshal sampleExtractTagElements (latin1 ":86:166?20C?33N")) =
      ⟨Outcome.ok (),
        { CustomFieldTag.fresh with
          Tag := latin1 "86", TransactionID := 166, Purpose := latin1 "C",
          Name := latin1 " N" }⟩ := by
  decide

/-- C32 (the code at the failing input). On `:86:166?32NAME?20PURPOSE` the found keys are
`?20` at 7 and `?32` at 0, in catalogue order; the value of `?20` is cut from 10 to 0, and
the call panics. The same happens on `?21A?20B`, and on the value `16`, shorter than three
bytes (a slice holds no bytes beyond its length here). With the keys in catalogue order the
call succeeds. -/
theorem Unmarshal_slices_out_of_range :
    (CustomFieldTag.fresh.Unmarshal sampleExtractTagElements
      (latin1 ":86:166?32NAME?20PURPOSE")).returned =
      Outcome.aborted "slice bounds out of range" ∧
    findFieldKeys (latin1 "?32NAME?20PURPOSE") = [⟨latin1 "?20", 7⟩, ⟨latin1 "?32", 0⟩] ∧
    sliceBytes (latin1 "?32NAME?20PURPOSE") (7 + 3) 0 =
      Outcome.aborted "slice bounds out of range" ∧
    (CustomFieldTag.fresh.Unmarshal sampleExtractTagElements
      (latin1 ":86:166?21A?20B")).returned = Outcome.aborted "slice bounds out of range" ∧
    (CustomFieldTag.fresh.Unmarshal sampleExtractTagElements (latin1 ":86:16")).returned =
      Outcome.aborted "slice bounds out of range" ∧
    (CustomFieldTag.fresh.Unmarshal sampleExtractTagElements
      (latin1 ":86:166?20PURPOSE?32NAME")).returned = Outcome.ok () := by
  decide

end Hbci
